import Mathlib

/-!
Relocation engine of the ia64 run-time linker (`libexec/rtld-elf/ia64/reloc.c`).

A shallow embedding of `reloc.c` and the properties of it that the specification states.

Modelling conventions:

* `Elf_Addr` values and pointers are natural numbers; every addition the C code performs on
  them is reduced modulo `2 ^ 64`.  Plain copies of a value are not reduced.
* The storage the code touches is kept in three separate stores, following the C object model
  (an access through `relocbase + r_offset` stays inside the object image, the arena chunks and
  the `struct fptr *` tables are objects of their own):
  - `State.mem`: the 64-bit words of the object images, keyed by the address of the word
    (`load64`, `store64`, `*where`, `where[1]`, `pltres[i]`);
  - `State.fptr_mem`: the `struct fptr` objects of the arena, keyed by their address;
  - a `struct fptr **` table is a value `Option (List Nat)`: `none` is the null pointer, and
    `some tbl` is a pointer to a table whose slots hold `tbl`.
* The statics `current_chunk`, `next_fptr`, `last_fptr` are fields of `State`.
* `malloc`, `alloca` and `find_symdef` are not part of `reloc.c`; they are fields of `Env`.
  `malloc` is an oracle indexed by the number of calls made so far (`State.mallocs`); a result
  of `0` is the null pointer.
* `State.trace` is a ghost log, in program order, of the 64-bit stores into object images, the
  `ia64_mf()` fences, the calls to `find_symdef` and the calls to `alloc_fptr`.
* Undefined behaviour (a store through a null pointer, a table access outside the table) is the
  outcome `Result.fault`; `errx` and a failed `assert` are outcomes of their own.
-/

namespace Rtld

/-! ## Constants and macros of the ELF headers -/

/-- Modelled from the spec: the relocation type `R_IA64_DIR64LSB` is declared in the machine's
ELF header, which is not among the sources; the value is the one of the ia64 ELF ABI. -/
def R_IA64_DIR64LSB : Nat := 0x27

/-- Modelled from the spec: the relocation type `R_IA64_FPTR64LSB` is declared in the machine's
ELF header, which is not among the sources; the value is the one of the ia64 ELF ABI. -/
def R_IA64_FPTR64LSB : Nat := 0x47

/-- Modelled from the spec: the relocation type `R_IA64_REL64LSB` is declared in the machine's
ELF header, which is not among the sources; the value is the one of the ia64 ELF ABI. -/
def R_IA64_REL64LSB : Nat := 0x6f

/-- Modelled from the spec: the relocation type `R_IA64_IPLTLSB` is declared in the machine's
ELF header, which is not among the sources; the value is the one of the ia64 ELF ABI. -/
def R_IA64_IPLTLSB : Nat := 0x81

/-- Modelled from the spec: the symbol binding `STB_WEAK` is declared in the ELF header, which
is not among the sources; the value is the one of the ELF ABI. -/
def STB_WEAK : Nat := 2

/-- Modelled from the spec: the dynamic tag `DT_NULL` is declared in the ELF header, which is
not among the sources; the value is the one of the ELF ABI. -/
def DT_NULL : Int := 0

/-- Modelled from the spec: the dynamic tag `DT_IA64_PLT_RESERVE` is declared in the machine's
ELF header, which is not among the sources; the value is the one of the ia64 ELF ABI. -/
def DT_IA64_PLT_RESERVE : Int := 0x70000000

/-- Modelled from the spec: the macro `ELF_R_SYM` is declared in the ELF header, which is not
among the sources; for 64-bit ELF it is the upper half of `r_info`. -/
def ELF_R_SYM (info : Nat) : Nat := info / 2 ^ 32

/-- Modelled from the spec: the macro `ELF_R_TYPE` is declared in the ELF header, which is not
among the sources; for 64-bit ELF it is the lower half of `r_info`. -/
def ELF_R_TYPE (info : Nat) : Nat := info % 2 ^ 32

/-- Modelled from the spec: the macro `ELF_ST_BIND` is declared in the ELF header, which is not
among the sources; the binding is the upper nibble of `st_info`. -/
def ELF_ST_BIND (info : Nat) : Nat := info / 16

/-- The `#define FPTR_CHUNK_SIZE 64`. -/
def FPTR_CHUNK_SIZE : Nat := 64

/-- The `sizeof(struct fptr)`: two `Elf_Addr` words, the target in word 0 and the global pointer
in word 1 (the layout `reloc_jmpslot` writes through `where[0]` and `where[1]`). -/
def sizeof_fptr : Nat := 16

/-- The `sizeof(struct fptr_chunk)`. -/
def sizeof_fptr_chunk : Nat := FPTR_CHUNK_SIZE * sizeof_fptr

/-- The `sizeof(struct fptr *)`. -/
def sizeof_fptr_ptr : Nat := 8

/-! ## Data model -/

/-- The fields of `Elf_Sym` that `reloc.c` reads. -/
structure Elf_Sym where
  st_value : Nat
  st_info : Nat

/-- A relocation entry without addend. -/
structure Elf_Rel where
  r_offset : Nat
  r_info : Nat

/-- A relocation entry with addend (`r_addend` is a signed 64-bit value). -/
structure Elf_Rela where
  r_offset : Nat
  r_info : Nat
  r_addend : Int

/-- A dynamic-section entry: its tag and the `d_un.d_ptr` member. -/
structure Elf_Dyn where
  d_tag : Int
  d_ptr : Nat

/-- The `struct fptr`: a function descriptor. -/
structure fptr where
  target : Nat
  gp : Nat
deriving DecidableEq

/-- The fields of `Obj_Entry` that `reloc.c` uses.  `addr` is the address of the record itself
(the value of an `Obj_Entry *`), `symtab i` is `obj->symtab[i]`, and each relocation table is the
list of the entries between its base pointer and its limit (empty for a null base pointer). -/
structure Obj_Entry where
  addr : Nat
  relocbase : Nat
  dynamic : List Elf_Dyn
  symtab : Nat → Elf_Sym
  nchains : Nat
  rel : List Elf_Rel
  rela : List Elf_Rela
  pltrel : List Elf_Rel
  pltrelsize : Nat
  pltrela : List Elf_Rela
  pltgot : Nat
  priv : Option (List Nat)
  jmpslots_done : Bool

/-- The observable actions, logged in program order. -/
inductive Event where
  | store (addr val : Nat)
  | mf
  | find_symdef (symnum : Nat) (in_plt : Bool)
  | alloc_fptr (target gp : Nat)
deriving DecidableEq

/-- The mutable state: memory, the arena statics, the number of `malloc` calls, the log. -/
structure State where
  mem : Nat → Nat
  fptr_mem : Nat → fptr
  current_chunk : Nat
  next_fptr : Nat
  last_fptr : Nat
  mallocs : Nat
  trace : List Event

/-- The collaborators of `reloc.c`: the address of `first_chunk`; `malloc n size`, the result of
the `n`-th call of `malloc`; `alloca size`; `find_symdef symnum obj in_plt`, the symbol resolver
of `rtld.c`, which receives the pointer `obj` and yields the definition and the defining object
(its memo cache does not change its results, so the cache argument is not modelled); and the
address of the descriptor of `_rtld_bind_start`. -/
structure Env where
  first_chunk : Nat
  malloc : Nat → Nat → Nat
  alloca : Nat → Nat
  find_symdef : Nat → Nat → Bool → Option (Elf_Sym × Obj_Entry)
  rtld_bind_start : Nat

/-- The outcome of running a function: a normal return, undefined behaviour, process exit
through `errx`, or a failed `assert`; each with the state reached. -/
inductive Result (α : Type) where
  | ok (val : α) (s : State)
  | fault (s : State)
  | errx (s : State)
  | assert_fail (s : State)

/-- The state an outcome ends in. -/
def Result.state {α : Type} : Result α → State
  | .ok _ s => s
  | .fault s => s
  | .errx s => s
  | .assert_fail s => s

/-- Sequencing: continue after a normal return, pass every other outcome on. -/
def Result.bind {α β : Type} (r : Result α) (f : α → State → Result β) : Result β :=
  match r with
  | .ok v s => f v s
  | .fault s => .fault s
  | .errx s => .errx s
  | .assert_fail s => .assert_fail s

/-- Pointwise update of a store. -/
def upd {α : Type} (m : Nat → α) (a : Nat) (v : α) : Nat → α :=
  fun x => if x = a then v else m x

/-- Addition of two `Elf_Addr` values. -/
def add64 (a b : Nat) : Nat := (a + b) % 2 ^ 64

/-- Addition of a signed 64-bit addend to an `Elf_Addr`. -/
def add64s (a : Nat) (b : Int) : Nat := (((a : Int) + b) % 2 ^ 64).toNat

/-- The macro `load64(p)`, also a plain `*p`. -/
def load64 (s : State) (p : Nat) : Nat := s.mem p

/-- The macro `store64(p, v)`, also a plain `*p = v`. -/
def store64 (s : State) (p v : Nat) : State :=
  { s with mem := upd s.mem p v, trace := s.trace ++ [Event.store p v] }

/-- The fence `ia64_mf()`. -/
def ia64_mf (s : State) : State :=
  { s with trace := s.trace ++ [Event.mf] }

/-- The arena statics as initialised at load time, over any memory. -/
def init_arena (env : Env) (s : State) : Prop :=
  s.current_chunk = env.first_chunk ∧ s.next_fptr = env.first_chunk ∧
    s.last_fptr = env.first_chunk + FPTR_CHUNK_SIZE * sizeof_fptr

/-! ## The functions of `reloc.c` -/

/-- The function `alloc_fptr` (lines 83-98). -/
def alloc_fptr (env : Env) (target gp : Nat) (s : State) : Result Nat :=
  let s0 : State := { s with trace := s.trace ++ [Event.alloc_fptr target gp] }
  let s1 : State :=
    if s0.next_fptr = s0.last_fptr then
      let chunk := env.malloc s0.mallocs sizeof_fptr_chunk
      { s0 with
        mallocs := s0.mallocs + 1
        current_chunk := chunk
        next_fptr := chunk
        last_fptr := chunk + FPTR_CHUNK_SIZE * sizeof_fptr }
    else s0
  let p := s1.next_fptr
  let s2 : State := { s1 with next_fptr := p + sizeof_fptr }
  if p = 0 then .fault s2
  else
    let s3 : State := { s2 with fptr_mem := upd s2.fptr_mem p { s2.fptr_mem p with target := target } }
    let s4 : State := { s3 with fptr_mem := upd s3.fptr_mem p { s3.fptr_mem p with gp := gp } }
    .ok p s4

/-- The call `find_symdef(symnum, obj, &defobj, in_plt, cache)`, logged. -/
def call_find_symdef (env : Env) (symnum : Nat) (obj : Obj_Entry) (in_plt : Bool) (s : State) :
    Option (Elf_Sym × Obj_Entry) × State :=
  (env.find_symdef symnum obj.addr in_plt,
    { s with trace := s.trace ++ [Event.find_symdef symnum in_plt] })

/-- The function `reloc_non_plt_obj` (lines 101-194).  The result is the `int` returned and the
table `fptrs` points to afterwards. -/
def reloc_non_plt_obj (env : Env) (obj_rtld : Nat) (obj : Obj_Entry) (rela : Elf_Rela)
    (fptrs : Option (List Nat)) (s : State) : Result (Int × Option (List Nat)) :=
  let where_ := add64 obj.relocbase rela.r_offset
  if ELF_R_TYPE rela.r_info = R_IA64_REL64LSB then
    if obj.addr ≠ obj_rtld then
      .ok (0, fptrs) (store64 s where_ (add64 (load64 s where_) obj.relocbase))
    else .ok (0, fptrs) s
  else if ELF_R_TYPE rela.r_info = R_IA64_DIR64LSB then
    match call_find_symdef env (ELF_R_SYM rela.r_info) obj false s with
    | (none, s1) => .ok (-1, fptrs) s1
    | (some (def_, defobj), s1) =>
      let target := add64 defobj.relocbase def_.st_value
      .ok (0, fptrs) (store64 s1 where_ (add64s target rela.r_addend))
  else if ELF_R_TYPE rela.r_info = R_IA64_FPTR64LSB then
    let symnum := ELF_R_SYM rela.r_info
    let (found, s1) := call_find_symdef env symnum obj false s
    let (def_, defobj) :=
      match found with
      | some r => r
      | none => (obj.symtab symnum, obj)
    let ref := obj.symtab symnum
    let (target, gp) :=
      if def_.st_value = 0 ∧ ELF_ST_BIND ref.st_info = STB_WEAK then (0, 0)
      else (add64 defobj.relocbase def_.st_value, defobj.pltgot)
    match fptrs with
    | none =>
      (alloc_fptr env target gp s1).bind fun p s2 =>
        .ok (0, none) (store64 s2 where_ p)
    | some tbl =>
      if symnum < tbl.length then
        if tbl.getD symnum 0 = 0 then
          (alloc_fptr env target gp s1).bind fun p s2 =>
            .ok (0, some (tbl.set symnum p)) (store64 s2 where_ p)
        else .ok (0, some tbl) (store64 s1 where_ (tbl.getD symnum 0))
      else .fault s1
  else .ok (-1, fptrs) s

/-- The local `locrela` of `reloc_non_plt` (lines 228-232): an entry without addend brought to
the form with addend, the addend being zero. -/
def locrela (rel : Elf_Rel) : Elf_Rela :=
  { r_info := rel.r_info, r_offset := rel.r_offset, r_addend := 0 }

/-- The first loop of `reloc_non_plt` (lines 226-235): entries without addend. -/
def rel_loop (env : Env) (obj_rtld : Nat) (obj : Obj_Entry) :
    List Elf_Rel → Option (List Nat) → State → Result (Int × Option (List Nat))
  | [], fptrs, s => .ok (0, fptrs) s
  | rel :: rest, fptrs, s =>
    (reloc_non_plt_obj env obj_rtld obj (locrela rel) fptrs s).bind fun r s1 =>
      if r.1 ≠ 0 then .ok (-1, r.2) s1 else rel_loop env obj_rtld obj rest r.2 s1

/-- The second loop of `reloc_non_plt` (lines 238-242): entries with addend. -/
def rela_loop (env : Env) (obj_rtld : Nat) (obj : Obj_Entry) :
    List Elf_Rela → Option (List Nat) → State → Result (Int × Option (List Nat))
  | [], fptrs, s => .ok (0, fptrs) s
  | rela :: rest, fptrs, s =>
    (reloc_non_plt_obj env obj_rtld obj rela fptrs s).bind fun r s1 =>
      if r.1 ≠ 0 then .ok (-1, r.2) s1 else rela_loop env obj_rtld obj rest r.2 s1

/-- The function `reloc_non_plt` (lines 197-256).  The result is the `int` returned and the
object record afterwards. -/
def reloc_non_plt (env : Env) (obj : Obj_Entry) (obj_rtld : Nat) (s : State) :
    Result (Int × Obj_Entry) :=
  let (p, s1) : Nat × State :=
    if obj.addr = obj_rtld then (env.alloca (obj.nchains * sizeof_fptr_ptr), s)
    else (env.malloc s.mallocs (obj.nchains * sizeof_fptr_ptr),
      { s with mallocs := s.mallocs + 1 })
  if p = 0 then .ok (-1, obj) s1
  else
    let fptrs : Option (List Nat) := some (List.replicate obj.nchains 0)
    (rel_loop env obj_rtld obj obj.rel fptrs s1).bind fun r1 s2 =>
      if r1.1 ≠ 0 then .ok (-1, obj) s2
      else
        (rela_loop env obj_rtld obj obj.rela r1.2 s2).bind fun r2 s3 =>
          if r2.1 ≠ 0 then .ok (-1, obj) s3
          else if obj.addr ≠ obj_rtld then .ok (0, { obj with priv := r2.2 }) s3
          else .ok (0, { obj with priv := none }) s3

/-- The loop body shared by both branches of `reloc_plt` (lines 269-277 and 284-292). -/
def reloc_plt_entry (obj : Obj_Entry) (r_offset r_info : Nat) (s : State) : Result Unit :=
  if ELF_R_TYPE r_info = R_IA64_IPLTLSB then
    let where_ := add64 obj.relocbase r_offset
    .ok () (store64 s where_ (add64 (load64 s where_) obj.relocbase))
  else .assert_fail s

/-- The loops of `reloc_plt`, over the `(r_offset, r_info)` pairs of the entries. -/
def reloc_plt_loop (obj : Obj_Entry) : List (Nat × Nat) → State → Result Unit
  | [], s => .ok () s
  | e :: rest, s =>
    (reloc_plt_entry obj e.1 e.2 s).bind fun _ s1 => reloc_plt_loop obj rest s1

/-- The function `reloc_plt` (lines 259-295). -/
def reloc_plt (obj : Obj_Entry) (s : State) : Result Int :=
  if obj.pltrelsize ≠ 0 then
    (reloc_plt_loop obj (obj.pltrel.map fun r => (r.r_offset, r.r_info)) s).bind fun _ s1 =>
      .ok 0 s1
  else
    (reloc_plt_loop obj (obj.pltrela.map fun r => (r.r_offset, r.r_info)) s).bind fun _ s1 =>
      .ok 0 s1

/-- The function `reloc_jmpslot` (lines 354-380). -/
def reloc_jmpslot (where_ target : Nat) (obj : Obj_Entry) (s : State) : Result Nat :=
  let stubaddr := load64 s where_
  if stubaddr ≠ target then
    let s1 := store64 s (add64 where_ 8) obj.pltgot
    let s2 := ia64_mf s1
    let s3 := store64 s2 where_ target
    let s4 := ia64_mf s3
    .ok where_ s4
  else .ok where_ s

/-- The loops of `reloc_jmpslots` (lines 310-325 and 332-347), over the `(r_offset, r_info)`
pairs of the entries; `assert_type` tells whether the loop asserts the relocation type (the
first loop does, in the second the assertion is commented out).  The result is `true` when the
loop ran to its end and `false` when it left the function with `return -1`. -/
def reloc_jmpslots_loop (env : Env) (obj : Obj_Entry) (assert_type : Bool) :
    List (Nat × Nat) → State → Result Bool
  | [], s => .ok true s
  | e :: rest, s =>
    if assert_type = true ∧ ELF_R_TYPE e.2 ≠ R_IA64_IPLTLSB then .assert_fail s
    else
      let where_ := add64 obj.relocbase e.1
      match call_find_symdef env (ELF_R_SYM e.2) obj true s with
      | (none, s1) => .ok false s1
      | (some (def_, defobj), s1) =>
        (reloc_jmpslot where_ (add64 defobj.relocbase def_.st_value) defobj s1).bind
          fun _ s2 => reloc_jmpslots_loop env obj assert_type rest s2

/-- The function `reloc_jmpslots` (lines 298-351).  The result is the `int` returned and the
object record afterwards. -/
def reloc_jmpslots (env : Env) (obj : Obj_Entry) (s : State) : Result (Int × Obj_Entry) :=
  if obj.jmpslots_done = true then .ok (0, obj) s
  else
    let loop :=
      if obj.pltrelsize ≠ 0 then
        reloc_jmpslots_loop env obj true (obj.pltrel.map fun r => (r.r_offset, r.r_info)) s
      else
        reloc_jmpslots_loop env obj false (obj.pltrela.map fun r => (r.r_offset, r.r_info)) s
    loop.bind fun finished s1 =>
      if finished = true then .ok (0, { obj with jmpslots_done := true }) s1
      else .ok (-1, obj) s1

/-- The function `do_copy_relocations` (lines 387-392). -/
def do_copy_relocations (_dstobj : Obj_Entry) (s : State) : Result Int := .ok 0 s

/-- The function `make_function_pointer` (lines 397-421); `sym` is `&obj->symtab[index]`.  The
result is the pointer returned and the object record afterwards. -/
def make_function_pointer (env : Env) (index : Nat) (obj : Obj_Entry) (s : State) :
    Result (Nat × Obj_Entry) :=
  let sym := obj.symtab index
  let r0 : Result (List Nat × Obj_Entry) :=
    match obj.priv with
    | some tbl => .ok (tbl, obj) s
    | none =>
      let p := env.malloc s.mallocs (obj.nchains * sizeof_fptr_ptr)
      let s1 : State := { s with mallocs := s.mallocs + 1 }
      if p = 0 then .fault s1
      else
        let tbl := List.replicate obj.nchains 0
        .ok (tbl, { obj with priv := some tbl }) s1
  r0.bind fun r s1 =>
    if index < r.1.length then
      if r.1.getD index 0 = 0 then
        let target := add64 obj.relocbase sym.st_value
        let gp := obj.pltgot
        (alloc_fptr env target gp s1).bind fun p s2 =>
          .ok (p, { r.2 with priv := some (r.1.set index p) }) s2
      else .ok (r.1.getD index 0, r.2) s1
    else .fault s1

/-- The scan of `init_pltgot` (lines 445-449) for the last `DT_IA64_PLT_RESERVE` entry before
the `DT_NULL` terminator; `none` when the array ends without a terminator. -/
def find_pltres (obj : Obj_Entry) : List Elf_Dyn → Nat → Option Nat
  | [], _ => none
  | dynp :: rest, pltres =>
    if dynp.d_tag ≠ DT_NULL then
      if dynp.d_tag = DT_IA64_PLT_RESERVE then find_pltres obj rest (add64 obj.relocbase dynp.d_ptr)
      else find_pltres obj rest pltres
    else some pltres

/-- The function `init_pltgot` (lines 436-460).  `FPTR_TARGET` and `FPTR_GP` read the two words
of the descriptor of `_rtld_bind_start`. -/
def init_pltgot (env : Env) (obj : Obj_Entry) (s : State) : Result Unit :=
  match find_pltres obj obj.dynamic 0 with
  | none => .fault s
  | some pltres =>
    if pltres = 0 then .errx s
    else
      let s1 := store64 s pltres obj.addr
      let s2 := store64 s1 (add64 pltres 8) (load64 s1 env.rtld_bind_start)
      let s3 := store64 s2 (add64 pltres 16) (load64 s2 (add64 env.rtld_bind_start 8))
      .ok () s3

/-! ## Sample environment used to instantiate the theorems -/

/-- A resolver that finds every symbol at value `256 * (symnum + 1)` in one defining object. -/
def sample_defobj : Obj_Entry :=
  { addr := 2, relocbase := 1048576, dynamic := [], symtab := fun _ => ⟨0, 0⟩, nchains := 0,
    rel := [], rela := [], pltrel := [], pltrelsize := 0, pltrela := [], pltgot := 2097152,
    priv := none, jmpslots_done := false }

/-- A sample environment: `first_chunk` at 4096, `malloc` handing out blocks 2048 bytes apart,
and a resolver that finds every symbol. -/
def sample_env : Env :=
  { first_chunk := 4096
    malloc := fun n _ => 65536 + 2048 * n
    alloca := fun _ => 32768
    find_symdef := fun symnum _ _ => some (⟨256 * (symnum + 1), 0⟩, sample_defobj)
    rtld_bind_start := 64 }

/-- A sample state: zeroed memory and the arena statics as initialised at load time. -/
def sample_state : State :=
  { mem := fun _ => 0, fptr_mem := fun _ => ⟨0, 0⟩, current_chunk := 4096, next_fptr := 4096,
    last_fptr := 4096 + 1024, mallocs := 0, trace := [] }

/-- A sample object with two PLT entries (without addend) and no other relocation. -/
def sample_plt_obj : Obj_Entry :=
  { addr := 1, relocbase := 8192, dynamic := [⟨DT_NULL, 0⟩],
    symtab := fun _ => ⟨0, 0⟩, nchains := 4,
    rel := [], rela := [],
    pltrel := [⟨0, 1 * 2 ^ 32 + R_IA64_IPLTLSB⟩, ⟨16, 2 * 2 ^ 32 + R_IA64_IPLTLSB⟩],
    pltrelsize := 32, pltrela := [], pltgot := 12288, priv := none, jmpslots_done := false }

/-! ## Vocabulary of the properties -/

/-- The relocation entries of an object in the order `reloc_non_plt` processes them: the entries
without addend, brought to the form with addend, then the entries with addend. -/
def reloc_entries (obj : Obj_Entry) : List Elf_Rela := obj.rel.map locrela ++ obj.rela

/-- The address of the target word of an entry: `obj->relocbase + rela->r_offset`. -/
def reloc_where (obj : Obj_Entry) (rela : Elf_Rela) : Nat := add64 obj.relocbase rela.r_offset

/-- The definition a descriptor relocation uses (lines 150-155): the one the resolver finds, or
else the object's own symbol-table entry, defined in the object itself. -/
def fptr_def (env : Env) (obj : Obj_Entry) (symnum : Nat) : Elf_Sym × Obj_Entry :=
  match env.find_symdef symnum obj.addr false with
  | some r => r
  | none => (obj.symtab symnum, obj)

/-- A sequence of calls of `alloc_fptr`, one per `(target, gp)` pair; the result lists the
pointers returned, in order. -/
def alloc_fptr_seq (env : Env) : List (Nat × Nat) → State → Result (List Nat)
  | [], s => .ok [] s
  | a :: rest, s =>
    (alloc_fptr env a.1 a.2 s).bind fun p s1 =>
      (alloc_fptr_seq env rest s1).bind fun ps s2 => .ok (p :: ps) s2

/-- The table and state `reloc_non_plt` starts its loops with (lines 214-219): the pointer
returned for the table, and the state after the call. -/
def pass_start (env : Env) (obj : Obj_Entry) (obj_rtld : Nat) (s : State) : Nat × State :=
  if obj.addr = obj_rtld then (env.alloca (obj.nchains * sizeof_fptr_ptr), s)
  else (env.malloc s.mallocs (obj.nchains * sizeof_fptr_ptr), { s with mallocs := s.mallocs + 1 })

/-- An allocator that never returns a chunk: every `malloc` yields the null pointer. -/
def null_malloc_env : Env :=
  { first_chunk := 4096
    malloc := fun _ _ => 0
    alloca := fun _ => 32768
    find_symdef := fun _ _ _ => none
    rtld_bind_start := 64 }

/-- The `(target, gp)` pair a descriptor relocation computes (lines 162-170): the null pair for
a definition of value zero referenced through a weak symbol, else the address and the global
pointer of the definition. -/
def fptr_pair (env : Env) (obj : Obj_Entry) (symnum : Nat) : Nat × Nat :=
  if (fptr_def env obj symnum).1.st_value = 0 ∧
      ELF_ST_BIND (obj.symtab symnum).st_info = STB_WEAK then (0, 0)
  else (add64 (fptr_def env obj symnum).2.relocbase (fptr_def env obj symnum).1.st_value,
    (fptr_def env obj symnum).2.pltgot)

/-- The pointer the next call of `alloc_fptr` takes as the descriptor: the bump cursor, or the
start of the chunk `malloc` returns when the current chunk is used up. -/
def next_slot (env : Env) (s : State) : Nat :=
  if s.next_fptr = s.last_fptr then env.malloc s.mallocs sizeof_fptr_chunk else s.next_fptr

/-- A sample object with a weak undefined symbol 3 and one descriptor relocation for it. -/
def sample_weak_obj : Obj_Entry :=
  { addr := 1, relocbase := 8192, dynamic := [⟨DT_NULL, 0⟩],
    symtab := fun _ => ⟨0, STB_WEAK * 16⟩, nchains := 4,
    rel := [], rela := [⟨24, 3 * 2 ^ 32 + R_IA64_FPTR64LSB, 0⟩],
    pltrel := [], pltrelsize := 0, pltrela := [], pltgot := 12288, priv := none,
    jmpslots_done := false }

/-- A sample object, not the loader: one self-relative entry without addend, then with addend a
descriptor entry, an entry of the unknown type 5, and a direct entry. -/
def sample_bad_obj : Obj_Entry :=
  { addr := 1, relocbase := 8192, dynamic := [⟨DT_NULL, 0⟩],
    symtab := fun _ => ⟨64, 0⟩, nchains := 4,
    rel := [⟨0, R_IA64_REL64LSB⟩],
    rela := [⟨8, 2 * 2 ^ 32 + R_IA64_FPTR64LSB, 0⟩, ⟨16, 5, 0⟩,
      ⟨24, 1 * 2 ^ 32 + R_IA64_DIR64LSB, 4⟩],
    pltrel := [], pltrelsize := 0, pltrela := [], pltgot := 12288, priv := none,
    jmpslots_done := false }

/-- The chunk `malloc` returns when its `i`-th call is the one `alloc_fptr` makes. -/
def chunk_at (env : Env) (i : Nat) : Nat := env.malloc i sizeof_fptr_chunk

/-- The arena is in order and the allocator is sound from the state on: the cursor reaches the
end of the current chunk after a whole number of descriptors, and the chunks the allocator
returns from now on overlap neither the rest of the current chunk nor each other. -/
structure arena_ok (env : Env) (s : State) : Prop where
  room : ∃ k, s.next_fptr + sizeof_fptr * k = s.last_fptr
  cur : ∀ i, s.mallocs ≤ i → chunk_at env i ≠ 0 →
    chunk_at env i + sizeof_fptr_chunk ≤ s.next_fptr ∨ s.last_fptr ≤ chunk_at env i
  fresh : ∀ i j, s.mallocs ≤ i → i < j → chunk_at env i ≠ 0 → chunk_at env j ≠ 0 →
    chunk_at env i + sizeof_fptr_chunk ≤ chunk_at env j ∨
      chunk_at env j + sizeof_fptr_chunk ≤ chunk_at env i

/-- The addresses the arena may still hand out: the rest of the current chunk and the chunks
the allocator returns from now on. -/
def avail (env : Env) (s : State) (a : Nat) : Prop :=
  (s.next_fptr ≤ a ∧ a < s.last_fptr) ∨
    ∃ i, s.mallocs ≤ i ∧ chunk_at env i ≠ 0 ∧ chunk_at env i ≤ a ∧
      a < chunk_at env i + sizeof_fptr_chunk

/-- The arena never runs dry: the allocator returns a chunk at every call from now on, and the
cursor is not null. -/
def arena_live (env : Env) (s : State) : Prop :=
  (∀ i, s.mallocs ≤ i → chunk_at env i ≠ 0) ∧ (s.next_fptr ≠ s.last_fptr → s.next_fptr ≠ 0)

/-- The descriptor made of a `(target, gp)` pair. -/
def fptr_of (a : Nat × Nat) : fptr := ⟨a.1, a.2⟩

/-- Whether a logged action is a call of `alloc_fptr`. -/
def is_alloc : Event → Bool
  | .alloc_fptr _ _ => true
  | _ => false

/-- The number of calls of `alloc_fptr` in a log. -/
def alloc_calls (t : List Event) : Nat := t.countP is_alloc

/-- The symbol indexes of the descriptor (`R_IA64_FPTR64LSB`) entries of a list, in order. -/
def fptr_syms : List Elf_Rela → List Nat
  | [] => []
  | e :: rest =>
    if ELF_R_TYPE e.r_info = R_IA64_FPTR64LSB then ELF_R_SYM e.r_info :: fptr_syms rest
    else fptr_syms rest

/-- Two states with the same arena: same descriptors, same statics, same number of `malloc`
calls and of `alloc_fptr` calls. -/
def same_arena (s s' : State) : Prop :=
  s'.fptr_mem = s.fptr_mem ∧ s'.current_chunk = s.current_chunk ∧
    s'.next_fptr = s.next_fptr ∧ s'.last_fptr = s.last_fptr ∧ s'.mallocs = s.mallocs ∧
    alloc_calls s'.trace = alloc_calls s.trace

/-- The descriptors of a table are in use: none of them can be handed out again, and two slots
never hold the same descriptor. -/
def table_fresh (env : Env) (s : State) (tbl : List Nat) : Prop :=
  (∀ n, tbl.getD n 0 ≠ 0 → ¬ avail env s (tbl.getD n 0)) ∧
    ∀ n m, n ≠ m → tbl.getD n 0 ≠ 0 → tbl.getD n 0 ≠ tbl.getD m 0

/-- A descriptor entry with addend zero for symbol `sym` at offset `off`. -/
def fptr_entry (sym off : Nat) : Elf_Rela :=
  { r_offset := off, r_info := sym * 2 ^ 32 + R_IA64_FPTR64LSB, r_addend := 0 }

/-- A sample object, not the loader, with three descriptor entries referencing the symbols
5, 5 and 9 (one without addend, two with addend). -/
def sample_aab_obj : Obj_Entry :=
  { addr := 1, relocbase := 8192, dynamic := [⟨DT_NULL, 0⟩],
    symtab := fun _ => ⟨64, 0⟩, nchains := 12,
    rel := [⟨0, 5 * 2 ^ 32 + R_IA64_FPTR64LSB⟩],
    rela := [fptr_entry 5 8, fptr_entry 9 16],
    pltrel := [], pltrelsize := 0, pltrela := [], pltgot := 12288, priv := none,
    jmpslots_done := false }

/-- A sample loader image (its address is the one passed as `obj_rtld`) with `n` descriptor
entries referencing the symbols `0, ..., n - 1`. -/
def sample_rtld_obj (n : Nat) : Obj_Entry :=
  { addr := 1, relocbase := 8192, dynamic := [⟨DT_NULL, 0⟩],
    symtab := fun _ => ⟨64, 0⟩, nchains := n,
    rel := [],
    rela := (List.range n).map fun i => fptr_entry i (8 * i),
    pltrel := [], pltrelsize := 0, pltrela := [], pltgot := 12288, priv := none,
    jmpslots_done := false }

/-- The PLT relocation entries `reloc_plt` and `reloc_jmpslots` walk, as `(r_offset, r_info)`
pairs: the table without addend when `pltrelsize` is not zero, else the table with addend. -/
def plt_entries (obj : Obj_Entry) : List (Nat × Nat) :=
  if obj.pltrelsize ≠ 0 then obj.pltrel.map fun r => (r.r_offset, r.r_info)
  else obj.pltrela.map fun r => (r.r_offset, r.r_info)

/-- A sample environment whose resolver finds the symbols of odd index only. -/
def sample_odd_env : Env :=
  { first_chunk := 4096
    malloc := fun n _ => 65536 + 2048 * n
    alloca := fun _ => 32768
    find_symdef := fun symnum _ _ =>
      if symnum % 2 = 1 then some (⟨256 * (symnum + 1), 0⟩, sample_defobj) else none
    rtld_bind_start := 64 }

/-- A direct (`R_IA64_DIR64LSB`) entry for symbol `sym` at offset `off` with addend `add`. -/
def dir_entry (sym off : Nat) (add : Int) : Elf_Rela :=
  { r_offset := off, r_info := sym * 2 ^ 32 + R_IA64_DIR64LSB, r_addend := add }

/-- A sample object, not the loader: one self-relative entry without addend, then with addend a
direct entry for the symbol 1, a direct entry for the symbol 2 and a descriptor entry. -/
def sample_dir_obj : Obj_Entry :=
  { addr := 1, relocbase := 8192, dynamic := [⟨DT_NULL, 0⟩],
    symtab := fun _ => ⟨64, 0⟩, nchains := 4,
    rel := [⟨0, R_IA64_REL64LSB⟩],
    rela := [dir_entry 1 8 (-4), dir_entry 2 16 4, fptr_entry 3 24],
    pltrel := [], pltrelsize := 0, pltrela := [], pltgot := 12288, priv := none,
    jmpslots_done := false }

/-- The address of the target word of a PLT entry: `obj->relocbase + r_offset`. -/
def plt_where (obj : Obj_Entry) (e : Nat × Nat) : Nat := add64 obj.relocbase e.1

/-- The store `reloc_plt` performs for a PLT entry, given the memory the pass starts with. -/
def plt_store (obj : Obj_Entry) (s : State) (e : Nat × Nat) : Event :=
  Event.store (plt_where obj e) (add64 (s.mem (plt_where obj e)) obj.relocbase)

/-- A sample object with three PLT entries (with addend) for the symbols 1, 2 and 3. -/
def sample_plta_obj : Obj_Entry :=
  { addr := 1, relocbase := 8192, dynamic := [⟨DT_NULL, 0⟩],
    symtab := fun _ => ⟨0, 0⟩, nchains := 4,
    rel := [], rela := [],
    pltrel := [], pltrelsize := 0,
    pltrela := [⟨0, 1 * 2 ^ 32 + R_IA64_IPLTLSB, 0⟩, ⟨16, 2 * 2 ^ 32 + R_IA64_IPLTLSB, 0⟩,
      ⟨32, 3 * 2 ^ 32 + R_IA64_IPLTLSB, 0⟩],
    pltgot := 12288, priv := none, jmpslots_done := false }

/-- The table `make_function_pointer` works on: the one `obj->priv` points to, or else the
zeroed table of `nchains` slots it creates. -/
def mfp_table (obj : Obj_Entry) : List Nat := obj.priv.getD (List.replicate obj.nchains 0)

/-- The state in which `make_function_pointer` reaches its second test: the state it starts
in, after the call of `malloc` for the table when `obj->priv` is null. -/
def mfp_state (obj : Obj_Entry) (s : State) : State :=
  match obj.priv with
  | some _ => s
  | none => { s with mallocs := s.mallocs + 1 }

/-- The state of the arena after `m` calls of `alloc_fptr` from the load-time arena, the
allocator having been called `m0` times before: the chunks after the first have cost one call
of `malloc` each, the current chunk is `first_chunk` up to the 64th call and the chunk of the
latest call of `malloc` after it, and the cursor stands behind the slots used of that chunk. -/
def arena_after (env : Env) (m0 m : Nat) (st : State) : Prop :=
  st.mallocs = m0 + (m - 1) / 64 ∧
    st.current_chunk =
      (if m ≤ 64 then env.first_chunk else chunk_at env (m0 + (m - 1) / 64 - 1)) ∧
    st.next_fptr = st.current_chunk + 16 * (if m = 0 then 0 else (m - 1) % 64 + 1) ∧
    st.last_fptr = st.current_chunk + 1024

/-- The descriptor handed out by call number `i + 1` from the load-time arena (the allocator
having been called `m0` times before): slot `i` of `first_chunk` for the first 64 calls, then
slot `i mod 64` of the chunk returned by call `i / 64` of `malloc` among those the arena makes. -/
def nth_fptr (env : Env) (m0 i : Nat) : Nat :=
  (if i < 64 then env.first_chunk else chunk_at env (m0 + i / 64 - 1)) + 16 * (i % 64)

/-! ## Basic facts -/

@[simp] theorem bind_ok {α β : Type} (v : α) (s : State) (f : α → State → Result β) :
    (Result.ok v s).bind f = f v s := rfl

@[simp] theorem bind_fault {α β : Type} (s : State) (f : α → State → Result β) :
    (Result.fault s : Result α).bind f = .fault s := rfl

@[simp] theorem bind_errx {α β : Type} (s : State) (f : α → State → Result β) :
    (Result.errx s : Result α).bind f = .errx s := rfl

@[simp] theorem bind_assert_fail {α β : Type} (s : State) (f : α → State → Result β) :
    (Result.assert_fail s : Result α).bind f = .assert_fail s := rfl

/-- A sequenced computation returns normally only if its first part does. -/
theorem bind_eq_ok {α β : Type} {r : Result α} {f : α → State → Result β} {v : β} {s : State}
    (h : r.bind f = .ok v s) : ∃ a s1, r = .ok a s1 ∧ f a s1 = .ok v s := by
  cases r with
  | ok a s1 => exact ⟨a, s1, rfl, h⟩
  | fault s1 => simp at h
  | errx s1 => simp at h
  | assert_fail s1 => simp at h

@[simp] theorem upd_same {α : Type} (m : Nat → α) (a : Nat) (v : α) : upd m a v a = v := by
  simp [upd]

theorem upd_other {α : Type} (m : Nat → α) (a : Nat) (v : α) (x : Nat) (h : x ≠ a) :
    upd m a v x = m x := by
  simp [upd, h]

/-! ## Lazy binding: `reloc_jmpslots` and `reloc_jmpslot` -/

/-- C4: if `reloc_jmpslots` returns 0, a second call on the object as the first call left it
returns 0 again and ends in the very same state and object record: its log has no further
resolver call and no store, its memory and every object field are unchanged. -/
theorem reloc_jmpslots_twice (env : Env) (obj obj' : Obj_Entry) (s s' : State)
    (h : reloc_jmpslots env obj s = .ok (0, obj') s') :
    reloc_jmpslots env obj' s' = .ok (0, obj') s' := by
  unfold reloc_jmpslots at h
  split at h
  · rename_i hdone
    simp only [Result.ok.injEq, Prod.mk.injEq, true_and] at h
    obtain ⟨rfl, rfl⟩ := h
    simp [reloc_jmpslots, hdone]
  · obtain ⟨fin, s1, -, h2⟩ := bind_eq_ok h
    split at h2
    · simp only [Result.ok.injEq, Prod.mk.injEq, true_and] at h2
      obtain ⟨rfl, rfl⟩ := h2
      simp [reloc_jmpslots]
    · simp at h2

/-- The instance of C4 at the sample object: both PLT entries are bound by the first call, and
the second call changes nothing. -/
theorem reloc_jmpslots_twice_witness :
    reloc_jmpslots sample_env sample_plt_obj sample_state =
      .ok (0, { sample_plt_obj with jmpslots_done := true })
        (reloc_jmpslots sample_env sample_plt_obj sample_state).state ∧
    reloc_jmpslots sample_env { sample_plt_obj with jmpslots_done := true }
        (reloc_jmpslots sample_env sample_plt_obj sample_state).state =
      .ok (0, { sample_plt_obj with jmpslots_done := true })
        (reloc_jmpslots sample_env sample_plt_obj sample_state).state :=
  ⟨rfl, reloc_jmpslots_twice sample_env sample_plt_obj _ sample_state _ rfl⟩

/-- C5: when the target word of the slot differs from `target`, `reloc_jmpslot` returns and the
actions it adds to the log are exactly: store of `obj.pltgot` to `where[1]`, fence, store of
`target` to `where[0]`, fence. -/
theorem reloc_jmpslot_order (where_ target : Nat) (obj : Obj_Entry) (s : State)
    (h : load64 s where_ ≠ target) :
    ∃ s', reloc_jmpslot where_ target obj s = .ok where_ s' ∧
      s'.trace = s.trace ++ [Event.store (add64 where_ 8) obj.pltgot, Event.mf,
        Event.store where_ target, Event.mf] := by
  simp [reloc_jmpslot, h, store64, ia64_mf]

/-- The instance of C5 at an unbound slot of the sample object. -/
theorem reloc_jmpslot_order_witness :
    load64 sample_state 8192 ≠ 1048832 ∧
    ∃ s', reloc_jmpslot 8192 1048832 sample_defobj sample_state = .ok 8192 s' ∧
      s'.trace = sample_state.trace ++ [Event.store (add64 8192 8) sample_defobj.pltgot,
        Event.mf, Event.store 8192 1048832, Event.mf] :=
  ⟨by decide, reloc_jmpslot_order 8192 1048832 sample_defobj sample_state (by decide)⟩

/-! ## `init_pltgot` -/

/-- The scan skips entries that are neither the terminator nor the reserve tag. -/
theorem find_pltres_skip (obj : Obj_Entry) (pre : List Elf_Dyn) (term : Elf_Dyn)
    (rest : List Elf_Dyn) (pltres : Nat)
    (hpre : ∀ d ∈ pre, d.d_tag ≠ DT_NULL ∧ d.d_tag ≠ DT_IA64_PLT_RESERVE)
    (hterm : term.d_tag = DT_NULL) :
    find_pltres obj (pre ++ term :: rest) pltres = some pltres := by
  induction pre with
  | nil => simp [find_pltres, hterm]
  | cons d ds ih =>
    have hd := hpre d (List.mem_cons_self d ds)
    have hds : ∀ x ∈ ds, x.d_tag ≠ DT_NULL ∧ x.d_tag ≠ DT_IA64_PLT_RESERVE :=
      fun x hx => hpre x (List.mem_cons_of_mem d hx)
    simp [find_pltres, hd.1, hd.2, ih hds]

/-- C10: when no entry before the `DT_NULL` terminator of the dynamic section carries the tag
`DT_IA64_PLT_RESERVE`, `init_pltgot` ends in `errx` in the state it started in: no store has
been performed. -/
theorem init_pltgot_missing_reserve (env : Env) (obj : Obj_Entry) (s : State)
    (pre : List Elf_Dyn) (term : Elf_Dyn) (rest : List Elf_Dyn)
    (hdyn : obj.dynamic = pre ++ term :: rest)
    (hpre : ∀ d ∈ pre, d.d_tag ≠ DT_NULL ∧ d.d_tag ≠ DT_IA64_PLT_RESERVE)
    (hterm : term.d_tag = DT_NULL) :
    init_pltgot env obj s = .errx s := by
  simp [init_pltgot, hdyn, find_pltres_skip obj pre term rest 0 hpre hterm]

/-- The instance of C10 at an object whose dynamic section holds two other tags. -/
theorem init_pltgot_missing_reserve_witness :
    init_pltgot sample_env { sample_plt_obj with dynamic := [⟨1, 5⟩, ⟨12, 64⟩, ⟨DT_NULL, 0⟩] }
      sample_state = .errx sample_state :=
  init_pltgot_missing_reserve sample_env _ sample_state [⟨1, 5⟩, ⟨12, 64⟩] ⟨DT_NULL, 0⟩ [] rfl
    (by
      intro d hd
      simp only [List.mem_cons, List.mem_singleton, List.not_mem_nil, or_false] at hd
      rcases hd with rfl | rfl <;> decide)
    rfl

/-! ## The arena: `alloc_fptr` -/

/-- C8: when the current chunk is used up and `malloc` returns the null pointer, `alloc_fptr`
does not return: it takes the null pointer as the new chunk and runs into the store through it
(`fptr->target = target` with `fptr` null), the outcome `fault`. -/
theorem alloc_fptr_malloc_null (env : Env) (target gp : Nat) (s : State)
    (hfull : s.next_fptr = s.last_fptr)
    (hnull : env.malloc s.mallocs sizeof_fptr_chunk = 0) :
    alloc_fptr env target gp s =
      .fault { s with
        trace := s.trace ++ [Event.alloc_fptr target gp]
        mallocs := s.mallocs + 1
        current_chunk := 0
        next_fptr := 0 + sizeof_fptr
        last_fptr := 0 + FPTR_CHUNK_SIZE * sizeof_fptr } := by
  simp [alloc_fptr, hfull, hnull]

set_option maxRecDepth 100000 in
/-- The instance of C8 at the 65th call from the load-time arena, the first 64 calls having used
up the static chunk, with an allocator that fails. -/
theorem alloc_fptr_malloc_null_witness :
    (alloc_fptr_seq null_malloc_env (List.replicate 64 (1, 2)) sample_state).state.next_fptr =
      (alloc_fptr_seq null_malloc_env (List.replicate 64 (1, 2)) sample_state).state.last_fptr ∧
    ∃ s', alloc_fptr null_malloc_env 1 2
      (alloc_fptr_seq null_malloc_env (List.replicate 64 (1, 2)) sample_state).state =
        .fault s' :=
  ⟨by decide, _, alloc_fptr_malloc_null null_malloc_env 1 2 _ (by decide) rfl⟩

/-- What a call of `alloc_fptr` that returns has done. -/
theorem alloc_fptr_ok_inv {env : Env} {target gp : Nat} {s : State} {p : Nat} {s' : State}
    (h : alloc_fptr env target gp s = .ok p s') :
    p = next_slot env s ∧ p ≠ 0 ∧ s'.mem = s.mem ∧
      s'.fptr_mem = upd s.fptr_mem p ⟨target, gp⟩ ∧
      s'.trace = s.trace ++ [Event.alloc_fptr target gp] ∧
      s'.next_fptr = p + sizeof_fptr ∧
      (s.next_fptr = s.last_fptr →
        s'.mallocs = s.mallocs + 1 ∧ s'.last_fptr = p + FPTR_CHUNK_SIZE * sizeof_fptr) ∧
      (s.next_fptr ≠ s.last_fptr → s'.mallocs = s.mallocs ∧ s'.last_fptr = s.last_fptr) := by
  unfold alloc_fptr at h
  by_cases hfull : s.next_fptr = s.last_fptr
  · simp only [hfull, if_true] at h
    split at h
    · simp at h
    · rename_i hp
      simp only [Result.ok.injEq] at h
      obtain ⟨rfl, rfl⟩ := h
      refine ⟨by simp [next_slot, hfull], hp, rfl, ?_, rfl, rfl, ?_, ?_⟩
      · funext x
        by_cases hx : x = env.malloc s.mallocs sizeof_fptr_chunk <;> simp [upd, hx]
      · intro _; exact ⟨rfl, rfl⟩
      · intro hne; exact absurd hfull hne
  · simp only [hfull, if_false] at h
    split at h
    · simp at h
    · rename_i hp
      simp only [Result.ok.injEq] at h
      obtain ⟨rfl, rfl⟩ := h
      refine ⟨by simp [next_slot, hfull], hp, rfl, ?_, rfl, rfl, ?_, ?_⟩
      · funext x
        by_cases hx : x = s.next_fptr <;> simp [upd, hx]
      · intro h'; exact absurd h' hfull
      · intro _; exact ⟨rfl, rfl⟩

/-- A call of `alloc_fptr` returns whenever the pointer it takes is not null. -/
theorem alloc_fptr_returns (env : Env) (target gp : Nat) (s : State)
    (h : next_slot env s ≠ 0) :
    ∃ s', alloc_fptr env target gp s = .ok (next_slot env s) s' := by
  unfold alloc_fptr next_slot at *
  by_cases hfull : s.next_fptr = s.last_fptr
  · simp only [hfull, if_true] at h ⊢
    simp [h]
  · simp only [hfull, if_false] at h ⊢
    simp [h]

/-! ## The dispatcher: `reloc_non_plt_obj` -/

/-- The descriptor case of `reloc_non_plt_obj`, written with `fptr_pair`. -/
theorem reloc_non_plt_obj_fptr (env : Env) (obj_rtld : Nat) (obj : Obj_Entry) (rela : Elf_Rela)
    (fptrs : Option (List Nat)) (s : State)
    (hty : ELF_R_TYPE rela.r_info = R_IA64_FPTR64LSB) :
    reloc_non_plt_obj env obj_rtld obj rela fptrs s =
      match fptrs with
      | none =>
        (alloc_fptr env (fptr_pair env obj (ELF_R_SYM rela.r_info)).1
          (fptr_pair env obj (ELF_R_SYM rela.r_info)).2
          { s with trace := s.trace ++ [Event.find_symdef (ELF_R_SYM rela.r_info) false] }).bind
          fun p s2 => .ok (0, none) (store64 s2 (reloc_where obj rela) p)
      | some tbl =>
        if ELF_R_SYM rela.r_info < tbl.length then
          if tbl.getD (ELF_R_SYM rela.r_info) 0 = 0 then
            (alloc_fptr env (fptr_pair env obj (ELF_R_SYM rela.r_info)).1
              (fptr_pair env obj (ELF_R_SYM rela.r_info)).2
              { s with
                trace := s.trace ++ [Event.find_symdef (ELF_R_SYM rela.r_info) false] }).bind
              fun p s2 =>
                .ok (0, some (tbl.set (ELF_R_SYM rela.r_info) p))
                  (store64 s2 (reloc_where obj rela) p)
          else
            .ok (0, some tbl)
              (store64
                { s with
                  trace := s.trace ++ [Event.find_symdef (ELF_R_SYM rela.r_info) false] }
                (reloc_where obj rela) (tbl.getD (ELF_R_SYM rela.r_info) 0))
        else
          .fault
            { s with trace := s.trace ++ [Event.find_symdef (ELF_R_SYM rela.r_info) false] } := by
  have h1 : R_IA64_FPTR64LSB ≠ R_IA64_REL64LSB := by decide
  have h2 : R_IA64_FPTR64LSB ≠ R_IA64_DIR64LSB := by decide
  unfold reloc_non_plt_obj
  simp only [hty, h1, h2, if_false, if_true, call_find_symdef, reloc_where]
  unfold fptr_pair fptr_def
  cases hres : env.find_symdef (ELF_R_SYM rela.r_info) obj.addr false with
  | none =>
    by_cases hw : (obj.symtab (ELF_R_SYM rela.r_info)).st_value = 0 ∧
        ELF_ST_BIND (obj.symtab (ELF_R_SYM rela.r_info)).st_info = STB_WEAK
    · simp only [hw, and_self, if_true]
    · simp only [hw, if_false]
  | some r =>
    obtain ⟨d, o⟩ := r
    by_cases hw : d.st_value = 0 ∧
        ELF_ST_BIND (obj.symtab (ELF_R_SYM rela.r_info)).st_info = STB_WEAK
    · simp only [hw, and_self, if_true]
    · simp only [hw, if_false]

/-- C3: a descriptor relocation whose symbol has no descriptor yet in the table (or that runs
without a table), whose definition (resolved, or the local fallback) has value zero and whose
own symbol-table entry is weak, returns 0 whenever the arena can hand out a descriptor, and the
descriptor whose address it stores into the target word has target 0 and global pointer 0. -/
theorem reloc_fptr_weak_null (env : Env) (obj_rtld : Nat) (obj : Obj_Entry) (rela : Elf_Rela)
    (fptrs : Option (List Nat)) (s : State)
    (hty : ELF_R_TYPE rela.r_info = R_IA64_FPTR64LSB)
    (hnew : ∀ tbl, fptrs = some tbl →
      ELF_R_SYM rela.r_info < tbl.length ∧ tbl.getD (ELF_R_SYM rela.r_info) 0 = 0)
    (hval : (fptr_def env obj (ELF_R_SYM rela.r_info)).1.st_value = 0)
    (hweak : ELF_ST_BIND (obj.symtab (ELF_R_SYM rela.r_info)).st_info = STB_WEAK)
    (hroom : next_slot env s ≠ 0) :
    ∃ fptrs' s', reloc_non_plt_obj env obj_rtld obj rela fptrs s = .ok (0, fptrs') s' ∧
      s'.mem (reloc_where obj rela) = next_slot env s ∧
      s'.fptr_mem (s'.mem (reloc_where obj rela)) = ⟨0, 0⟩ := by
  have hpair : fptr_pair env obj (ELF_R_SYM rela.r_info) = (0, 0) := by
    simp [fptr_pair, hval, hweak]
  have hroom' : next_slot env
      { s with trace := s.trace ++ [Event.find_symdef (ELF_R_SYM rela.r_info) false] } ≠ 0 :=
    hroom
  obtain ⟨s2, hs2⟩ := alloc_fptr_returns env 0 0 _ hroom'
  have hinv := alloc_fptr_ok_inv hs2
  have hslot : next_slot env
      { s with trace := s.trace ++ [Event.find_symdef (ELF_R_SYM rela.r_info) false] } =
      next_slot env s := rfl
  rw [reloc_non_plt_obj_fptr env obj_rtld obj rela fptrs s hty, hpair]
  cases fptrs with
  | none =>
    refine ⟨none, store64 s2 (reloc_where obj rela) (next_slot env s), ?_, ?_, ?_⟩
    · simp only [hs2, bind_ok, hslot]
    · simp [store64]
    · simp [store64, hinv.2.2.2.1, hslot]
  | some tbl =>
    obtain ⟨hlt, hzero⟩ := hnew tbl rfl
    refine ⟨some (tbl.set (ELF_R_SYM rela.r_info) (next_slot env s)),
      store64 s2 (reloc_where obj rela) (next_slot env s), ?_, ?_, ?_⟩
    · simp only [hlt, hzero, if_true, hs2, bind_ok, hslot]
    · simp [store64]
    · simp [store64, hinv.2.2.2.1, hslot]

/-- The instance of C3 at the sample object with a weak undefined symbol, which the resolver
does not find. -/
theorem reloc_fptr_weak_null_witness :
    ∃ fptrs' s', reloc_non_plt_obj null_malloc_env 1 sample_weak_obj
        ⟨24, 3 * 2 ^ 32 + R_IA64_FPTR64LSB, 0⟩ (some [0, 0, 0, 0]) sample_state =
          .ok (0, fptrs') s' ∧
      s'.mem (reloc_where sample_weak_obj ⟨24, 3 * 2 ^ 32 + R_IA64_FPTR64LSB, 0⟩) =
        next_slot null_malloc_env sample_state ∧
      s'.fptr_mem (s'.mem (reloc_where sample_weak_obj ⟨24, 3 * 2 ^ 32 + R_IA64_FPTR64LSB, 0⟩)) =
        ⟨0, 0⟩ :=
  reloc_fptr_weak_null null_malloc_env 1 sample_weak_obj ⟨24, 3 * 2 ^ 32 + R_IA64_FPTR64LSB, 0⟩
    (some [0, 0, 0, 0]) sample_state (by decide)
    (by
      intro tbl h
      cases h
      decide)
    (by decide) (by decide) (by decide)

/-! ## The pass: `reloc_non_plt` -/

/-- An entry of a type other than the three the dispatcher knows is refused: the call returns
-1 and changes nothing. -/
theorem reloc_non_plt_obj_unsupported (env : Env) (obj_rtld : Nat) (obj : Obj_Entry)
    (rela : Elf_Rela) (fptrs : Option (List Nat)) (s : State)
    (h1 : ELF_R_TYPE rela.r_info ≠ R_IA64_REL64LSB)
    (h2 : ELF_R_TYPE rela.r_info ≠ R_IA64_DIR64LSB)
    (h3 : ELF_R_TYPE rela.r_info ≠ R_IA64_FPTR64LSB) :
    reloc_non_plt_obj env obj_rtld obj rela fptrs s = .ok (-1, fptrs) s := by
  simp [reloc_non_plt_obj, h1, h2, h3]

/-- The dispatcher reads of the object only its address, base, symbol table and global pointer:
the relocation tables of the record do not matter. -/
theorem reloc_non_plt_obj_tables (env : Env) (obj_rtld : Nat) (obj : Obj_Entry)
    (rels : List Elf_Rel) (relas : List Elf_Rela) (rela : Elf_Rela) (fptrs : Option (List Nat))
    (s : State) :
    reloc_non_plt_obj env obj_rtld { obj with rel := rels, rela := relas } rela fptrs s =
      reloc_non_plt_obj env obj_rtld obj rela fptrs s := by
  unfold reloc_non_plt_obj call_find_symdef
  cases hres : env.find_symdef (ELF_R_SYM rela.r_info) obj.addr false <;> simp [hres]

/-- The loop over entries with addend does not depend on the relocation tables of the record. -/
theorem rela_loop_tables (env : Env) (obj_rtld : Nat) (obj : Obj_Entry)
    (rels : List Elf_Rel) (relas : List Elf_Rela) (es : List Elf_Rela) :
    ∀ (fptrs : Option (List Nat)) (s : State),
      rela_loop env obj_rtld { obj with rel := rels, rela := relas } es fptrs s =
        rela_loop env obj_rtld obj es fptrs s := by
  induction es with
  | nil => intro fptrs s; rfl
  | cons e rest ih =>
    intro fptrs s
    simp only [rela_loop, reloc_non_plt_obj_tables, ih]

/-- The loop over entries without addend is the loop over their forms with addend. -/
theorem rel_loop_eq (env : Env) (obj_rtld : Nat) (obj : Obj_Entry) (rels : List Elf_Rel) :
    ∀ (fptrs : Option (List Nat)) (s : State),
      rel_loop env obj_rtld obj rels fptrs s =
        rela_loop env obj_rtld obj (rels.map locrela) fptrs s := by
  induction rels with
  | nil => intro fptrs s; rfl
  | cons e rest ih =>
    intro fptrs s
    simp only [rel_loop, rela_loop, List.map_cons, ih]

/-- Running the loop over a concatenation: the second part runs only if the first returns 0. -/
theorem rela_loop_append (env : Env) (obj_rtld : Nat) (obj : Obj_Entry)
    (l1 l2 : List Elf_Rela) :
    ∀ (fptrs : Option (List Nat)) (s : State),
      rela_loop env obj_rtld obj (l1 ++ l2) fptrs s =
        (rela_loop env obj_rtld obj l1 fptrs s).bind fun r s1 =>
          if r.1 ≠ 0 then .ok (-1, r.2) s1 else rela_loop env obj_rtld obj l2 r.2 s1 := by
  induction l1 with
  | nil => intro fptrs s; simp [rela_loop]
  | cons e rest ih =>
    intro fptrs s
    simp only [List.cons_append, rela_loop]
    cases hstep : reloc_non_plt_obj env obj_rtld obj e fptrs s with
    | ok v s1 =>
      simp only [bind_ok]
      by_cases hv : v.1 ≠ 0
      · simp [hv]
      · simp only [hv, if_false]
        exact ih v.2 s1
    | fault s1 => simp
    | errx s1 => simp
    | assert_fail s1 => simp

/-- The pass as one loop over `reloc_entries`. -/
theorem reloc_non_plt_eq (env : Env) (obj : Obj_Entry) (obj_rtld : Nat) (s : State) :
    reloc_non_plt env obj obj_rtld s =
      if (pass_start env obj obj_rtld s).1 = 0 then
        .ok (-1, obj) (pass_start env obj obj_rtld s).2
      else
        (rela_loop env obj_rtld obj (reloc_entries obj) (some (List.replicate obj.nchains 0))
          (pass_start env obj obj_rtld s).2).bind fun r s3 =>
            if r.1 ≠ 0 then .ok (-1, obj) s3
            else if obj.addr ≠ obj_rtld then .ok (0, { obj with priv := r.2 }) s3
            else .ok (0, { obj with priv := none }) s3 := by
  unfold reloc_non_plt pass_start reloc_entries
  by_cases hr : obj.addr = obj_rtld
  · simp only [hr, if_true, rel_loop_eq, rela_loop_append]
    split
    · rfl
    · cases rela_loop env obj_rtld obj (List.map locrela obj.rel)
          (some (List.replicate obj.nchains 0)) s with
      | ok v s1 =>
        simp only [bind_ok]
        by_cases hv : v.1 ≠ 0
        · simp [hv]
        · simp [hv]
      | fault s1 => simp
      | errx s1 => simp
      | assert_fail s1 => simp
  · simp only [hr, if_false, rel_loop_eq, rela_loop_append]
    split
    · rfl
    · cases rela_loop env obj_rtld obj (List.map locrela obj.rel)
          (some (List.replicate obj.nchains 0)) { s with mallocs := s.mallocs + 1 } with
      | ok v s1 =>
        simp only [bind_ok]
        by_cases hv : v.1 ≠ 0
        · simp [hv]
        · simp [hv]
      | fault s1 => simp
      | errx s1 => simp
      | assert_fail s1 => simp

/-- C6: let the entries of an object, in processing order, be the entries of a shorter object
(same record, relocation tables `rels` and `relas`) followed by an entry of a type the
dispatcher does not know and by any further entries.  If the pass over the shorter object
returns 0, the pass over the object returns -1 in exactly the state the shorter pass ends in:
the effects of the entries before the unknown one are kept, nothing after it is applied, and
the object record is unchanged. -/
theorem reloc_non_plt_unsupported (env : Env) (obj : Obj_Entry) (obj_rtld : Nat) (s : State)
    (rels : List Elf_Rel) (relas : List Elf_Rela) (bad : Elf_Rela) (post : List Elf_Rela)
    (objk : Obj_Entry) (sk : State)
    (hsplit : reloc_entries obj = (rels.map locrela ++ relas) ++ bad :: post)
    (h1 : ELF_R_TYPE bad.r_info ≠ R_IA64_REL64LSB)
    (h2 : ELF_R_TYPE bad.r_info ≠ R_IA64_DIR64LSB)
    (h3 : ELF_R_TYPE bad.r_info ≠ R_IA64_FPTR64LSB)
    (hk : reloc_non_plt env { obj with rel := rels, rela := relas } obj_rtld s =
      .ok (0, objk) sk) :
    reloc_non_plt env obj obj_rtld s = .ok (-1, obj) sk := by
  rw [reloc_non_plt_eq] at hk ⊢
  have hstart : pass_start env { obj with rel := rels, rela := relas } obj_rtld s =
      pass_start env obj obj_rtld s := rfl
  have hent : reloc_entries { obj with rel := rels, rela := relas } =
      rels.map locrela ++ relas := rfl
  rw [hstart, hent, rela_loop_tables] at hk
  by_cases hp : (pass_start env obj obj_rtld s).1 = 0
  · simp [hp] at hk
  · simp only [hp, if_false] at hk ⊢
    obtain ⟨r, s3, hloop, hfin⟩ := bind_eq_ok hk
    by_cases hr : r.1 ≠ 0
    · simp [hr] at hfin
    · have hsk : s3 = sk := by
        simp only [hr, if_false] at hfin
        split at hfin <;> simp only [Result.ok.injEq] at hfin <;> exact hfin.2
      subst hsk
      rw [hsplit, rela_loop_append, hloop]
      simp [hr, rela_loop, reloc_non_plt_obj_unsupported env obj_rtld obj bad r.2 s3 h1 h2 h3]

/-- The instance of C6 at the sample object: its self-relative and descriptor entries are
applied, the entry of type 5 stops the pass, the direct entry after it is not reached. -/
theorem reloc_non_plt_unsupported_witness :
    reloc_non_plt sample_env
        { sample_bad_obj with
          rel := [⟨0, R_IA64_REL64LSB⟩], rela := [⟨8, 2 * 2 ^ 32 + R_IA64_FPTR64LSB, 0⟩] }
        7 sample_state =
      .ok (0, { sample_bad_obj with
          rel := [⟨0, R_IA64_REL64LSB⟩], rela := [⟨8, 2 * 2 ^ 32 + R_IA64_FPTR64LSB, 0⟩],
          priv := some [0, 0, 4096, 0] })
        (reloc_non_plt sample_env
          { sample_bad_obj with
            rel := [⟨0, R_IA64_REL64LSB⟩], rela := [⟨8, 2 * 2 ^ 32 + R_IA64_FPTR64LSB, 0⟩] }
          7 sample_state).state ∧
    reloc_non_plt sample_env sample_bad_obj 7 sample_state =
      .ok (-1, sample_bad_obj)
        (reloc_non_plt sample_env
          { sample_bad_obj with
            rel := [⟨0, R_IA64_REL64LSB⟩], rela := [⟨8, 2 * 2 ^ 32 + R_IA64_FPTR64LSB, 0⟩] }
          7 sample_state).state :=
  ⟨rfl, reloc_non_plt_unsupported sample_env sample_bad_obj 7 sample_state
    [⟨0, R_IA64_REL64LSB⟩] [⟨8, 2 * 2 ^ 32 + R_IA64_FPTR64LSB, 0⟩] ⟨16, 5, 0⟩
    [⟨24, 1 * 2 ^ 32 + R_IA64_DIR64LSB, 4⟩] _ _ rfl (by decide) (by decide) (by decide) rfl⟩

/-! ## The arena hands out fresh descriptors -/

/-- One call of `alloc_fptr` in a sound arena: the arena stays sound, the descriptor returned
was still to be handed out before the call and is not any more after it, and nothing becomes
available again. -/
theorem alloc_fptr_fresh {env : Env} {target gp : Nat} {s : State} {p : Nat} {s' : State}
    (hok : arena_ok env s) (h : alloc_fptr env target gp s = .ok p s') :
    arena_ok env s' ∧ avail env s p ∧ ¬ avail env s' p ∧
      ∀ a, avail env s' a → avail env s a := by
  obtain ⟨hp, hp0, -, -, -, hnext, hfull, hnotfull⟩ := alloc_fptr_ok_inv h
  obtain ⟨⟨k, hk⟩, hcur, hfresh⟩ := hok
  have e1 : sizeof_fptr = 16 := rfl
  have e2 : sizeof_fptr_chunk = 1024 := rfl
  have e3 : FPTR_CHUNK_SIZE = 64 := rfl
  rw [e1] at hk hnext
  rw [e2] at hcur hfresh
  rw [e1, e3] at hfull
  by_cases hf : s.next_fptr = s.last_fptr
  · obtain ⟨hm, hlast⟩ := hfull hf
    have hpc : p = chunk_at env s.mallocs := by
      rw [hp]; simp [next_slot, hf, chunk_at]
    have hc0 : chunk_at env s.mallocs ≠ 0 := hpc ▸ hp0
    refine ⟨⟨⟨63, ?_⟩, ?_, ?_⟩, ?_, ?_, ?_⟩
    · rw [e1]; omega
    · intro i hi hi0
      have := hfresh s.mallocs i (le_refl _) (by omega) hc0 hi0
      rw [e2]; omega
    · intro i j hi hij hi0 hj0
      rw [e2]
      exact hfresh i j (by omega) hij hi0 hj0
    · refine Or.inr ⟨s.mallocs, le_refl _, hc0, ?_, ?_⟩
      · omega
      · rw [e2]; omega
    · rintro (⟨h1, h2⟩ | ⟨i, hi, hi0, h1, h2⟩)
      · omega
      · have := hfresh s.mallocs i (le_refl _) (by omega) hc0 hi0
        rw [e2] at h2
        omega
    · rintro a (⟨h1, h2⟩ | ⟨i, hi, hi0, h1, h2⟩)
      · refine Or.inr ⟨s.mallocs, le_refl _, hc0, ?_, ?_⟩
        · omega
        · rw [e2]; omega
      · exact Or.inr ⟨i, by omega, hi0, h1, h2⟩
  · obtain ⟨hm, hlast⟩ := hnotfull hf
    have hpc : p = s.next_fptr := by rw [hp]; simp [next_slot, hf]
    have hk0 : k ≠ 0 := by
      rintro rfl
      exact hf (by omega)
    refine ⟨⟨⟨k - 1, ?_⟩, ?_, ?_⟩, ?_, ?_, ?_⟩
    · rw [e1]; omega
    · intro i hi hi0
      have := hcur i (by omega) hi0
      rw [e2]; omega
    · intro i j hi hij hi0 hj0
      rw [e2]
      exact hfresh i j (by omega) hij hi0 hj0
    · exact Or.inl ⟨by omega, by omega⟩
    · rintro (⟨h1, h2⟩ | ⟨i, hi, hi0, h1, h2⟩)
      · omega
      · have := hcur i (by omega) hi0
        rw [e2] at h2
        omega
    · rintro a (⟨h1, h2⟩ | ⟨i, hi, hi0, h1, h2⟩)
      · exact Or.inl ⟨by omega, by omega⟩
      · exact Or.inr ⟨i, by omega, hi0, h1, h2⟩

/-- One call of `alloc_fptr` in an arena that never runs dry returns, and the arena still never
runs dry after it. -/
theorem alloc_fptr_live (env : Env) (target gp : Nat) (s : State) (hlive : arena_live env s) :
    ∃ p s', alloc_fptr env target gp s = .ok p s' ∧ arena_live env s' := by
  have hslot : next_slot env s ≠ 0 := by
    unfold next_slot
    split
    · exact hlive.1 s.mallocs (le_refl _)
    · rename_i hf
      exact hlive.2 hf
  obtain ⟨s', hs'⟩ := alloc_fptr_returns env target gp s hslot
  obtain ⟨-, -, -, -, -, hnext, hfull, hnotfull⟩ := alloc_fptr_ok_inv hs'
  refine ⟨_, s', hs', ?_, ?_⟩
  · intro i hi
    apply hlive.1
    by_cases hf : s.next_fptr = s.last_fptr
    · have := (hfull hf).1
      omega
    · have := (hnotfull hf).1
      omega
  · intro _
    rw [hnext]
    simp [sizeof_fptr]

/-- A sequence of calls of `alloc_fptr` in a sound arena that never runs dry: every call
returns, the descriptors returned are pairwise distinct, each was still to be handed out before
the sequence and is not any more after it, each holds its pair at the end, and no other
descriptor has changed. -/
theorem alloc_fptr_seq_spec (env : Env) (args : List (Nat × Nat)) :
    ∀ s : State, arena_ok env s → arena_live env s →
      ∃ ps s', alloc_fptr_seq env args s = .ok ps s' ∧ arena_ok env s' ∧ arena_live env s' ∧
        ps.Nodup ∧ (∀ p ∈ ps, avail env s p ∧ ¬ avail env s' p) ∧
        (∀ a, avail env s' a → avail env s a) ∧
        ps.map s'.fptr_mem = args.map fptr_of ∧
        ∀ a, a ∉ ps → s'.fptr_mem a = s.fptr_mem a := by
  induction args with
  | nil =>
    intro s hok hlive
    exact ⟨[], s, rfl, hok, hlive, List.nodup_nil, by simp, fun a h => h, rfl, fun a _ => rfl⟩
  | cons a rest ih =>
    intro s hok hlive
    obtain ⟨p, s1, hp, hlive1⟩ := alloc_fptr_live env a.1 a.2 s hlive
    obtain ⟨hok1, hav, hnav, hmono⟩ := alloc_fptr_fresh hok hp
    obtain ⟨ps, s', hps, hok', hlive', hnd, hmem, hmono', hmap, hframe⟩ := ih s1 hok1 hlive1
    have hpps : p ∉ ps := fun hin => hnav (hmem p hin).1
    have hmem1 := (alloc_fptr_ok_inv hp).2.2.2.1
    refine ⟨p :: ps, s', ?_, hok', hlive', List.nodup_cons.mpr ⟨hpps, hnd⟩, ?_, ?_, ?_, ?_⟩
    · simp [alloc_fptr_seq, hp, hps]
    · intro q hq
      rcases List.mem_cons.mp hq with rfl | hq
      · exact ⟨hav, fun h => hnav (hmono' _ h)⟩
      · exact ⟨hmono _ (hmem q hq).1, (hmem q hq).2⟩
    · exact fun x hx => hmono x (hmono' x hx)
    · simp only [List.map_cons, hmap]
      rw [hframe p hpps, hmem1]
      simp [fptr_of]
    · intro x hx
      have hx1 : x ≠ p := fun h => hx (h ▸ List.mem_cons_self _ _)
      have hx2 : x ∉ ps := fun h => hx (List.mem_cons_of_mem _ h)
      rw [hframe x hx2, hmem1, upd_other _ _ _ _ hx1]

/-- The load-time arena is sound when the chunks of the allocator overlap neither
`first_chunk` nor each other. -/
theorem arena_ok_init (env : Env) (s : State) (hinit : init_arena env s)
    (hfirst : ∀ i, s.mallocs ≤ i → chunk_at env i ≠ 0 →
      chunk_at env i + sizeof_fptr_chunk ≤ env.first_chunk ∨
        env.first_chunk + sizeof_fptr_chunk ≤ chunk_at env i)
    (hfresh : ∀ i j, s.mallocs ≤ i → i < j → chunk_at env i ≠ 0 → chunk_at env j ≠ 0 →
      chunk_at env i + sizeof_fptr_chunk ≤ chunk_at env j ∨
        chunk_at env j + sizeof_fptr_chunk ≤ chunk_at env i) :
    arena_ok env s := by
  obtain ⟨-, hn, hl⟩ := hinit
  refine ⟨⟨64, ?_⟩, ?_, hfresh⟩
  · rw [hn, hl]; simp [FPTR_CHUNK_SIZE, sizeof_fptr]
  · intro i hi hi0
    rw [hn, hl]
    have := hfirst i hi hi0
    simp only [sizeof_fptr_chunk, FPTR_CHUNK_SIZE, sizeof_fptr] at *
    omega

/-- C7: start `alloc_fptr` from the load-time arena, with an allocator that returns at every
call a chunk overlapping neither `first_chunk` nor its other chunks.  Then any sequence of
calls `pre`, followed by any further sequence `post`, returns; all descriptors returned are
pairwise distinct; each descriptor of `pre` holds its `(target, gp)` pair after `pre` and still
holds it after `post`; and `post` changes no descriptor but the ones it returns. -/
theorem alloc_fptr_stable (env : Env) (s : State) (pre post : List (Nat × Nat))
    (hinit : init_arena env s) (hnz : env.first_chunk ≠ 0)
    (hchunk : ∀ i, s.mallocs ≤ i → chunk_at env i ≠ 0)
    (hfirst : ∀ i, s.mallocs ≤ i →
      chunk_at env i + sizeof_fptr_chunk ≤ env.first_chunk ∨
        env.first_chunk + sizeof_fptr_chunk ≤ chunk_at env i)
    (hfresh : ∀ i j, s.mallocs ≤ i → i < j →
      chunk_at env i + sizeof_fptr_chunk ≤ chunk_at env j ∨
        chunk_at env j + sizeof_fptr_chunk ≤ chunk_at env i) :
    ∃ ps1 s1 ps2 s2, alloc_fptr_seq env pre s = .ok ps1 s1 ∧
      alloc_fptr_seq env post s1 = .ok ps2 s2 ∧
      (ps1 ++ ps2).Nodup ∧
      ps1.map s1.fptr_mem = pre.map fptr_of ∧
      ps1.map s2.fptr_mem = pre.map fptr_of ∧
      ps2.map s2.fptr_mem = post.map fptr_of ∧
      ∀ a, a ∉ ps2 → s2.fptr_mem a = s1.fptr_mem a := by
  have hok : arena_ok env s :=
    arena_ok_init env s hinit (fun i hi _ => hfirst i hi) (fun i j hi hij _ _ => hfresh i j hi hij)
  have hlive : arena_live env s := ⟨hchunk, fun _ => by rw [hinit.2.1]; exact hnz⟩
  obtain ⟨ps1, s1, h1, hok1, hlive1, hnd1, hmem1, -, hmap1, -⟩ :=
    alloc_fptr_seq_spec env pre s hok hlive
  obtain ⟨ps2, s2, h2, -, -, hnd2, hmem2, -, hmap2, hframe2⟩ :=
    alloc_fptr_seq_spec env post s1 hok1 hlive1
  have hdisj : ∀ q, q ∈ ps1 → q ∉ ps2 := fun q hq1 hq2 => (hmem1 q hq1).2 (hmem2 q hq2).1
  refine ⟨ps1, s1, ps2, s2, h1, h2, ?_, hmap1, ?_, hmap2, hframe2⟩
  · exact List.nodup_append.mpr ⟨hnd1, hnd2, fun q hq1 hq2 => hdisj q hq1 hq2⟩
  · rw [← hmap1]
    apply List.map_congr_left
    intro q hq
    exact hframe2 q (hdisj q hq)

/-- The instance of C7 at the sample environment: 63 calls, then 2 more, the last of which
takes the first descriptor of a chunk from the allocator. -/
theorem alloc_fptr_stable_witness :
    ∃ ps1 s1 ps2 s2,
      alloc_fptr_seq sample_env (List.replicate 63 (1, 2)) sample_state = .ok ps1 s1 ∧
      alloc_fptr_seq sample_env [(3, 4), (5, 6)] s1 = .ok ps2 s2 ∧
      (ps1 ++ ps2).Nodup ∧
      ps1.map s1.fptr_mem = (List.replicate 63 (1, 2)).map fptr_of ∧
      ps1.map s2.fptr_mem = (List.replicate 63 (1, 2)).map fptr_of ∧
      ps2.map s2.fptr_mem = [(3, 4), (5, 6)].map fptr_of ∧
      ∀ a, a ∉ ps2 → s2.fptr_mem a = s1.fptr_mem a :=
  alloc_fptr_stable sample_env sample_state (List.replicate 63 (1, 2)) [(3, 4), (5, 6)]
    ⟨rfl, rfl, rfl⟩ (by decide)
    (by intro i _; simp [chunk_at, sample_env])
    (by
      intro i _
      simp only [chunk_at, sample_env, sizeof_fptr_chunk, FPTR_CHUNK_SIZE, sizeof_fptr]
      omega)
    (by
      intro i j _ hij
      simp only [chunk_at, sample_env, sizeof_fptr_chunk, FPTR_CHUNK_SIZE, sizeof_fptr]
      omega)

/-! ## Steps of the pass -/

/-- Slots of a table after one slot is set. -/
theorem getD_set (tbl : List Nat) (n m p : Nat) (h : n < tbl.length) :
    (tbl.set n p).getD m 0 = if m = n then p else tbl.getD m 0 := by
  simp only [List.getD_eq_getElem?_getD, List.getElem?_set]
  by_cases hm : m = n
  · subst hm; simp [h]
  · have hnm : ¬ n = m := fun h => hm h.symm
    simp [hm, hnm]

theorem same_arena_refl (s : State) : same_arena s s := ⟨rfl, rfl, rfl, rfl, rfl, rfl⟩

/-- Soundness of the arena depends on the cursor, the end of the chunk and the number of
`malloc` calls only. -/
theorem arena_ok_of_eq {env : Env} {s s' : State} (h1 : s'.next_fptr = s.next_fptr)
    (h2 : s'.last_fptr = s.last_fptr) (h3 : s'.mallocs = s.mallocs) (h : arena_ok env s) :
    arena_ok env s' := by
  obtain ⟨hroom, hcur, hfresh⟩ := h
  refine ⟨?_, ?_, ?_⟩
  · rw [h1, h2]; exact hroom
  · rw [h1, h2, h3]; exact hcur
  · rw [h3]; exact hfresh

theorem avail_of_eq {env : Env} {s s' : State} (h1 : s'.next_fptr = s.next_fptr)
    (h2 : s'.last_fptr = s.last_fptr) (h3 : s'.mallocs = s.mallocs) (a : Nat) :
    avail env s' a ↔ avail env s a := by
  unfold avail
  rw [h1, h2, h3]

/-- An entry that is not a descriptor entry returns, leaves the table and the arena alone, and
writes at most its target word. -/
theorem reloc_non_plt_obj_other (env : Env) (obj_rtld : Nat) (obj : Obj_Entry) (rela : Elf_Rela)
    (fptrs : Option (List Nat)) (s : State)
    (hty : ELF_R_TYPE rela.r_info ≠ R_IA64_FPTR64LSB) :
    ∃ v s', reloc_non_plt_obj env obj_rtld obj rela fptrs s = .ok (v, fptrs) s' ∧
      same_arena s s' ∧ ∀ a, a ≠ reloc_where obj rela → s'.mem a = s.mem a := by
  unfold reloc_non_plt_obj
  by_cases h1 : ELF_R_TYPE rela.r_info = R_IA64_REL64LSB
  · simp only [h1, if_true]
    by_cases hr : obj.addr ≠ obj_rtld
    · refine ⟨0, _, by rw [if_pos hr], ?_, ?_⟩
      · simp [same_arena, store64, alloc_calls, is_alloc]
      · intro a ha
        simp [store64, reloc_where] at ha ⊢
        exact upd_other _ _ _ _ ha
    · exact ⟨0, s, by rw [if_neg hr], same_arena_refl s, fun a _ => rfl⟩
  · simp only [h1, if_false]
    by_cases h2 : ELF_R_TYPE rela.r_info = R_IA64_DIR64LSB
    · simp only [h2, if_true, call_find_symdef]
      cases hres : env.find_symdef (ELF_R_SYM rela.r_info) obj.addr false with
      | none =>
        refine ⟨-1, _, rfl, ?_, fun a _ => rfl⟩
        simp [same_arena, alloc_calls, is_alloc]
      | some r =>
        obtain ⟨d, o⟩ := r
        refine ⟨0, _, rfl, ?_, ?_⟩
        · simp [same_arena, store64, alloc_calls, is_alloc]
        · intro a ha
          simp [store64, reloc_where] at ha ⊢
          exact upd_other _ _ _ _ ha
    · simp only [h2, hty, if_false]
      exact ⟨-1, s, rfl, same_arena_refl s, fun a _ => rfl⟩

/-- A descriptor entry that returns: it returns 0, its symbol index lies in the table, and
either the slot held a descriptor, which is stored into the target word, or `alloc_fptr`
returned a new descriptor, which is put into the slot and stored into the target word. -/
theorem reloc_non_plt_obj_fptr_ok {env : Env} {obj_rtld : Nat} {obj : Obj_Entry}
    {rela : Elf_Rela} {tbl : List Nat} {s : State} {v : Int} {t' : Option (List Nat)}
    {s' : State} (hty : ELF_R_TYPE rela.r_info = R_IA64_FPTR64LSB)
    (h : reloc_non_plt_obj env obj_rtld obj rela (some tbl) s = .ok (v, t') s') :
    v = 0 ∧ ELF_R_SYM rela.r_info < tbl.length ∧
      ((tbl.getD (ELF_R_SYM rela.r_info) 0 ≠ 0 ∧ t' = some tbl ∧ same_arena s s' ∧
          s'.mem = upd s.mem (reloc_where obj rela) (tbl.getD (ELF_R_SYM rela.r_info) 0)) ∨
        (tbl.getD (ELF_R_SYM rela.r_info) 0 = 0 ∧
          ∃ p s2, alloc_fptr env (fptr_pair env obj (ELF_R_SYM rela.r_info)).1
              (fptr_pair env obj (ELF_R_SYM rela.r_info)).2
              { s with
                trace := s.trace ++ [Event.find_symdef (ELF_R_SYM rela.r_info) false] } =
              .ok p s2 ∧
            t' = some (tbl.set (ELF_R_SYM rela.r_info) p) ∧
            s' = store64 s2 (reloc_where obj rela) p)) := by
  rw [reloc_non_plt_obj_fptr env obj_rtld obj rela (some tbl) s hty] at h
  simp only at h
  split at h
  · rename_i hlt
    split at h
    · rename_i hz
      obtain ⟨p, s2, hp, hfin⟩ := bind_eq_ok h
      simp only [Result.ok.injEq, Prod.mk.injEq] at hfin
      obtain ⟨⟨hv, ht⟩, hs⟩ := hfin
      exact ⟨hv.symm, hlt, Or.inr ⟨hz, p, s2, hp, ht.symm, hs.symm⟩⟩
    · rename_i hnz
      simp only [Result.ok.injEq, Prod.mk.injEq] at h
      obtain ⟨⟨hv, ht⟩, hs⟩ := h
      refine ⟨hv.symm, hlt, Or.inl ⟨hnz, ht.symm, ?_, ?_⟩⟩
      · subst hs
        simp [same_arena, store64, alloc_calls, is_alloc]
      · subst hs
        simp [store64]
  · simp at h

/-- One entry that returns, run with a table: the table keeps its length and every descriptor
it held, and no word but the target word of the entry changes. -/
theorem reloc_non_plt_obj_table {env : Env} {obj_rtld : Nat} {obj : Obj_Entry}
    {rela : Elf_Rela} {tbl : List Nat} {s : State} {v : Int} {t' : Option (List Nat)}
    {s' : State} (h : reloc_non_plt_obj env obj_rtld obj rela (some tbl) s = .ok (v, t') s') :
    ∃ tbl', t' = some tbl' ∧ tbl'.length = tbl.length ∧
      (∀ n, tbl.getD n 0 ≠ 0 → tbl'.getD n 0 = tbl.getD n 0) ∧
      ∀ a, a ≠ reloc_where obj rela → s'.mem a = s.mem a := by
  by_cases hty : ELF_R_TYPE rela.r_info = R_IA64_FPTR64LSB
  · obtain ⟨-, hlt, hcase⟩ := reloc_non_plt_obj_fptr_ok hty h
    rcases hcase with ⟨-, ht, -, hmem⟩ | ⟨hz, p, s2, hp, ht, hs⟩
    · refine ⟨tbl, ht, rfl, fun n _ => rfl, ?_⟩
      intro a ha
      rw [hmem, upd_other _ _ _ _ ha]
    · refine ⟨_, ht, List.length_set _ _ _, ?_, ?_⟩
      · intro n hn
        rw [getD_set tbl _ n p hlt]
        have hne : n ≠ ELF_R_SYM rela.r_info := fun he => hn (he ▸ hz)
        simp [hne]
      · intro a ha
        have hm2 := (alloc_fptr_ok_inv hp).2.2.1
        rw [hs]
        simp only [store64]
        rw [upd_other _ _ _ _ ha, hm2]
  · obtain ⟨v0, s0, h0, -, hmem⟩ := reloc_non_plt_obj_other env obj_rtld obj rela (some tbl) s hty
    rw [h0] at h
    simp only [Result.ok.injEq, Prod.mk.injEq] at h
    obtain ⟨⟨-, ht⟩, hs⟩ := h
    subst hs
    exact ⟨tbl, ht.symm, rfl, fun n _ => rfl, hmem⟩

/-- A non-empty loop that returns 0: its first entry returned 0 and the rest of the loop
returned 0 from there. -/
theorem rela_loop_cons_ok {env : Env} {obj_rtld : Nat} {obj : Obj_Entry} {e : Elf_Rela}
    {rest : List Elf_Rela} {fptrs t' : Option (List Nat)} {s s' : State}
    (h : rela_loop env obj_rtld obj (e :: rest) fptrs s = .ok (0, t') s') :
    ∃ t1 s1, reloc_non_plt_obj env obj_rtld obj e fptrs s = .ok (0, t1) s1 ∧
      rela_loop env obj_rtld obj rest t1 s1 = .ok (0, t') s' := by
  simp only [rela_loop] at h
  obtain ⟨r, s1, hstep, hrest⟩ := bind_eq_ok h
  by_cases hv : r.1 ≠ 0
  · simp [hv] at hrest
  · simp only [hv, if_false] at hrest
    have hr : r = (0, r.2) := by
      have : r.1 = 0 := not_not.mp hv
      rw [← this]
    exact ⟨r.2, s1, by rw [hstep, hr], hrest⟩

/-- A loop over a concatenation that returns 0: both parts returned 0, one after the other. -/
theorem rela_loop_append_ok {env : Env} {obj_rtld : Nat} {obj : Obj_Entry}
    {l1 l2 : List Elf_Rela} {fptrs t' : Option (List Nat)} {s s' : State}
    (h : rela_loop env obj_rtld obj (l1 ++ l2) fptrs s = .ok (0, t') s') :
    ∃ t1 s1, rela_loop env obj_rtld obj l1 fptrs s = .ok (0, t1) s1 ∧
      rela_loop env obj_rtld obj l2 t1 s1 = .ok (0, t') s' := by
  rw [rela_loop_append] at h
  obtain ⟨r, s1, h1, h2⟩ := bind_eq_ok h
  by_cases hv : r.1 ≠ 0
  · simp [hv] at h2
  · simp only [hv, if_false] at h2
    have hr : r = (0, r.2) := by
      have : r.1 = 0 := not_not.mp hv
      rw [← this]
    exact ⟨r.2, s1, by rw [h1, hr], h2⟩

/-- A loop that returns 0, run with a table: the table keeps its length and every descriptor it
held, and no word but the target words of the entries changes. -/
theorem rela_loop_table (env : Env) (obj_rtld : Nat) (obj : Obj_Entry) (es : List Elf_Rela) :
    ∀ (tbl : List Nat) (s : State) (t' : Option (List Nat)) (s' : State),
      rela_loop env obj_rtld obj es (some tbl) s = .ok (0, t') s' →
      ∃ tbl', t' = some tbl' ∧ tbl'.length = tbl.length ∧
        (∀ n, tbl.getD n 0 ≠ 0 → tbl'.getD n 0 = tbl.getD n 0) ∧
        ∀ a, (∀ e ∈ es, reloc_where obj e ≠ a) → s'.mem a = s.mem a := by
  induction es with
  | nil =>
    intro tbl s t' s' h
    simp only [rela_loop, Result.ok.injEq, Prod.mk.injEq, true_and] at h
    obtain ⟨ht, hs⟩ := h
    subst hs
    exact ⟨tbl, ht.symm, rfl, fun n _ => rfl, fun a _ => rfl⟩
  | cons e rest ih =>
    intro tbl s t' s' h
    obtain ⟨t1, s1, hstep, hrest⟩ := rela_loop_cons_ok h
    obtain ⟨tbl1, rfl, hlen1, hkeep1, hmem1⟩ := reloc_non_plt_obj_table hstep
    obtain ⟨tbl', ht', hlen', hkeep', hmem'⟩ := ih tbl1 s1 t' s' hrest
    refine ⟨tbl', ht', by rw [hlen', hlen1], ?_, ?_⟩
    · intro n hn
      have h1 := hkeep1 n hn
      rw [hkeep' n (by rw [h1]; exact hn), h1]
    · intro a ha
      rw [hmem' a (fun x hx => ha x (List.mem_cons_of_mem _ hx)),
        hmem1 a (fun he => ha e (List.mem_cons_self _ _) he.symm)]

/-- A descriptor entry in a loop that returns 0, whose target word no later entry of the loop
targets: at the end the target word holds the descriptor the final table has for the symbol. -/
theorem rela_loop_fptr_stored {env : Env} {obj_rtld : Nat} {obj : Obj_Entry}
    {l1 l2 : List Elf_Rela} {e : Elf_Rela} {tbl : List Nat} {t' : Option (List Nat)}
    {s s' : State}
    (h : rela_loop env obj_rtld obj (l1 ++ e :: l2) (some tbl) s = .ok (0, t') s')
    (hty : ELF_R_TYPE e.r_info = R_IA64_FPTR64LSB)
    (hlater : ∀ x ∈ l2, reloc_where obj x ≠ reloc_where obj e) :
    ∃ tbl', t' = some tbl' ∧ s'.mem (reloc_where obj e) = tbl'.getD (ELF_R_SYM e.r_info) 0 ∧
      tbl'.getD (ELF_R_SYM e.r_info) 0 ≠ 0 := by
  obtain ⟨t1, s1, h1, h2⟩ := rela_loop_append_ok h
  obtain ⟨tbl1, rfl, -, -, -⟩ := rela_loop_table env obj_rtld obj l1 tbl s t1 s1 h1
  obtain ⟨t2, s2, hstep, hrest⟩ := rela_loop_cons_ok h2
  obtain ⟨tbl2, rfl, -, -, -⟩ := reloc_non_plt_obj_table hstep
  obtain ⟨tbl', ht', -, hkeep, hmem⟩ := rela_loop_table env obj_rtld obj l2 tbl2 s2 t' s' hrest
  have hstored : s2.mem (reloc_where obj e) = tbl2.getD (ELF_R_SYM e.r_info) 0 ∧
      tbl2.getD (ELF_R_SYM e.r_info) 0 ≠ 0 := by
    obtain ⟨-, hlt, hcase⟩ := reloc_non_plt_obj_fptr_ok hty hstep
    rcases hcase with ⟨hnz, ht, -, hm⟩ | ⟨-, p, s3, hp, ht, hs⟩
    · simp only [Option.some.injEq] at ht
      subst ht
      exact ⟨by rw [hm, upd_same], hnz⟩
    · simp only [Option.some.injEq] at ht
      subst ht
      have hp0 := (alloc_fptr_ok_inv hp).2.1
      rw [hs, getD_set tbl1 _ _ p hlt]
      simp [store64, hp0]
  refine ⟨tbl', ht', ?_, ?_⟩
  · rw [hmem _ hlater, hstored.1, hkeep _ hstored.2]
  · rw [hkeep _ hstored.2]; exact hstored.2

/-- A pass that returns 0 has run its loop to the end with result 0, starting from a zeroed
table of `nchains` slots, and ends in the state the loop ends in. -/
theorem reloc_non_plt_ok {env : Env} {obj : Obj_Entry} {obj_rtld : Nat} {s : State}
    {obj' : Obj_Entry} {s' : State}
    (h : reloc_non_plt env obj obj_rtld s = .ok (0, obj') s') :
    ∃ t', rela_loop env obj_rtld obj (reloc_entries obj) (some (List.replicate obj.nchains 0))
        (pass_start env obj obj_rtld s).2 = .ok (0, t') s' ∧
      obj' = { obj with priv := if obj.addr ≠ obj_rtld then t' else none } := by
  rw [reloc_non_plt_eq] at h
  split at h
  · simp at h
  · obtain ⟨r, s3, hloop, hfin⟩ := bind_eq_ok h
    by_cases hv : r.1 ≠ 0
    · simp [hv] at hfin
    · simp only [hv, if_false] at hfin
      have hr : r = (0, r.2) := by
        have : r.1 = 0 := not_not.mp hv
        rw [← this]
      refine ⟨r.2, ?_, ?_⟩
      · split at hfin <;> simp only [Result.ok.injEq, Prod.mk.injEq, true_and] at hfin <;>
          rw [hloop, hr, hfin.2]
      · split at hfin <;> rename_i ha <;>
          simp only [Result.ok.injEq, Prod.mk.injEq, true_and] at hfin
        · rw [if_pos ha, ← hfin.1]
        · rw [if_neg ha, ← hfin.1]

/-- C1: in a pass that returns 0, two descriptor entries with the same symbol index, taken
anywhere in the processing order (entries without addend first, then entries with addend), end
with the same descriptor address in their target words, provided no later entry targets the
target word of either. -/
theorem reloc_non_plt_same_descriptor (env : Env) (obj : Obj_Entry) (obj_rtld : Nat)
    (s : State) (obj' : Obj_Entry) (s' : State) (l1 l2 l3 : List Elf_Rela) (e1 e2 : Elf_Rela)
    (hrun : reloc_non_plt env obj obj_rtld s = .ok (0, obj') s')
    (hsplit : reloc_entries obj = l1 ++ e1 :: (l2 ++ e2 :: l3))
    (hty1 : ELF_R_TYPE e1.r_info = R_IA64_FPTR64LSB)
    (hty2 : ELF_R_TYPE e2.r_info = R_IA64_FPTR64LSB)
    (hsym : ELF_R_SYM e1.r_info = ELF_R_SYM e2.r_info)
    (hlater1 : ∀ x ∈ l2 ++ e2 :: l3, reloc_where obj x ≠ reloc_where obj e1)
    (hlater2 : ∀ x ∈ l3, reloc_where obj x ≠ reloc_where obj e2) :
    s'.mem (reloc_where obj e1) = s'.mem (reloc_where obj e2) ∧
      s'.mem (reloc_where obj e1) ≠ 0 := by
  obtain ⟨t', hloop, -⟩ := reloc_non_plt_ok hrun
  have hloop1 := hloop
  rw [hsplit] at hloop1
  obtain ⟨tbl1, ht1, hm1, hnz1⟩ := rela_loop_fptr_stored hloop1 hty1 hlater1
  have hsplit2 : reloc_entries obj = (l1 ++ e1 :: l2) ++ e2 :: l3 := by
    rw [hsplit]; simp
  rw [hsplit2] at hloop
  obtain ⟨tbl2, ht2, hm2, -⟩ := rela_loop_fptr_stored hloop hty2 hlater2
  have htbl : tbl1 = tbl2 := by
    rw [ht1] at ht2
    exact Option.some.inj ht2
  subst htbl
  exact ⟨by rw [hm1, hm2, hsym], by rw [hm1]; exact hnz1⟩

set_option maxRecDepth 100000 in
/-- The instance of C1 at the sample object with descriptor entries for the symbols 5, 5, 9: the
entry without addend and the first entry with addend receive the same descriptor. -/
theorem reloc_non_plt_same_descriptor_witness :
    reloc_non_plt sample_env sample_aab_obj 7 sample_state =
      .ok (0, { sample_aab_obj with priv := some [0, 0, 0, 0, 0, 4096, 0, 0, 0, 4112, 0, 0] })
        (reloc_non_plt sample_env sample_aab_obj 7 sample_state).state ∧
    (reloc_non_plt sample_env sample_aab_obj 7 sample_state).state.mem
        (reloc_where sample_aab_obj (locrela ⟨0, 5 * 2 ^ 32 + R_IA64_FPTR64LSB⟩)) =
      (reloc_non_plt sample_env sample_aab_obj 7 sample_state).state.mem
        (reloc_where sample_aab_obj (fptr_entry 5 8)) ∧
    (reloc_non_plt sample_env sample_aab_obj 7 sample_state).state.mem
        (reloc_where sample_aab_obj (locrela ⟨0, 5 * 2 ^ 32 + R_IA64_FPTR64LSB⟩)) ≠ 0 :=
  ⟨rfl, reloc_non_plt_same_descriptor sample_env sample_aab_obj 7 sample_state _ _
    [] [] [fptr_entry 9 16] (locrela ⟨0, 5 * 2 ^ 32 + R_IA64_FPTR64LSB⟩) (fptr_entry 5 8)
    rfl rfl (by decide) (by decide) (by decide)
    (by
      intro x hx
      simp only [List.nil_append, List.mem_cons, List.mem_singleton, List.not_mem_nil,
        or_false] at hx
      rcases hx with rfl | rfl <;> decide)
    (by
      intro x hx
      simp only [List.mem_singleton] at hx
      subst hx
      decide)⟩

/-! ## One descriptor per symbol index -/

/-- Counting the symbol indexes without a descriptor: setting the slot of one of them removes
exactly that one from the count. -/
theorem card_new_syms (tbl : List Nat) (sym p : Nat) (R : Finset Nat)
    (hlt : sym < tbl.length) (hz : tbl.getD sym 0 = 0) (hp : p ≠ 0) :
    ((insert sym R).filter (fun n => tbl.getD n 0 = 0)).card =
      (R.filter (fun n => (tbl.set sym p).getD n 0 = 0)).card + 1 := by
  have h1 : (insert sym R).filter (fun n => tbl.getD n 0 = 0) =
      insert sym (R.filter (fun n => (tbl.set sym p).getD n 0 = 0)) := by
    ext n
    simp only [Finset.mem_filter, Finset.mem_insert, getD_set tbl sym n p hlt]
    by_cases hn : n = sym
    · rw [hn]
      constructor
      · intro _; exact Or.inl rfl
      · intro _; exact ⟨Or.inl rfl, hz⟩
    · simp [hn]
  have h2 : sym ∉ R.filter (fun n => (tbl.set sym p).getD n 0 = 0) := by
    simp only [Finset.mem_filter, getD_set tbl sym sym p hlt, if_true, not_and]
    exact fun _ => hp
  rw [h1, Finset.card_insert_of_not_mem h2]

/-- In a loop that returns 0, `alloc_fptr` is called once for each symbol index of a descriptor
entry that had no descriptor in the table at the start. -/
theorem rela_loop_alloc_count (env : Env) (obj_rtld : Nat) (obj : Obj_Entry)
    (es : List Elf_Rela) :
    ∀ (tbl : List Nat) (s : State) (t' : Option (List Nat)) (s' : State),
      rela_loop env obj_rtld obj es (some tbl) s = .ok (0, t') s' →
      alloc_calls s'.trace = alloc_calls s.trace +
        ((fptr_syms es).toFinset.filter (fun n => tbl.getD n 0 = 0)).card := by
  induction es with
  | nil =>
    intro tbl s t' s' h
    simp only [rela_loop, Result.ok.injEq, Prod.mk.injEq, true_and] at h
    rw [← h.2]
    simp [fptr_syms]
  | cons e rest ih =>
    intro tbl s t' s' h
    obtain ⟨t1, s1, hstep, hrest⟩ := rela_loop_cons_ok h
    by_cases hty : ELF_R_TYPE e.r_info = R_IA64_FPTR64LSB
    · obtain ⟨-, hlt, hcase⟩ := reloc_non_plt_obj_fptr_ok hty hstep
      simp only [fptr_syms, hty, if_true, List.toFinset_cons]
      rcases hcase with ⟨hnz, ht, hsame, -⟩ | ⟨hz, p, s2, hp, ht, hs⟩
      · subst ht
        rw [ih tbl s1 t' s' hrest, hsame.2.2.2.2.2, Finset.filter_insert, if_neg hnz]
      · subst ht
        have hinv := alloc_fptr_ok_inv hp
        rw [ih _ s1 t' s' hrest, card_new_syms tbl _ p _ hlt hz hinv.2.1, hs]
        simp only [store64, hinv.2.2.2.2.1, alloc_calls, List.countP_append, List.countP_cons,
          List.countP_nil, is_alloc]
        simp only [Bool.false_eq_true, if_false, if_true]
        omega
    · obtain ⟨v0, s0, h0, hsame, -⟩ :=
        reloc_non_plt_obj_other env obj_rtld obj e (some tbl) s hty
      rw [h0] at hstep
      simp only [Result.ok.injEq, Prod.mk.injEq] at hstep
      obtain ⟨⟨-, ht⟩, hs⟩ := hstep
      subst hs
      subst ht
      simp only [fptr_syms, hty, if_false]
      rw [ih tbl s0 t' s' hrest, hsame.2.2.2.2.2]

/-- One entry that returns, run in a sound arena with a table whose descriptors are in use: the
arena stays sound and the descriptors of the table after it are in use. -/
theorem reloc_non_plt_obj_fresh {env : Env} {obj_rtld : Nat} {obj : Obj_Entry}
    {rela : Elf_Rela} {tbl : List Nat} {s : State} {v : Int} {t' : Option (List Nat)}
    {s' : State} (hok : arena_ok env s) (hfresh : table_fresh env s tbl)
    (h : reloc_non_plt_obj env obj_rtld obj rela (some tbl) s = .ok (v, t') s') :
    ∃ tbl', t' = some tbl' ∧ arena_ok env s' ∧ table_fresh env s' tbl' := by
  by_cases hty : ELF_R_TYPE rela.r_info = R_IA64_FPTR64LSB
  · obtain ⟨-, hlt, hcase⟩ := reloc_non_plt_obj_fptr_ok hty h
    rcases hcase with ⟨-, ht, hsame, -⟩ | ⟨hz, p, s2, hp, ht, hs⟩
    · obtain ⟨-, -, hn, hl, hm, -⟩ := hsame
      refine ⟨tbl, ht, arena_ok_of_eq hn hl hm hok, ?_, hfresh.2⟩
      intro n hnz hav
      exact hfresh.1 n hnz ((avail_of_eq hn hl hm _).mp hav)
    · have hok1 : arena_ok env
          { s with trace := s.trace ++ [Event.find_symdef (ELF_R_SYM rela.r_info) false] } :=
        @arena_ok_of_eq env s _ rfl rfl rfl hok
      obtain ⟨hok2, hav, hnav, hmono⟩ := alloc_fptr_fresh hok1 hp
      have hp0 := (alloc_fptr_ok_inv hp).2.1
      have havs : avail env s p := (@avail_of_eq env s _ rfl rfl rfl p).mp hav
      have hold : ∀ n, tbl.getD n 0 ≠ 0 → tbl.getD n 0 ≠ p := by
        intro n hnz he
        exact hfresh.1 n hnz (he ▸ havs)
      refine ⟨_, ht, ?_, ?_, ?_⟩
      · rw [hs]; exact @arena_ok_of_eq env s2 _ rfl rfl rfl hok2
      · intro n hnz hav'
        rw [hs] at hav'
        have hav2 : avail env s2 ((tbl.set (ELF_R_SYM rela.r_info) p).getD n 0) :=
          (@avail_of_eq env s2 _ rfl rfl rfl _).mp hav'
        rw [getD_set tbl _ n p hlt] at hnz hav2
        by_cases hn : n = ELF_R_SYM rela.r_info
        · simp only [hn, if_true] at hav2
          exact hnav hav2
        · simp only [hn, if_false] at hnz hav2
          exact hfresh.1 n hnz ((@avail_of_eq env s _ rfl rfl rfl _).mp (hmono _ hav2))
      · intro n m hnm hnz
        rw [getD_set tbl _ n p hlt] at hnz ⊢
        rw [getD_set tbl _ m p hlt]
        by_cases hn : n = ELF_R_SYM rela.r_info
        · have hm : m ≠ ELF_R_SYM rela.r_info := fun hm => hnm (hn.trans hm.symm)
          simp only [hn, hm, if_true, if_false]
          intro he
          by_cases hmz : tbl.getD m 0 = 0
          · exact hp0 (he.trans hmz)
          · exact hold m hmz he.symm
        · simp only [hn, if_false] at hnz ⊢
          by_cases hm : m = ELF_R_SYM rela.r_info
          · simp only [hm, if_true]
            exact hold n hnz
          · simp only [hm, if_false]
            exact hfresh.2 n m hnm hnz
  · obtain ⟨v0, s0, h0, hsame, -⟩ :=
      reloc_non_plt_obj_other env obj_rtld obj rela (some tbl) s hty
    rw [h0] at h
    simp only [Result.ok.injEq, Prod.mk.injEq] at h
    obtain ⟨⟨-, ht⟩, hs⟩ := h
    subst hs
    obtain ⟨-, -, hn, hl, hm, -⟩ := hsame
    refine ⟨tbl, ht.symm, arena_ok_of_eq hn hl hm hok, ?_, hfresh.2⟩
    intro n hnz hav
    exact hfresh.1 n hnz ((avail_of_eq hn hl hm _).mp hav)

/-- A loop that returns 0, run in a sound arena with a table whose descriptors are in use: at
the end two slots of the table never hold the same descriptor. -/
theorem rela_loop_fresh (env : Env) (obj_rtld : Nat) (obj : Obj_Entry) (es : List Elf_Rela) :
    ∀ (tbl : List Nat) (s : State) (t' : Option (List Nat)) (s' : State),
      arena_ok env s → table_fresh env s tbl →
      rela_loop env obj_rtld obj es (some tbl) s = .ok (0, t') s' →
      ∃ tbl', t' = some tbl' ∧ arena_ok env s' ∧ table_fresh env s' tbl' := by
  induction es with
  | nil =>
    intro tbl s t' s' hok hfresh h
    simp only [rela_loop, Result.ok.injEq, Prod.mk.injEq, true_and] at h
    obtain ⟨ht, hs⟩ := h
    subst hs
    exact ⟨tbl, ht.symm, hok, hfresh⟩
  | cons e rest ih =>
    intro tbl s t' s' hok hfresh h
    obtain ⟨t1, s1, hstep, hrest⟩ := rela_loop_cons_ok h
    obtain ⟨tbl1, rfl, hok1, hfresh1⟩ := reloc_non_plt_obj_fresh hok hfresh hstep
    exact ih tbl1 s1 t' s' hok1 hfresh1 hrest

/-- Every slot of the table a pass starts with is empty. -/
theorem getD_replicate_zero (n m : Nat) : (List.replicate n 0).getD m 0 = 0 := by
  simp only [List.getD_eq_getElem?_getD, List.getElem?_replicate]
  split <;> rfl

/-- The state the loops start in has the cursor, chunk end and log of the state the pass starts
in, and no fewer `malloc` calls. -/
theorem pass_start_arena (env : Env) (obj : Obj_Entry) (obj_rtld : Nat) (s : State) :
    (pass_start env obj obj_rtld s).2.next_fptr = s.next_fptr ∧
      (pass_start env obj obj_rtld s).2.last_fptr = s.last_fptr ∧
      (pass_start env obj obj_rtld s).2.trace = s.trace ∧
      s.mallocs ≤ (pass_start env obj obj_rtld s).2.mallocs ∧
      (obj.addr = obj_rtld → (pass_start env obj obj_rtld s).2.mallocs = s.mallocs) := by
  unfold pass_start
  split
  · exact ⟨rfl, rfl, rfl, le_refl _, fun _ => rfl⟩
  · rename_i h
    exact ⟨rfl, rfl, rfl, Nat.le_succ _, fun h' => absurd h' h⟩

/-- C2: in a pass that returns 0, run in a sound arena, the number of calls of `alloc_fptr` is
the number of distinct symbol indexes of the descriptor entries of the object, and two
descriptor entries with different symbol indexes end with different descriptor addresses in
their target words (provided no later entry targets the target word of either). -/
theorem reloc_non_plt_descriptor_count (env : Env) (obj : Obj_Entry) (obj_rtld : Nat)
    (s : State) (obj' : Obj_Entry) (s' : State)
    (harena : arena_ok env s)
    (hrun : reloc_non_plt env obj obj_rtld s = .ok (0, obj') s') :
    alloc_calls s'.trace =
        alloc_calls s.trace + (fptr_syms (reloc_entries obj)).dedup.length ∧
      ∀ (l1 l2 l3 : List Elf_Rela) (e1 e2 : Elf_Rela),
        reloc_entries obj = l1 ++ e1 :: (l2 ++ e2 :: l3) →
        ELF_R_TYPE e1.r_info = R_IA64_FPTR64LSB →
        ELF_R_TYPE e2.r_info = R_IA64_FPTR64LSB →
        ELF_R_SYM e1.r_info ≠ ELF_R_SYM e2.r_info →
        (∀ x ∈ l2 ++ e2 :: l3, reloc_where obj x ≠ reloc_where obj e1) →
        (∀ x ∈ l3, reloc_where obj x ≠ reloc_where obj e2) →
        s'.mem (reloc_where obj e1) ≠ s'.mem (reloc_where obj e2) := by
  obtain ⟨t', hloop, -⟩ := reloc_non_plt_ok hrun
  obtain ⟨hn, hl, htr, hm, -⟩ := pass_start_arena env obj obj_rtld s
  constructor
  · rw [rela_loop_alloc_count env obj_rtld obj _ _ _ t' s' hloop, htr, ← List.card_toFinset]
    congr 2
    apply Finset.filter_true_of_mem
    intro n _
    exact getD_replicate_zero _ _
  · intro l1 l2 l3 e1 e2 hsplit hty1 hty2 hsym hlater1 hlater2
    have hok1 : arena_ok env (pass_start env obj obj_rtld s).2 := by
      obtain ⟨hroom, hcur, hfr⟩ := harena
      refine ⟨?_, ?_, ?_⟩
      · rw [hn, hl]; exact hroom
      · intro i hi
        rw [hn, hl]
        exact hcur i (le_trans hm hi)
      · intro i j hi
        exact hfr i j (le_trans hm hi)
    have hfresh0 : table_fresh env (pass_start env obj obj_rtld s).2
        (List.replicate obj.nchains 0) :=
      ⟨fun n hnz => absurd (getD_replicate_zero _ _) hnz,
        fun n m _ hnz => absurd (getD_replicate_zero _ _) hnz⟩
    obtain ⟨tbl', ht', -, hfresh'⟩ :=
      rela_loop_fresh env obj_rtld obj _ _ _ t' s' hok1 hfresh0 hloop
    have hloop1 := hloop
    rw [hsplit] at hloop1
    obtain ⟨tbl1, ht1, hm1, hnz1⟩ := rela_loop_fptr_stored hloop1 hty1 hlater1
    have hsplit2 : reloc_entries obj = (l1 ++ e1 :: l2) ++ e2 :: l3 := by
      rw [hsplit]; simp
    rw [hsplit2] at hloop
    obtain ⟨tbl2, ht2, hm2, -⟩ := rela_loop_fptr_stored hloop hty2 hlater2
    have e1' : tbl1 = tbl' := Option.some.inj (ht1.symm.trans ht')
    have e2' : tbl2 = tbl' := Option.some.inj (ht2.symm.trans ht')
    subst e1'
    subst e2'
    rw [hm1, hm2]
    exact hfresh'.2 _ _ hsym hnz1

/-- The load-time arena of the sample state is sound under the sample allocator. -/
theorem sample_arena_ok : arena_ok sample_env sample_state := by
  apply arena_ok_init sample_env sample_state ⟨rfl, rfl, rfl⟩
  · intro i _ _
    simp only [chunk_at, sample_env, sizeof_fptr_chunk, FPTR_CHUNK_SIZE, sizeof_fptr]
    omega
  · intro i j _ hij _ _
    simp only [chunk_at, sample_env, sizeof_fptr_chunk, FPTR_CHUNK_SIZE, sizeof_fptr]
    omega

set_option maxRecDepth 100000 in
/-- The instance of C2 at the sample object with descriptor entries for the symbols 5, 5, 9: the
pass calls `alloc_fptr` twice, and the entries for 5 and for 9 receive different descriptors. -/
theorem reloc_non_plt_descriptor_count_witness :
    (fptr_syms (reloc_entries sample_aab_obj)).dedup.length = 2 ∧
    alloc_calls (reloc_non_plt sample_env sample_aab_obj 7 sample_state).state.trace =
      alloc_calls sample_state.trace + (fptr_syms (reloc_entries sample_aab_obj)).dedup.length ∧
    (reloc_non_plt sample_env sample_aab_obj 7 sample_state).state.mem
        (reloc_where sample_aab_obj (fptr_entry 5 8)) ≠
      (reloc_non_plt sample_env sample_aab_obj 7 sample_state).state.mem
        (reloc_where sample_aab_obj (fptr_entry 9 16)) :=
  ⟨by decide,
    (reloc_non_plt_descriptor_count sample_env sample_aab_obj 7 sample_state
      { sample_aab_obj with priv := some [0, 0, 0, 0, 0, 4096, 0, 0, 0, 4112, 0, 0] }
      (reloc_non_plt sample_env sample_aab_obj 7 sample_state).state sample_arena_ok rfl).1,
    (reloc_non_plt_descriptor_count sample_env sample_aab_obj 7 sample_state
      { sample_aab_obj with priv := some [0, 0, 0, 0, 0, 4096, 0, 0, 0, 4112, 0, 0] }
      (reloc_non_plt sample_env sample_aab_obj 7 sample_state).state sample_arena_ok rfl).2
      [locrela ⟨0, 5 * 2 ^ 32 + R_IA64_FPTR64LSB⟩] [] [] (fptr_entry 5 8) (fptr_entry 9 16)
      rfl (by decide) (by decide) (by decide)
      (by
        intro x hx
        simp only [List.nil_append, List.mem_singleton] at hx
        subst hx
        decide)
      (by intro x hx; cases hx)⟩

/-! ## The loader's own image and the allocator -/

/-- While the current chunk has room, `alloc_fptr` does not call `malloc`, whatever its
outcome; it leaves the end of the chunk in place and advances the cursor by one descriptor. -/
theorem alloc_fptr_no_malloc (env : Env) (target gp : Nat) (s : State)
    (h : s.next_fptr ≠ s.last_fptr) :
    (alloc_fptr env target gp s).state.mallocs = s.mallocs ∧
      (alloc_fptr env target gp s).state.last_fptr = s.last_fptr ∧
      (alloc_fptr env target gp s).state.next_fptr = s.next_fptr + sizeof_fptr := by
  unfold alloc_fptr
  simp only [h, if_false]
  split <;> exact ⟨rfl, rfl, rfl⟩

/-- Sequencing with a continuation that returns in the state it is given ends in the state the
first part ends in. -/
theorem bind_state {α β : Type} (r : Result α) (f : α → State → Result β)
    (hf : ∀ v s, (f v s).state = s) : (r.bind f).state = r.state := by
  cases r with
  | ok v s => exact hf v s
  | fault s => rfl
  | errx s => rfl
  | assert_fail s => rfl

/-- A loop whose descriptor entries need no more new descriptors than the current chunk has
room for does not call `malloc`, whatever its outcome. -/
theorem rela_loop_no_malloc (env : Env) (obj_rtld : Nat) (obj : Obj_Entry)
    (es : List Elf_Rela) :
    ∀ (tbl : List Nat) (s : State) (k : Nat),
      s.next_fptr + sizeof_fptr * k = s.last_fptr →
      ((fptr_syms es).toFinset.filter (fun n => tbl.getD n 0 = 0)).card ≤ k →
      (rela_loop env obj_rtld obj es (some tbl) s).state.mallocs = s.mallocs := by
  induction es with
  | nil => intro tbl s k _ _; rfl
  | cons e rest ih =>
    intro tbl s k hk hcard
    simp only [rela_loop]
    by_cases hty : ELF_R_TYPE e.r_info = R_IA64_FPTR64LSB
    · simp only [fptr_syms, hty, if_true, List.toFinset_cons] at hcard
      rw [reloc_non_plt_obj_fptr env obj_rtld obj e (some tbl) s hty]
      simp only
      by_cases hlt : ELF_R_SYM e.r_info < tbl.length
      · simp only [hlt, if_true]
        by_cases hz : tbl.getD (ELF_R_SYM e.r_info) 0 = 0
        · simp only [hz, if_true]
          have hk1 : 1 ≤ k := by
            rw [card_new_syms tbl _ 1 _ hlt hz (by decide)] at hcard
            omega
          have hroom : ({ s with trace :=
              s.trace ++ [Event.find_symdef (ELF_R_SYM e.r_info) false] } : State).next_fptr ≠
              ({ s with trace :=
                s.trace ++ [Event.find_symdef (ELF_R_SYM e.r_info) false] } : State).last_fptr := by
            simp only [sizeof_fptr] at hk
            show s.next_fptr ≠ s.last_fptr
            omega
          have hno := alloc_fptr_no_malloc env (fptr_pair env obj (ELF_R_SYM e.r_info)).1
            (fptr_pair env obj (ELF_R_SYM e.r_info)).2 _ hroom
          cases halloc : alloc_fptr env (fptr_pair env obj (ELF_R_SYM e.r_info)).1
              (fptr_pair env obj (ELF_R_SYM e.r_info)).2
              { s with trace := s.trace ++ [Event.find_symdef (ELF_R_SYM e.r_info) false] } with
          | ok p s2 =>
            rw [halloc] at hno
            simp only [Result.state] at hno
            have hp0 := (alloc_fptr_ok_inv halloc).2.1
            rw [card_new_syms tbl _ p _ hlt hz hp0] at hcard
            simp only [bind_ok, ne_eq, not_true_eq_false, if_false]
            rw [ih _ _ (k - 1) ?_ ?_]
            · exact hno.1
            · simp only [store64, hno.2.2, hno.2.1, sizeof_fptr] at hk ⊢
              omega
            · omega
          | fault s2 =>
            rw [halloc] at hno
            exact hno.1
          | errx s2 =>
            rw [halloc] at hno
            exact hno.1
          | assert_fail s2 =>
            rw [halloc] at hno
            exact hno.1
        · simp only [hz, if_false, bind_ok, ne_eq, not_true_eq_false]
          rw [Finset.filter_insert, if_neg hz] at hcard
          rw [ih _ _ k ?_ hcard]
          · rfl
          · exact hk
      · simp only [hlt, if_false, bind_fault]
        rfl
    · obtain ⟨v0, s0, h0, hsame, -⟩ :=
        reloc_non_plt_obj_other env obj_rtld obj e (some tbl) s hty
      obtain ⟨-, -, hn, hl, hm, -⟩ := hsame
      simp only [fptr_syms, hty, if_false] at hcard
      rw [h0]
      simp only [bind_ok]
      by_cases hv : v0 ≠ 0
      · rw [if_pos hv]
        exact hm
      · rw [if_neg hv, ih tbl s0 k (by rw [hn, hl]; exact hk) hcard, hm]

/-- Up to the capacity of the static chunk the loader's pass keeps clear of `malloc`: a pass
over the loader's own image, started from the load-time arena, calls `malloc` not once,
whatever its outcome, when the descriptor entries of the image reference no more than
`FPTR_CHUNK_SIZE` distinct symbol indexes. -/
theorem reloc_non_plt_rtld_no_malloc (env : Env) (obj : Obj_Entry) (obj_rtld : Nat) (s : State)
    (hrtld : obj.addr = obj_rtld) (hinit : init_arena env s)
    (hfew : (fptr_syms (reloc_entries obj)).dedup.length ≤ FPTR_CHUNK_SIZE) :
    (reloc_non_plt env obj obj_rtld s).state.mallocs = s.mallocs := by
  obtain ⟨hn, hl, -, -, hm⟩ := pass_start_arena env obj obj_rtld s
  rw [reloc_non_plt_eq]
  split
  · exact hm hrtld
  · rw [bind_state]
    · rw [rela_loop_no_malloc env obj_rtld obj _ _ _ FPTR_CHUNK_SIZE ?_ ?_]
      · exact hm hrtld
      · rw [hn, hl, hinit.2.1, hinit.2.2, Nat.mul_comm]
      · rw [← List.card_toFinset] at hfew
        exact le_trans (Finset.card_filter_le _ _) hfew
    · intro v s3
      split
      · rfl
      · split <;> rfl

set_option maxRecDepth 100000 in
/-- At the capacity of the static chunk: a sample loader image with 64 descriptor entries for
64 distinct symbols is relocated without a call of `malloc`. -/
theorem reloc_non_plt_rtld_no_malloc_at_capacity :
    (sample_rtld_obj 64).addr = 1 ∧ init_arena sample_env sample_state ∧
    (fptr_syms (reloc_entries (sample_rtld_obj 64))).dedup.length ≤ FPTR_CHUNK_SIZE ∧
    (reloc_non_plt sample_env (sample_rtld_obj 64) 1 sample_state).state.mallocs =
      sample_state.mallocs :=
  ⟨rfl, ⟨rfl, rfl, rfl⟩, by decide,
    reloc_non_plt_rtld_no_malloc sample_env (sample_rtld_obj 64) 1 sample_state rfl
      ⟨rfl, rfl, rfl⟩ (by decide)⟩

set_option maxRecDepth 100000 in
/-- C9: the code breaks the claim, and its own comments (lines 79-82, 211-213, 247-248), beyond
the capacity of the static chunk.  A loader image (`obj == obj_rtld`) with 65 descriptor entries
for 65 distinct symbols, run from the load-time arena, takes its table from `alloca` without a
call of `malloc`, and yet completes its pass, returning 0, with one call of `malloc`: the one
`alloc_fptr` makes for the 65th descriptor. -/
theorem reloc_non_plt_rtld_calls_malloc :
    (sample_rtld_obj 65).addr = 1 ∧ init_arena sample_env sample_state ∧
    (pass_start sample_env (sample_rtld_obj 65) 1 sample_state).2.mallocs =
      sample_state.mallocs ∧
    (∃ obj' s', reloc_non_plt sample_env (sample_rtld_obj 65) 1 sample_state =
      .ok (0, obj') s') ∧
    (reloc_non_plt sample_env (sample_rtld_obj 65) 1 sample_state).state.mallocs =
      sample_state.mallocs + 1 :=
  ⟨rfl, ⟨rfl, rfl, rfl⟩, rfl,
    ⟨{ sample_rtld_obj 65 with priv := none },
      (reloc_non_plt sample_env (sample_rtld_obj 65) 1 sample_state).state, rfl⟩,
    by decide⟩

/-! ## The lazy-binding update is idempotent -/

/-- C20: `reloc_jmpslot` returns the slot address `where`; when the target word already holds
`target` it ends in the state it started in (no store, no fence); otherwise the target word
holds `target` and the next word holds `obj.pltgot` afterwards, and no other word has changed;
and a second call with the same arguments ends in the state the first call ends in. -/
theorem reloc_jmpslot_idempotent (where_ target : Nat) (obj : Obj_Entry) (s : State) :
    ∃ s', reloc_jmpslot where_ target obj s = .ok where_ s' ∧
      (load64 s where_ = target → s' = s) ∧
      (load64 s where_ ≠ target →
        s'.mem where_ = target ∧ s'.mem (add64 where_ 8) = obj.pltgot ∧
        ∀ a, a ≠ where_ → a ≠ add64 where_ 8 → s'.mem a = s.mem a) ∧
      reloc_jmpslot where_ target obj s' = .ok where_ s' := by
  by_cases h : load64 s where_ = target
  · refine ⟨s, ?_, fun _ => rfl, fun hne => absurd h hne, ?_⟩ <;>
      simp [reloc_jmpslot, h]
  · have hw : add64 where_ 8 ≠ where_ := by
      unfold add64
      omega
    have hrun : reloc_jmpslot where_ target obj s =
        .ok where_
          (ia64_mf (store64 (ia64_mf (store64 s (add64 where_ 8) obj.pltgot)) where_ target)) := by
      simp only [reloc_jmpslot, ne_eq, h, not_false_eq_true, if_true]
    refine ⟨_, hrun, fun he => absurd he h, fun _ => ⟨?_, ?_, ?_⟩, ?_⟩
    · simp [store64, ia64_mf]
    · simp [store64, ia64_mf, upd, hw]
    · intro a h1 h2
      simp [store64, ia64_mf, upd, h1, h2]
    · simp [reloc_jmpslot, load64, store64, ia64_mf]

/-! ## Self-relative and direct entries -/

/-- C15: a self-relative (`R_IA64_REL64LSB`) entry returns 0 in both cases.  For the loader's
own image the state is unchanged.  For any other object the target word becomes the old word
plus `obj.relocbase` modulo `2 ^ 64`, no other word changes, and the only action logged is that
store: the resolver is not called. -/
theorem reloc_rel64 (env : Env) (obj_rtld : Nat) (obj : Obj_Entry) (rela : Elf_Rela)
    (fptrs : Option (List Nat)) (s : State)
    (hty : ELF_R_TYPE rela.r_info = R_IA64_REL64LSB) :
    (obj.addr = obj_rtld →
      reloc_non_plt_obj env obj_rtld obj rela fptrs s = .ok (0, fptrs) s) ∧
    (obj.addr ≠ obj_rtld →
      ∃ s', reloc_non_plt_obj env obj_rtld obj rela fptrs s = .ok (0, fptrs) s' ∧
        s'.mem (reloc_where obj rela) =
          (s.mem (reloc_where obj rela) + obj.relocbase) % 2 ^ 64 ∧
        (∀ a, a ≠ reloc_where obj rela → s'.mem a = s.mem a) ∧
        s'.trace = s.trace ++ [Event.store (reloc_where obj rela)
          ((s.mem (reloc_where obj rela) + obj.relocbase) % 2 ^ 64)] ∧
        s'.fptr_mem = s.fptr_mem ∧ s'.mallocs = s.mallocs) := by
  constructor
  · intro h
    simp [reloc_non_plt_obj, hty, h]
  · intro h
    have hrun : reloc_non_plt_obj env obj_rtld obj rela fptrs s =
        .ok (0, fptrs) (store64 s (reloc_where obj rela)
          (add64 (load64 s (reloc_where obj rela)) obj.relocbase)) := by
      simp only [reloc_non_plt_obj, hty, if_true, ne_eq, h, not_false_eq_true, reloc_where]
    refine ⟨_, hrun, ?_, ?_, ?_, rfl, rfl⟩
    · simp [store64, add64, load64]
    · intro a ha
      simp only [store64]
      exact upd_other _ _ _ _ ha
    · simp [store64, add64, load64]

/-- The instance of C15 at the self-relative entry of the sample object, run once as the
loader's own image and once as another object. -/
theorem reloc_rel64_witness :
    reloc_non_plt_obj sample_env 1 sample_dir_obj (locrela ⟨0, R_IA64_REL64LSB⟩) none
        sample_state = .ok (0, none) sample_state ∧
    ∃ s', reloc_non_plt_obj sample_env 7 sample_dir_obj (locrela ⟨0, R_IA64_REL64LSB⟩) none
        sample_state = .ok (0, none) s' ∧
      s'.mem (reloc_where sample_dir_obj (locrela ⟨0, R_IA64_REL64LSB⟩)) =
        (sample_state.mem (reloc_where sample_dir_obj (locrela ⟨0, R_IA64_REL64LSB⟩)) +
          sample_dir_obj.relocbase) % 2 ^ 64 ∧
      (∀ a, a ≠ reloc_where sample_dir_obj (locrela ⟨0, R_IA64_REL64LSB⟩) →
        s'.mem a = sample_state.mem a) ∧
      s'.trace = sample_state.trace ++
        [Event.store (reloc_where sample_dir_obj (locrela ⟨0, R_IA64_REL64LSB⟩))
          ((sample_state.mem (reloc_where sample_dir_obj (locrela ⟨0, R_IA64_REL64LSB⟩)) +
            sample_dir_obj.relocbase) % 2 ^ 64)] ∧
      s'.fptr_mem = sample_state.fptr_mem ∧ s'.mallocs = sample_state.mallocs :=
  ⟨(reloc_rel64 sample_env 1 sample_dir_obj (locrela ⟨0, R_IA64_REL64LSB⟩) none sample_state
      (by decide)).1 rfl,
    (reloc_rel64 sample_env 7 sample_dir_obj (locrela ⟨0, R_IA64_REL64LSB⟩) none sample_state
      (by decide)).2 (by decide)⟩

/-- Adding a signed addend to a sum reduced modulo `2 ^ 64` is adding it to the sum. -/
theorem add64s_add64 (a b : Nat) (c : Int) :
    add64s (add64 a b) c = ((((a + b : Nat) : Int) + c) % 2 ^ 64).toNat := by
  unfold add64s add64
  congr 1
  omega

/-- A pass stops with -1 at an entry that returns -1: if the entries before it, run as a pass of
their own, return 0 in the state `sk`, and the entry returns -1 in the state `sf` when run from
`sk`, then the pass returns -1 in the state `sf` with the object record unchanged. -/
theorem reloc_non_plt_abort (env : Env) (obj : Obj_Entry) (obj_rtld : Nat) (s : State)
    (rels : List Elf_Rel) (relas : List Elf_Rela) (e : Elf_Rela) (post : List Elf_Rela)
    (objk : Obj_Entry) (sk sf : State)
    (hsplit : reloc_entries obj = (rels.map locrela ++ relas) ++ e :: post)
    (hstep : ∀ fptrs, reloc_non_plt_obj env obj_rtld obj e fptrs sk = .ok (-1, fptrs) sf)
    (hk : reloc_non_plt env { obj with rel := rels, rela := relas } obj_rtld s =
      .ok (0, objk) sk) :
    reloc_non_plt env obj obj_rtld s = .ok (-1, obj) sf := by
  rw [reloc_non_plt_eq] at hk ⊢
  have hstart : pass_start env { obj with rel := rels, rela := relas } obj_rtld s =
      pass_start env obj obj_rtld s := rfl
  have hent : reloc_entries { obj with rel := rels, rela := relas } =
      rels.map locrela ++ relas := rfl
  rw [hstart, hent, rela_loop_tables] at hk
  by_cases hp : (pass_start env obj obj_rtld s).1 = 0
  · simp [hp] at hk
  · simp only [hp, if_false] at hk ⊢
    obtain ⟨r, s3, hloop, hfin⟩ := bind_eq_ok hk
    by_cases hr : r.1 ≠ 0
    · simp [hr] at hfin
    · have hsk : s3 = sk := by
        simp only [hr, if_false] at hfin
        split at hfin <;> simp only [Result.ok.injEq] at hfin <;> exact hfin.2
      subst hsk
      have hr0 : r.1 = 0 := not_not.mp hr
      rw [hsplit, rela_loop_append, hloop]
      simp [hr0, rela_loop, hstep r.2]

/-- C14: a direct (`R_IA64_DIR64LSB`) entry.  When the resolver finds the definition `d` in the
object `o`, the call returns 0, the target word becomes
`(o.relocbase + d.st_value + r_addend) mod 2 ^ 64` and no other word changes.  When the resolver
finds nothing, the call returns -1 and memory is unchanged; and a pass that reaches the entry
after entries that return 0 returns -1 with the memory those entries left. -/
theorem reloc_dir64 (env : Env) (obj_rtld : Nat) (obj : Obj_Entry) (rela : Elf_Rela)
    (fptrs : Option (List Nat)) (s : State)
    (hty : ELF_R_TYPE rela.r_info = R_IA64_DIR64LSB) :
    (∀ d o, env.find_symdef (ELF_R_SYM rela.r_info) obj.addr false = some (d, o) →
      ∃ s', reloc_non_plt_obj env obj_rtld obj rela fptrs s = .ok (0, fptrs) s' ∧
        s'.mem (reloc_where obj rela) =
          ((((o.relocbase + d.st_value : Nat) : Int) + rela.r_addend) % 2 ^ 64).toNat ∧
        ∀ a, a ≠ reloc_where obj rela → s'.mem a = s.mem a) ∧
    (env.find_symdef (ELF_R_SYM rela.r_info) obj.addr false = none →
      (∃ s', reloc_non_plt_obj env obj_rtld obj rela fptrs s = .ok (-1, fptrs) s' ∧
        s'.mem = s.mem) ∧
      ∀ (s0 : State) (rels : List Elf_Rel) (relas post : List Elf_Rela) (objk : Obj_Entry)
        (sk : State),
        reloc_entries obj = (rels.map locrela ++ relas) ++ rela :: post →
        reloc_non_plt env { obj with rel := rels, rela := relas } obj_rtld s0 =
          .ok (0, objk) sk →
        ∃ sf, reloc_non_plt env obj obj_rtld s0 = .ok (-1, obj) sf ∧ sf.mem = sk.mem) := by
  have h1 : R_IA64_DIR64LSB ≠ R_IA64_REL64LSB := by decide
  constructor
  · intro d o hfind
    have hrun : reloc_non_plt_obj env obj_rtld obj rela fptrs s =
        .ok (0, fptrs)
          (store64
            { s with trace := s.trace ++ [Event.find_symdef (ELF_R_SYM rela.r_info) false] }
            (reloc_where obj rela) (add64s (add64 o.relocbase d.st_value) rela.r_addend)) := by
      simp only [reloc_non_plt_obj, hty, h1, if_false, if_true, call_find_symdef, hfind,
        reloc_where]
    refine ⟨_, hrun, ?_, ?_⟩
    · simp [store64, add64s_add64]
    · intro a ha
      simp only [store64]
      exact upd_other _ _ _ _ ha
  · intro hfind
    have hstep : ∀ (t : Option (List Nat)) (st : State),
        reloc_non_plt_obj env obj_rtld obj rela t st =
          .ok (-1, t)
            { st with trace := st.trace ++ [Event.find_symdef (ELF_R_SYM rela.r_info) false] } := by
      intro t st
      simp only [reloc_non_plt_obj, hty, h1, if_false, if_true, call_find_symdef, hfind]
    refine ⟨⟨_, hstep fptrs s, rfl⟩, ?_⟩
    intro s0 rels relas post objk sk hsplit hk
    exact ⟨_, reloc_non_plt_abort env obj obj_rtld s0 rels relas rela post objk sk _ hsplit
      (fun t => hstep t sk) hk, rfl⟩

set_option maxRecDepth 100000 in
/-- The instance of C14 at the sample object, with a resolver that finds the symbol 1 and not
the symbol 2: a direct entry for 1 from the stream without addend, one with the addend -4, and
the direct entry for 2, which stops the pass after the two entries before it. -/
theorem reloc_dir64_witness :
    (∃ s', reloc_non_plt_obj sample_odd_env 7 sample_dir_obj
        (locrela ⟨8, 1 * 2 ^ 32 + R_IA64_DIR64LSB⟩) none sample_state = .ok (0, none) s' ∧
      s'.mem (reloc_where sample_dir_obj (locrela ⟨8, 1 * 2 ^ 32 + R_IA64_DIR64LSB⟩)) =
        ((((sample_defobj.relocbase + 512 : Nat) : Int) + 0) % 2 ^ 64).toNat ∧
      ∀ a, a ≠ reloc_where sample_dir_obj (locrela ⟨8, 1 * 2 ^ 32 + R_IA64_DIR64LSB⟩) →
        s'.mem a = sample_state.mem a) ∧
    (∃ s', reloc_non_plt_obj sample_odd_env 7 sample_dir_obj (dir_entry 1 8 (-4)) none
        sample_state = .ok (0, none) s' ∧
      s'.mem (reloc_where sample_dir_obj (dir_entry 1 8 (-4))) =
        ((((sample_defobj.relocbase + 512 : Nat) : Int) + (-4)) % 2 ^ 64).toNat ∧
      ∀ a, a ≠ reloc_where sample_dir_obj (dir_entry 1 8 (-4)) →
        s'.mem a = sample_state.mem a) ∧
    (∃ s', reloc_non_plt_obj sample_odd_env 7 sample_dir_obj (dir_entry 2 16 4) none
        sample_state = .ok (-1, none) s' ∧ s'.mem = sample_state.mem) ∧
    ∃ sf, reloc_non_plt sample_odd_env sample_dir_obj 7 sample_state =
        .ok (-1, sample_dir_obj) sf ∧
      sf.mem = (reloc_non_plt sample_odd_env
        { sample_dir_obj with rel := [⟨0, R_IA64_REL64LSB⟩], rela := [dir_entry 1 8 (-4)] }
        7 sample_state).state.mem :=
  ⟨(reloc_dir64 sample_odd_env 7 sample_dir_obj (locrela ⟨8, 1 * 2 ^ 32 + R_IA64_DIR64LSB⟩)
      none sample_state (by decide)).1 ⟨512, 0⟩ sample_defobj rfl,
    (reloc_dir64 sample_odd_env 7 sample_dir_obj (dir_entry 1 8 (-4)) none sample_state
      (by decide)).1 ⟨512, 0⟩ sample_defobj rfl,
    ((reloc_dir64 sample_odd_env 7 sample_dir_obj (dir_entry 2 16 4) none sample_state
      (by decide)).2 rfl).1,
    ((reloc_dir64 sample_odd_env 7 sample_dir_obj (dir_entry 2 16 4) none sample_state
      (by decide)).2 rfl).2 sample_state [⟨0, R_IA64_REL64LSB⟩] [dir_entry 1 8 (-4)]
      [fptr_entry 3 24]
      { sample_dir_obj with
        rel := [⟨0, R_IA64_REL64LSB⟩], rela := [dir_entry 1 8 (-4)],
        priv := some [0, 0, 0, 0] }
      (reloc_non_plt sample_odd_env
        { sample_dir_obj with rel := [⟨0, R_IA64_REL64LSB⟩], rela := [dir_entry 1 8 (-4)] }
        7 sample_state).state rfl rfl⟩

/-- C16: a descriptor (`R_IA64_FPTR64LSB`) entry whose symbol the resolver does not find
returns 0 all the same (its symbol index lying in the table, and the arena being able to hand
out a descriptor when the slot is empty); and when the slot is empty and the object's own
symbol-table entry is not a zero-valued weak one, the descriptor stored into the target word is
new and holds target `obj.relocbase + symtab[index].st_value` (modulo `2 ^ 64`) and global
pointer `obj.pltgot`. -/
theorem reloc_fptr_unresolved (env : Env) (obj_rtld : Nat) (obj : Obj_Entry) (rela : Elf_Rela)
    (fptrs : Option (List Nat)) (s : State)
    (hty : ELF_R_TYPE rela.r_info = R_IA64_FPTR64LSB)
    (hnone : env.find_symdef (ELF_R_SYM rela.r_info) obj.addr false = none)
    (hidx : ∀ tbl, fptrs = some tbl → ELF_R_SYM rela.r_info < tbl.length)
    (hroom : (∀ tbl, fptrs = some tbl → tbl.getD (ELF_R_SYM rela.r_info) 0 = 0) →
      next_slot env s ≠ 0) :
    ∃ fptrs' s', reloc_non_plt_obj env obj_rtld obj rela fptrs s = .ok (0, fptrs') s' ∧
      ((∀ tbl, fptrs = some tbl → tbl.getD (ELF_R_SYM rela.r_info) 0 = 0) →
        ¬ ((obj.symtab (ELF_R_SYM rela.r_info)).st_value = 0 ∧
          ELF_ST_BIND (obj.symtab (ELF_R_SYM rela.r_info)).st_info = STB_WEAK) →
        s'.mem (reloc_where obj rela) = next_slot env s ∧
        s'.fptr_mem (s'.mem (reloc_where obj rela)) =
          ⟨add64 obj.relocbase (obj.symtab (ELF_R_SYM rela.r_info)).st_value, obj.pltgot⟩) := by
  have hdef : fptr_def env obj (ELF_R_SYM rela.r_info) =
      (obj.symtab (ELF_R_SYM rela.r_info), obj) := by
    simp [fptr_def, hnone]
  have hpair : ¬ ((obj.symtab (ELF_R_SYM rela.r_info)).st_value = 0 ∧
        ELF_ST_BIND (obj.symtab (ELF_R_SYM rela.r_info)).st_info = STB_WEAK) →
      fptr_pair env obj (ELF_R_SYM rela.r_info) =
        (add64 obj.relocbase (obj.symtab (ELF_R_SYM rela.r_info)).st_value, obj.pltgot) := by
    intro hw
    simp only [fptr_pair, hdef, hw, if_false]
  have hslot : next_slot env
      { s with trace := s.trace ++ [Event.find_symdef (ELF_R_SYM rela.r_info) false] } =
      next_slot env s := rfl
  rw [reloc_non_plt_obj_fptr env obj_rtld obj rela fptrs s hty]
  cases fptrs with
  | none =>
    have hroom' := hroom (fun tbl h => by cases h)
    obtain ⟨s2, hs2⟩ := alloc_fptr_returns env (fptr_pair env obj (ELF_R_SYM rela.r_info)).1
      (fptr_pair env obj (ELF_R_SYM rela.r_info)).2
      { s with trace := s.trace ++ [Event.find_symdef (ELF_R_SYM rela.r_info) false] } hroom'
    have hinv := alloc_fptr_ok_inv hs2
    refine ⟨none, store64 s2 (reloc_where obj rela) (next_slot env s), ?_, ?_⟩
    · simp only [hs2, bind_ok, hslot]
    · intro _ hw
      rw [hpair hw] at hinv
      constructor
      · simp [store64]
      · simp [store64, hinv.2.2.2.1, hslot]
  | some tbl =>
    have hlt := hidx tbl rfl
    by_cases hz : tbl.getD (ELF_R_SYM rela.r_info) 0 = 0
    · have hroom' := hroom (fun t h => by cases h; exact hz)
      obtain ⟨s2, hs2⟩ := alloc_fptr_returns env (fptr_pair env obj (ELF_R_SYM rela.r_info)).1
        (fptr_pair env obj (ELF_R_SYM rela.r_info)).2
        { s with trace := s.trace ++ [Event.find_symdef (ELF_R_SYM rela.r_info) false] } hroom'
      have hinv := alloc_fptr_ok_inv hs2
      refine ⟨some (tbl.set (ELF_R_SYM rela.r_info) (next_slot env s)),
        store64 s2 (reloc_where obj rela) (next_slot env s), ?_, ?_⟩
      · simp only [hlt, hz, if_true, hs2, bind_ok, hslot]
      · intro _ hw
        rw [hpair hw] at hinv
        constructor
        · simp [store64]
        · simp [store64, hinv.2.2.2.1, hslot]
    · refine ⟨some tbl,
        store64
          { s with trace := s.trace ++ [Event.find_symdef (ELF_R_SYM rela.r_info) false] }
          (reloc_where obj rela) (tbl.getD (ELF_R_SYM rela.r_info) 0),
        by simp only [hlt, hz, if_true, if_false], ?_⟩
      intro hempty
      exact absurd (hempty tbl rfl) hz

/-- The instance of C16 at the descriptor entry of the sample object for the symbol 2, which the
resolver does not find: the new descriptor holds the object's own base plus the value 64 of the
symbol-table entry, and the object's own global pointer. -/
theorem reloc_fptr_unresolved_witness :
    ∃ fptrs' s', reloc_non_plt_obj sample_odd_env 7 sample_dir_obj (fptr_entry 2 24)
        (some [0, 0, 0, 0]) sample_state = .ok (0, fptrs') s' ∧
      ((∀ tbl, some [0, 0, 0, 0] = some tbl →
          tbl.getD (ELF_R_SYM (fptr_entry 2 24).r_info) 0 = 0) →
        ¬ ((sample_dir_obj.symtab (ELF_R_SYM (fptr_entry 2 24).r_info)).st_value = 0 ∧
          ELF_ST_BIND (sample_dir_obj.symtab (ELF_R_SYM (fptr_entry 2 24).r_info)).st_info =
            STB_WEAK) →
        s'.mem (reloc_where sample_dir_obj (fptr_entry 2 24)) =
          next_slot sample_odd_env sample_state ∧
        s'.fptr_mem (s'.mem (reloc_where sample_dir_obj (fptr_entry 2 24))) =
          ⟨add64 sample_dir_obj.relocbase
            (sample_dir_obj.symtab (ELF_R_SYM (fptr_entry 2 24).r_info)).st_value,
            sample_dir_obj.pltgot⟩) :=
  reloc_fptr_unresolved sample_odd_env 7 sample_dir_obj (fptr_entry 2 24) (some [0, 0, 0, 0])
    sample_state (by decide) rfl
    (by
      intro tbl h
      cases h
      decide)
    (by intro _; decide)

/-! ## Rebasing the PLT: `reloc_plt` -/

/-- The function `reloc_plt` as one loop over `plt_entries`. -/
theorem reloc_plt_eq (obj : Obj_Entry) (s : State) :
    reloc_plt obj s = (reloc_plt_loop obj (plt_entries obj) s).bind fun _ s1 => .ok 0 s1 := by
  unfold reloc_plt plt_entries
  split <;> rfl

/-- The loop of `reloc_plt` over entries of the asserted type with pairwise distinct target
words: it runs to its end, logs one store per entry and nothing else, adds `obj.relocbase` to
each target word and leaves every other word, the arena and the allocator alone. -/
theorem reloc_plt_loop_spec (obj : Obj_Entry) (es : List (Nat × Nat)) :
    ∀ s : State, (∀ e ∈ es, ELF_R_TYPE e.2 = R_IA64_IPLTLSB) →
      (es.map (plt_where obj)).Nodup →
      ∃ s', reloc_plt_loop obj es s = .ok () s' ∧
        s'.trace = s.trace ++ es.map (plt_store obj s) ∧
        (∀ e ∈ es, s'.mem (plt_where obj e) = add64 (s.mem (plt_where obj e)) obj.relocbase) ∧
        (∀ a, (∀ e ∈ es, plt_where obj e ≠ a) → s'.mem a = s.mem a) ∧
        s'.fptr_mem = s.fptr_mem ∧ s'.mallocs = s.mallocs := by
  induction es with
  | nil =>
    intro s _ _
    exact ⟨s, rfl, by simp, by simp, fun a _ => rfl, rfl, rfl⟩
  | cons e rest ih =>
    intro s hty hnd
    have hte := hty e (List.mem_cons_self _ _)
    simp only [List.map_cons, List.nodup_cons] at hnd
    obtain ⟨hnotin, hnd'⟩ := hnd
    have hne : ∀ x ∈ rest, plt_where obj x ≠ plt_where obj e := by
      intro x hx he
      exact hnotin (he ▸ List.mem_map_of_mem _ hx)
    obtain ⟨s', hrun, htr, hmem, hframe, hf, hm⟩ :=
      ih (store64 s (plt_where obj e) (add64 (load64 s (plt_where obj e)) obj.relocbase))
        (fun x hx => hty x (List.mem_cons_of_mem _ hx)) hnd'
    have hold : ∀ x ∈ rest,
        (store64 s (plt_where obj e) (add64 (load64 s (plt_where obj e)) obj.relocbase)).mem
          (plt_where obj x) = s.mem (plt_where obj x) := by
      intro x hx
      simp only [store64]
      exact upd_other _ _ _ _ (hne x hx)
    refine ⟨s', ?_, ?_, ?_, ?_, ?_, ?_⟩
    · simp only [reloc_plt_loop, reloc_plt_entry, hte, if_true, bind_ok]
      exact hrun
    · have hmap : rest.map (plt_store obj
            (store64 s (plt_where obj e) (add64 (load64 s (plt_where obj e)) obj.relocbase))) =
          rest.map (plt_store obj s) := by
        apply List.map_congr_left
        intro x hx
        simp only [plt_store]
        rw [hold x hx]
      rw [htr, hmap]
      simp [store64, plt_store, load64]
    · intro x hx
      rcases List.mem_cons.mp hx with rfl | hx
      · rw [hframe _ hne]
        simp [store64, load64]
      · rw [hmem x hx, hold x hx]
    · intro a ha
      rw [hframe a (fun x hx => ha x (List.mem_cons_of_mem _ hx))]
      simp only [store64]
      exact upd_other _ _ _ _ (fun h => ha e (List.mem_cons_self _ _) h.symm)
    · rw [hf]; rfl
    · rw [hm]; rfl

/-- C17: when every PLT entry has type `R_IA64_IPLTLSB` and the entries have pairwise distinct
offsets (each a 64-bit value), `reloc_plt` returns 0, each target word at `relocbase + r_offset`
becomes the old word plus `obj.relocbase` modulo `2 ^ 64`, every other word is unchanged, and
the log gains exactly one store per entry: the resolver is never called. -/
theorem reloc_plt_rebase (obj : Obj_Entry) (s : State)
    (hty : ∀ e ∈ plt_entries obj, ELF_R_TYPE e.2 = R_IA64_IPLTLSB)
    (hdist : ((plt_entries obj).map Prod.fst).Nodup)
    (hrange : ∀ e ∈ plt_entries obj, e.1 < 2 ^ 64) :
    ∃ s', reloc_plt obj s = .ok 0 s' ∧
      (∀ e ∈ plt_entries obj,
        s'.mem (plt_where obj e) = (s.mem (plt_where obj e) + obj.relocbase) % 2 ^ 64) ∧
      (∀ a, (∀ e ∈ plt_entries obj, plt_where obj e ≠ a) → s'.mem a = s.mem a) ∧
      s'.trace = s.trace ++ (plt_entries obj).map (plt_store obj s) ∧
      s'.fptr_mem = s.fptr_mem ∧ s'.mallocs = s.mallocs := by
  have hnd : ((plt_entries obj).map (plt_where obj)).Nodup := by
    have h2 : (plt_entries obj).map (plt_where obj) =
        ((plt_entries obj).map Prod.fst).map (add64 obj.relocbase) := by
      rw [List.map_map]
      rfl
    rw [h2]
    apply List.Nodup.map_on _ hdist
    intro x hx y hy hxy
    obtain ⟨ex, hex, rfl⟩ := List.mem_map.mp hx
    obtain ⟨ey, hey, rfl⟩ := List.mem_map.mp hy
    have hrx := hrange ex hex
    have hry := hrange ey hey
    unfold add64 at hxy
    omega
  obtain ⟨s', hrun, htr, hmem, hframe, hf, hm⟩ :=
    reloc_plt_loop_spec obj (plt_entries obj) s hty hnd
  refine ⟨s', ?_, ?_, hframe, htr, hf, hm⟩
  · rw [reloc_plt_eq, hrun]
    rfl
  · intro e he
    rw [hmem e he]
    rfl

/-- The instance of C17 at the sample object with three PLT entries at the offsets 0, 16, 32. -/
theorem reloc_plt_rebase_witness :
    ∃ s', reloc_plt sample_plta_obj sample_state = .ok 0 s' ∧
      (∀ e ∈ plt_entries sample_plta_obj,
        s'.mem (plt_where sample_plta_obj e) =
          (sample_state.mem (plt_where sample_plta_obj e) + sample_plta_obj.relocbase) %
            2 ^ 64) ∧
      (∀ a, (∀ e ∈ plt_entries sample_plta_obj, plt_where sample_plta_obj e ≠ a) →
        s'.mem a = sample_state.mem a) ∧
      s'.trace = sample_state.trace ++
        (plt_entries sample_plta_obj).map (plt_store sample_plta_obj sample_state) ∧
      s'.fptr_mem = sample_state.fptr_mem ∧ s'.mallocs = sample_state.mallocs :=
  reloc_plt_rebase sample_plta_obj sample_state (by decide) (by decide) (by decide)

/-! ## Binding the jump slots: `reloc_jmpslots` -/

/-- A slot that holds something lies inside the table. -/
theorem lt_length_of_getD_ne {tbl : List Nat} {n : Nat} (h : tbl.getD n 0 ≠ 0) :
    n < tbl.length := by
  by_contra hn
  exact h (List.getD_eq_default _ _ (not_lt.mp hn))

/-- The lookup that finds a descriptor in the table returns it and changes nothing. -/
theorem make_function_pointer_hit (env : Env) (index : Nat) (obj : Obj_Entry) (s : State)
    (tbl : List Nat) (hp : obj.priv = some tbl) (hnz : tbl.getD index 0 ≠ 0) :
    make_function_pointer env index obj s = .ok (tbl.getD index 0, obj) s := by
  have hlt := lt_length_of_getD_ne hnz
  simp only [make_function_pointer, hp, bind_ok, hlt, if_true, hnz, if_false]

/-- The lookup that finds the slot of an existing table empty. -/
theorem make_function_pointer_miss (env : Env) (index : Nat) (obj : Obj_Entry) (s : State)
    (tbl : List Nat) (hp : obj.priv = some tbl) (hlt : index < tbl.length)
    (hz : tbl.getD index 0 = 0) :
    make_function_pointer env index obj s =
      (alloc_fptr env (add64 obj.relocbase (obj.symtab index).st_value) obj.pltgot s).bind
        fun p s2 => .ok (p, { obj with priv := some (tbl.set index p) }) s2 := by
  simp only [make_function_pointer, hp, bind_ok, hlt, if_true, hz]

/-- The lookup in an object without a table, when `malloc` returns one. -/
theorem make_function_pointer_none (env : Env) (index : Nat) (obj : Obj_Entry) (s : State)
    (hp : obj.priv = none)
    (hm : env.malloc s.mallocs (obj.nchains * sizeof_fptr_ptr) ≠ 0)
    (hlt : index < obj.nchains) :
    make_function_pointer env index obj s =
      (alloc_fptr env (add64 obj.relocbase (obj.symtab index).st_value) obj.pltgot
        { s with mallocs := s.mallocs + 1 }).bind
        fun p s2 =>
          .ok (p, { obj with priv := some ((List.replicate obj.nchains 0).set index p) }) s2 := by
  simp [make_function_pointer, hp, hm, hlt, getD_replicate_zero]

/-- What a lookup that returns has left: the object with a table whose slot `index` holds the
pointer returned, which is not null. -/
theorem make_function_pointer_ok_inv {env : Env} {index : Nat} {obj : Obj_Entry} {s : State}
    {p : Nat} {obj1 : Obj_Entry} {s1 : State}
    (h : make_function_pointer env index obj s = .ok (p, obj1) s1) :
    ∃ tbl1, obj1 = { obj with priv := some tbl1 } ∧ tbl1.getD index 0 = p ∧ p ≠ 0 := by
  cases hp : obj.priv with
  | none =>
    by_cases hm : env.malloc s.mallocs (obj.nchains * sizeof_fptr_ptr) = 0
    · simp [make_function_pointer, hp, hm] at h
    · by_cases hlt : index < obj.nchains
      · rw [make_function_pointer_none env index obj s hp hm hlt] at h
        obtain ⟨q, s2, hq, hfin⟩ := bind_eq_ok h
        simp only [Result.ok.injEq, Prod.mk.injEq] at hfin
        obtain ⟨⟨hqp, ho⟩, -⟩ := hfin
        subst hqp
        refine ⟨_, ho.symm, ?_, (alloc_fptr_ok_inv hq).2.1⟩
        rw [getD_set _ _ _ _ (by simpa using hlt)]
        simp
      · simp [make_function_pointer, hp, hm, hlt] at h
  | some tbl =>
    by_cases hlt : index < tbl.length
    · by_cases hz : tbl.getD index 0 = 0
      · rw [make_function_pointer_miss env index obj s tbl hp hlt hz] at h
        obtain ⟨q, s2, hq, hfin⟩ := bind_eq_ok h
        simp only [Result.ok.injEq, Prod.mk.injEq] at hfin
        obtain ⟨⟨hqp, ho⟩, -⟩ := hfin
        subst hqp
        refine ⟨_, ho.symm, ?_, (alloc_fptr_ok_inv hq).2.1⟩
        rw [getD_set _ _ _ _ hlt]
        simp
      · rw [make_function_pointer_hit env index obj s tbl hp hz] at h
        simp only [Result.ok.injEq, Prod.mk.injEq] at h
        obtain ⟨⟨hqp, ho⟩, -⟩ := h
        subst hqp
        subst ho
        refine ⟨tbl, ?_, rfl, hz⟩
        cases obj
        simp only at hp
        subst hp
        rfl
    · simp [make_function_pointer, hp, hlt] at h

/-- C11: when a call of `make_function_pointer` returns, a second call for the same symbol on
the object as the first call left it returns the same pointer and ends in the very same state
and object record: no `malloc`, no `alloc_fptr`, table and arena unchanged. -/
theorem make_function_pointer_twice (env : Env) (index : Nat) (obj : Obj_Entry) (s : State)
    (p : Nat) (obj1 : Obj_Entry) (s1 : State)
    (h : make_function_pointer env index obj s = .ok (p, obj1) s1) :
    make_function_pointer env index obj1 s1 = .ok (p, obj1) s1 := by
  obtain ⟨tbl1, ho, hget, hp0⟩ := make_function_pointer_ok_inv h
  have hpriv : obj1.priv = some tbl1 := by rw [ho]
  rw [make_function_pointer_hit env index obj1 s1 tbl1 hpriv (by rw [hget]; exact hp0), hget]

/-- The instance of C11 at the sample object, which has no table yet: the first call creates
the table and the descriptor at 4096, the second returns that descriptor again. -/
theorem make_function_pointer_twice_witness :
    make_function_pointer sample_env 2 sample_plt_obj sample_state =
      .ok (4096, { sample_plt_obj with priv := some [0, 0, 4096, 0] })
        (make_function_pointer sample_env 2 sample_plt_obj sample_state).state ∧
    make_function_pointer sample_env 2 { sample_plt_obj with priv := some [0, 0, 4096, 0] }
        (make_function_pointer sample_env 2 sample_plt_obj sample_state).state =
      .ok (4096, { sample_plt_obj with priv := some [0, 0, 4096, 0] })
        (make_function_pointer sample_env 2 sample_plt_obj sample_state).state :=
  ⟨rfl, make_function_pointer_twice sample_env 2 sample_plt_obj sample_state 4096 _ _ rfl⟩

/-- C19: for a symbol index below `nchains` whose slot is empty (the table having `nchains`
slots), or when the object has no table yet and `malloc` returns one, `make_function_pointer`
returns a descriptor newly taken from the arena (the arena being able to hand one out), which
holds target `obj.relocbase + sym.st_value` (modulo `2 ^ 64`) and global pointer `obj.pltgot`;
afterwards `obj.priv` is the table (the zeroed table of `nchains` slots when there was none)
with the pointer in slot `index` and every other slot as before.  Exactly one `alloc_fptr` call
is logged, no other descriptor changes and memory is unchanged. -/
theorem make_function_pointer_new (env : Env) (index : Nat) (obj : Obj_Entry) (s : State)
    (hidx : index < obj.nchains)
    (hlen : (mfp_table obj).length = obj.nchains)
    (hempty : (mfp_table obj).getD index 0 = 0)
    (hmalloc : obj.priv = none → env.malloc s.mallocs (obj.nchains * sizeof_fptr_ptr) ≠ 0)
    (hroom : next_slot env (mfp_state obj s) ≠ 0) :
    ∃ s', make_function_pointer env index obj s =
        .ok (next_slot env (mfp_state obj s),
          { obj with
            priv := some ((mfp_table obj).set index (next_slot env (mfp_state obj s))) }) s' ∧
      s'.fptr_mem (next_slot env (mfp_state obj s)) =
        ⟨add64 obj.relocbase (obj.symtab index).st_value, obj.pltgot⟩ ∧
      (∀ a, a ≠ next_slot env (mfp_state obj s) → s'.fptr_mem a = s.fptr_mem a) ∧
      alloc_calls s'.trace = alloc_calls s.trace + 1 ∧ s'.mem = s.mem := by
  obtain ⟨s', hs'⟩ := alloc_fptr_returns env (add64 obj.relocbase (obj.symtab index).st_value)
    obj.pltgot (mfp_state obj s) hroom
  obtain ⟨-, -, hmem, hfm, htr, -⟩ := alloc_fptr_ok_inv hs'
  have hst : (mfp_state obj s).mem = s.mem ∧ (mfp_state obj s).fptr_mem = s.fptr_mem ∧
      (mfp_state obj s).trace = s.trace := by
    unfold mfp_state
    split <;> exact ⟨rfl, rfl, rfl⟩
  refine ⟨s', ?_, ?_, ?_, ?_, ?_⟩
  · cases hp : obj.priv with
    | none =>
      have e1 : mfp_state obj s = { s with mallocs := s.mallocs + 1 } := by
        simp [mfp_state, hp]
      have e2 : mfp_table obj = List.replicate obj.nchains 0 := by
        simp [mfp_table, hp]
      rw [make_function_pointer_none env index obj s hp (hmalloc hp) hidx, ← e1, hs', e2]
      rfl
    | some tbl =>
      have e1 : mfp_state obj s = s := by
        simp [mfp_state, hp]
      have e2 : mfp_table obj = tbl := by
        simp [mfp_table, hp]
      rw [e2] at hlen hempty
      rw [e1] at hs'
      rw [make_function_pointer_miss env index obj s tbl hp (by rw [hlen]; exact hidx) hempty,
        hs', e1, e2]
      rfl
  · rw [hfm, upd_same]
  · intro a ha
    rw [hfm, upd_other _ _ _ _ ha, hst.2.1]
  · rw [htr, hst.2.2]
    simp [alloc_calls, List.countP_append, is_alloc]
  · rw [hmem, hst.1]

/-- The instance of C19 at the sample object without a table and at the same object with a
table whose slot 2 is empty. -/
theorem make_function_pointer_new_witness :
    (∃ s', make_function_pointer sample_env 2 sample_plt_obj sample_state =
        .ok (next_slot sample_env (mfp_state sample_plt_obj sample_state),
          { sample_plt_obj with
            priv := some ((mfp_table sample_plt_obj).set 2
              (next_slot sample_env (mfp_state sample_plt_obj sample_state))) }) s' ∧
      s'.fptr_mem (next_slot sample_env (mfp_state sample_plt_obj sample_state)) =
        ⟨add64 sample_plt_obj.relocbase (sample_plt_obj.symtab 2).st_value,
          sample_plt_obj.pltgot⟩ ∧
      (∀ a, a ≠ next_slot sample_env (mfp_state sample_plt_obj sample_state) →
        s'.fptr_mem a = sample_state.fptr_mem a) ∧
      alloc_calls s'.trace = alloc_calls sample_state.trace + 1 ∧
      s'.mem = sample_state.mem) ∧
    (mfp_table { sample_plt_obj with priv := some [0, 7, 0, 9] }).set 2
      (next_slot sample_env
        (mfp_state { sample_plt_obj with priv := some [0, 7, 0, 9] } sample_state)) =
      [0, 7, 4096, 9] ∧
    ∃ s', make_function_pointer sample_env 2 { sample_plt_obj with priv := some [0, 7, 0, 9] }
        sample_state =
        .ok (next_slot sample_env
            (mfp_state { sample_plt_obj with priv := some [0, 7, 0, 9] } sample_state),
          { sample_plt_obj with
            priv := some ((mfp_table { sample_plt_obj with priv := some [0, 7, 0, 9] }).set 2
              (next_slot sample_env
                (mfp_state { sample_plt_obj with priv := some [0, 7, 0, 9] }
                  sample_state))) }) s' ∧
      s'.fptr_mem (next_slot sample_env
          (mfp_state { sample_plt_obj with priv := some [0, 7, 0, 9] } sample_state)) =
        ⟨add64 sample_plt_obj.relocbase (sample_plt_obj.symtab 2).st_value,
          sample_plt_obj.pltgot⟩ ∧
      (∀ a, a ≠ next_slot sample_env
          (mfp_state { sample_plt_obj with priv := some [0, 7, 0, 9] } sample_state) →
        s'.fptr_mem a = sample_state.fptr_mem a) ∧
      alloc_calls s'.trace = alloc_calls sample_state.trace + 1 ∧
      s'.mem = sample_state.mem :=
  ⟨make_function_pointer_new sample_env 2 sample_plt_obj sample_state (by decide) (by decide)
      (by decide) (by intro _; decide) (by decide),
    by decide,
    make_function_pointer_new sample_env 2 { sample_plt_obj with priv := some [0, 7, 0, 9] }
      sample_state (by decide) (by decide) (by decide) (by intro h; cases h) (by decide)⟩

/-- A pass that returns 0 in a sound arena: its loop ran to the end, the arena is still sound,
and the descriptors of the final table are in use. -/
theorem reloc_non_plt_fresh {env : Env} {obj : Obj_Entry} {obj_rtld : Nat} {s : State}
    {obj' : Obj_Entry} {s' : State} (harena : arena_ok env s)
    (hrun : reloc_non_plt env obj obj_rtld s = .ok (0, obj') s') :
    ∃ tbl', rela_loop env obj_rtld obj (reloc_entries obj)
        (some (List.replicate obj.nchains 0)) (pass_start env obj obj_rtld s).2 =
          .ok (0, some tbl') s' ∧
      obj' = { obj with priv := if obj.addr ≠ obj_rtld then some tbl' else none } ∧
      arena_ok env s' ∧ table_fresh env s' tbl' := by
  obtain ⟨t', hloop, hobj⟩ := reloc_non_plt_ok hrun
  obtain ⟨hn, hl, -, hm, -⟩ := pass_start_arena env obj obj_rtld s
  have hok1 : arena_ok env (pass_start env obj obj_rtld s).2 := by
    obtain ⟨hroom, hcur, hfr⟩ := harena
    refine ⟨?_, ?_, ?_⟩
    · rw [hn, hl]; exact hroom
    · intro i hi
      rw [hn, hl]
      exact hcur i (le_trans hm hi)
    · intro i j hi
      exact hfr i j (le_trans hm hi)
  have hfresh0 : table_fresh env (pass_start env obj obj_rtld s).2
      (List.replicate obj.nchains 0) :=
    ⟨fun n hnz => absurd (getD_replicate_zero _ _) hnz,
      fun n m _ hnz => absurd (getD_replicate_zero _ _) hnz⟩
  obtain ⟨tbl', ht', hok', hfresh'⟩ :=
    rela_loop_fresh env obj_rtld obj _ _ _ t' s' hok1 hfresh0 hloop
  subst ht'
  exact ⟨tbl', hloop, hobj, hok', hfresh'⟩

/-- C12: after a pass over an object other than the loader that returns 0, `obj.priv` is the
table of the pass: for a descriptor entry of the pass (whose target word no later entry
targets), `make_function_pointer` for the symbol of the entry returns the descriptor address
the pass left in the target word, and ends in the very same state and object record, so
nothing is allocated. -/
theorem make_function_pointer_after_pass (env : Env) (obj : Obj_Entry) (obj_rtld : Nat)
    (s : State) (obj' : Obj_Entry) (s' : State) (l1 l2 : List Elf_Rela) (e : Elf_Rela)
    (hnot : obj.addr ≠ obj_rtld)
    (hrun : reloc_non_plt env obj obj_rtld s = .ok (0, obj') s')
    (hsplit : reloc_entries obj = l1 ++ e :: l2)
    (hty : ELF_R_TYPE e.r_info = R_IA64_FPTR64LSB)
    (hlater : ∀ x ∈ l2, reloc_where obj x ≠ reloc_where obj e) :
    make_function_pointer env (ELF_R_SYM e.r_info) obj' s' =
      .ok (s'.mem (reloc_where obj e), obj') s' := by
  obtain ⟨t', hloop, hobj⟩ := reloc_non_plt_ok hrun
  rw [hsplit] at hloop
  obtain ⟨tbl', ht', hm, hnz⟩ := rela_loop_fptr_stored hloop hty hlater
  have hpriv : obj'.priv = some tbl' := by
    rw [hobj, if_pos hnot, ht']
  rw [make_function_pointer_hit env _ obj' s' tbl' hpriv hnz, hm]

set_option maxRecDepth 100000 in
/-- The instance of C12 at the sample object with descriptor entries for the symbols 5, 5, 9:
the lookup for the symbol 9 returns the descriptor the pass stored for the third entry. -/
theorem make_function_pointer_after_pass_witness :
    reloc_non_plt sample_env sample_aab_obj 7 sample_state =
      .ok (0, { sample_aab_obj with priv := some [0, 0, 0, 0, 0, 4096, 0, 0, 0, 4112, 0, 0] })
        (reloc_non_plt sample_env sample_aab_obj 7 sample_state).state ∧
    make_function_pointer sample_env (ELF_R_SYM (fptr_entry 9 16).r_info)
        { sample_aab_obj with priv := some [0, 0, 0, 0, 0, 4096, 0, 0, 0, 4112, 0, 0] }
        (reloc_non_plt sample_env sample_aab_obj 7 sample_state).state =
      .ok ((reloc_non_plt sample_env sample_aab_obj 7 sample_state).state.mem
          (reloc_where sample_aab_obj (fptr_entry 9 16)),
        { sample_aab_obj with priv := some [0, 0, 0, 0, 0, 4096, 0, 0, 0, 4112, 0, 0] })
        (reloc_non_plt sample_env sample_aab_obj 7 sample_state).state :=
  ⟨rfl, make_function_pointer_after_pass sample_env sample_aab_obj 7 sample_state _ _
    [locrela ⟨0, 5 * 2 ^ 32 + R_IA64_FPTR64LSB⟩, fptr_entry 5 8] [] (fptr_entry 9 16)
    (by decide) rfl rfl (by decide) (by intro x hx; cases hx)⟩

/-- Further calls of `malloc` keep a sound arena sound. -/
theorem arena_ok_mono {env : Env} {s s1 : State} (h1 : s1.next_fptr = s.next_fptr)
    (h2 : s1.last_fptr = s.last_fptr) (h3 : s.mallocs ≤ s1.mallocs) (h : arena_ok env s) :
    arena_ok env s1 := by
  obtain ⟨hroom, hcur, hfr⟩ := h
  refine ⟨?_, ?_, ?_⟩
  · rw [h1, h2]; exact hroom
  · intro i hi
    rw [h1, h2]
    exact hcur i (le_trans h3 hi)
  · intro i j hi
    exact hfr i j (le_trans h3 hi)

/-- Further calls of `malloc` make nothing available that was not. -/
theorem avail_mono {env : Env} {s s1 : State} (h1 : s1.next_fptr = s.next_fptr)
    (h2 : s1.last_fptr = s.last_fptr) (h3 : s.mallocs ≤ s1.mallocs) (a : Nat)
    (h : avail env s1 a) : avail env s a := by
  unfold avail at h ⊢
  rw [h1, h2] at h
  rcases h with h | ⟨i, hi, hrest⟩
  · exact Or.inl h
  · exact Or.inr ⟨i, le_trans h3 hi, hrest⟩

/-- C13: after a pass over the loader's own image that returns 0, `obj.priv` is null.  A
following `make_function_pointer` for a symbol index below `nchains` (with `malloc` returning a
table and the arena able to hand out a descriptor) calls `malloc`, puts a zeroed table of
`nchains` slots into `obj.priv`, and calls `alloc_fptr` once; in a sound arena the descriptor
it returns differs from every descriptor address the pass left in the target word of a
descriptor entry (that no later entry targets). -/
theorem make_function_pointer_after_rtld_pass (env : Env) (obj : Obj_Entry) (obj_rtld : Nat)
    (s : State) (obj' : Obj_Entry) (s' : State) (index : Nat)
    (hrtld : obj.addr = obj_rtld)
    (hrun : reloc_non_plt env obj obj_rtld s = .ok (0, obj') s')
    (harena : arena_ok env s)
    (hidx : index < obj.nchains)
    (hmalloc : env.malloc s'.mallocs (obj.nchains * sizeof_fptr_ptr) ≠ 0)
    (hroom : next_slot env { s' with mallocs := s'.mallocs + 1 } ≠ 0) :
    obj'.priv = none ∧
    ∃ s'', make_function_pointer env index obj' s' =
        .ok (next_slot env { s' with mallocs := s'.mallocs + 1 },
          { obj with
            priv := some ((List.replicate obj.nchains 0).set index
              (next_slot env { s' with mallocs := s'.mallocs + 1 })) }) s'' ∧
      s'.mallocs < s''.mallocs ∧
      alloc_calls s''.trace = alloc_calls s'.trace + 1 ∧
      ∀ (l1 l2 : List Elf_Rela) (e : Elf_Rela), reloc_entries obj = l1 ++ e :: l2 →
        ELF_R_TYPE e.r_info = R_IA64_FPTR64LSB →
        (∀ x ∈ l2, reloc_where obj x ≠ reloc_where obj e) →
        next_slot env { s' with mallocs := s'.mallocs + 1 } ≠ s'.mem (reloc_where obj e) := by
  obtain ⟨tbl', hloop, hobj, hok', hfresh'⟩ := reloc_non_plt_fresh harena hrun
  have hnn : ¬ obj.addr ≠ obj_rtld := fun h => h hrtld
  rw [if_neg hnn] at hobj
  subst hobj
  obtain ⟨s'', hs''⟩ := alloc_fptr_returns env
    (add64 obj.relocbase (obj.symtab index).st_value) obj.pltgot
    { s' with mallocs := s'.mallocs + 1 } hroom
  obtain ⟨-, -, -, -, htr, -, hfull, hnotfull⟩ := alloc_fptr_ok_inv hs''
  have hok1 : arena_ok env { s' with mallocs := s'.mallocs + 1 } :=
    @arena_ok_mono env s' { s' with mallocs := s'.mallocs + 1 } rfl rfl (Nat.le_succ _) hok'
  obtain ⟨-, hav, -, -⟩ := alloc_fptr_fresh hok1 hs''
  have hav' : avail env s' (next_slot env { s' with mallocs := s'.mallocs + 1 }) :=
    @avail_mono env s' { s' with mallocs := s'.mallocs + 1 } rfl rfl (Nat.le_succ _) _ hav
  refine ⟨rfl, s'', ?_, ?_, ?_, ?_⟩
  · rw [make_function_pointer_none env index { obj with priv := none } s' rfl hmalloc hidx]
    simp only
    rw [hs'']
    rfl
  · by_cases hf : s'.next_fptr = s'.last_fptr
    · have := (hfull hf).1
      simp only at this
      omega
    · have := (hnotfull hf).1
      simp only at this
      omega
  · rw [htr]
    simp [alloc_calls, List.countP_append, is_alloc]
  · intro l1 l2 e hsplit hty hlater he
    rw [hsplit] at hloop
    obtain ⟨tbl2, ht2, hm, hnz⟩ := rela_loop_fptr_stored hloop hty hlater
    have htt : tbl2 = tbl' := (Option.some.inj ht2).symm
    subst htt
    rw [he, hm] at hav'
    exact hfresh'.1 _ hnz hav'

set_option maxRecDepth 100000 in
/-- The instance of C13 at a sample loader image with two descriptor entries, for the symbols 0
and 1: the pass leaves `priv` null, and the lookup for the symbol 0 builds a table and a third
descriptor. -/
theorem make_function_pointer_after_rtld_pass_witness :
    reloc_non_plt sample_env (sample_rtld_obj 2) 1 sample_state =
      .ok (0, { sample_rtld_obj 2 with priv := none })
        (reloc_non_plt sample_env (sample_rtld_obj 2) 1 sample_state).state ∧
    ({ sample_rtld_obj 2 with priv := none } : Obj_Entry).priv = none ∧
    ∃ s'', make_function_pointer sample_env 0 { sample_rtld_obj 2 with priv := none }
        (reloc_non_plt sample_env (sample_rtld_obj 2) 1 sample_state).state =
        .ok (next_slot sample_env
            { (reloc_non_plt sample_env (sample_rtld_obj 2) 1 sample_state).state with
              mallocs :=
                (reloc_non_plt sample_env (sample_rtld_obj 2) 1 sample_state).state.mallocs + 1 },
          { sample_rtld_obj 2 with
            priv := some ((List.replicate (sample_rtld_obj 2).nchains 0).set 0
              (next_slot sample_env
                { (reloc_non_plt sample_env (sample_rtld_obj 2) 1 sample_state).state with
                  mallocs :=
                    (reloc_non_plt sample_env (sample_rtld_obj 2) 1
                      sample_state).state.mallocs + 1 })) }) s'' ∧
      (reloc_non_plt sample_env (sample_rtld_obj 2) 1 sample_state).state.mallocs <
        s''.mallocs ∧
      alloc_calls s''.trace =
        alloc_calls (reloc_non_plt sample_env (sample_rtld_obj 2) 1 sample_state).state.trace +
          1 ∧
      ∀ (l1 l2 : List Elf_Rela) (e : Elf_Rela),
        reloc_entries (sample_rtld_obj 2) = l1 ++ e :: l2 →
        ELF_R_TYPE e.r_info = R_IA64_FPTR64LSB →
        (∀ x ∈ l2, reloc_where (sample_rtld_obj 2) x ≠ reloc_where (sample_rtld_obj 2) e) →
        next_slot sample_env
            { (reloc_non_plt sample_env (sample_rtld_obj 2) 1 sample_state).state with
              mallocs :=
                (reloc_non_plt sample_env (sample_rtld_obj 2) 1 sample_state).state.mallocs + 1 } ≠
          (reloc_non_plt sample_env (sample_rtld_obj 2) 1 sample_state).state.mem
            (reloc_where (sample_rtld_obj 2) e) :=
  ⟨rfl, make_function_pointer_after_rtld_pass sample_env (sample_rtld_obj 2) 1 sample_state
    { sample_rtld_obj 2 with priv := none }
    (reloc_non_plt sample_env (sample_rtld_obj 2) 1 sample_state).state 0 rfl rfl
    sample_arena_ok (by decide) (by decide) (by decide)⟩

/-! ## When the arena calls the allocator -/

/-- A call of `alloc_fptr` calls `malloc` once when the cursor stands at the end of the current
chunk and not at all otherwise, whatever its outcome. -/
theorem alloc_fptr_mallocs (env : Env) (target gp : Nat) (s : State) :
    (alloc_fptr env target gp s).state.mallocs =
      s.mallocs + (if s.next_fptr = s.last_fptr then 1 else 0) := by
  unfold alloc_fptr
  by_cases h : s.next_fptr = s.last_fptr
  · simp only [h, if_true]
    split <;> rfl
  · simp only [h, if_false]
    split <;> rfl

/-- The current chunk after a call of `alloc_fptr` that returns: the chunk that starts at the
descriptor returned when the call found the old chunk used up, the old chunk otherwise. -/
theorem alloc_fptr_chunk {env : Env} {target gp : Nat} {s : State} {p : Nat} {s' : State}
    (h : alloc_fptr env target gp s = .ok p s') :
    s'.current_chunk = if s.next_fptr = s.last_fptr then p else s.current_chunk := by
  unfold alloc_fptr at h
  by_cases hfull : s.next_fptr = s.last_fptr
  · simp only [hfull, if_true] at h ⊢
    split at h
    · simp at h
    · simp only [Result.ok.injEq] at h
      obtain ⟨rfl, rfl⟩ := h
      rfl
  · simp only [hfull, if_false] at h ⊢
    split at h
    · simp at h
    · simp only [Result.ok.injEq] at h
      obtain ⟨rfl, rfl⟩ := h
      rfl

/-- After `m` calls the cursor stands at the end of the current chunk exactly when `m` is a
positive multiple of 64. -/
theorem arena_after_full {env : Env} {m0 m : Nat} {st : State} (h : arena_after env m0 m st) :
    st.next_fptr = st.last_fptr ↔ 64 ≤ m ∧ m % 64 = 0 := by
  obtain ⟨-, -, hn, hl⟩ := h
  by_cases hm : m = 0
  · subst hm
    simp only [if_true] at hn
    omega
  · simp only [hm, if_false] at hn
    omega

/-- The load-time arena is the arena after no call. -/
theorem arena_after_init (env : Env) (s : State) (hinit : init_arena env s) :
    arena_after env s.mallocs 0 s := by
  obtain ⟨hc, hn, hl⟩ := hinit
  refine ⟨by simp, by simp [hc], by simp [hn, hc], ?_⟩
  rw [hl, hc]
  rfl

/-- One more call that returns: the arena is the arena after `m + 1` calls and the descriptor
returned is the one of call number `m + 1`. -/
theorem alloc_fptr_after {env : Env} {m0 m : Nat} {st : State} {target gp p : Nat} {st' : State}
    (h : arena_after env m0 m st) (ha : alloc_fptr env target gp st = .ok p st') :
    arena_after env m0 (m + 1) st' ∧ p = nth_fptr env m0 m := by
  have hfull_iff := arena_after_full h
  obtain ⟨hm, hc, hn, hl⟩ := h
  obtain ⟨hp, -, -, -, -, hnext, hfull, hnotfull⟩ := alloc_fptr_ok_inv ha
  have hchunk := alloc_fptr_chunk ha
  have e1 : sizeof_fptr = 16 := rfl
  have e3 : FPTR_CHUNK_SIZE = 64 := rfl
  rw [e1] at hnext
  rw [e1, e3] at hfull
  unfold arena_after nth_fptr
  simp only [Nat.add_sub_cancel, Nat.succ_ne_zero, if_false]
  by_cases hf : st.next_fptr = st.last_fptr
  · obtain ⟨h64, hmod⟩ := hfull_iff.mp hf
    obtain ⟨hm', hl'⟩ := hfull hf
    rw [if_pos hf] at hchunk
    have hpc : p = chunk_at env (m0 + m / 64 - 1) := by
      rw [hp]
      simp only [next_slot, hf, if_true, hm]
      have e : m0 + (m - 1) / 64 = m0 + m / 64 - 1 := by omega
      rw [← e]
      rfl
    have hgt : ¬ m + 1 ≤ 64 := by omega
    have hlt : ¬ m < 64 := by omega
    simp only [hgt, hlt, if_false]
    rw [hchunk, hnext, hm', hl', hm]
    refine ⟨⟨by omega, hpc, by omega, by omega⟩, ?_⟩
    rw [hpc]
    omega
  · have hnf : ¬ (64 ≤ m ∧ m % 64 = 0) := fun hc' => hf (hfull_iff.mpr hc')
    obtain ⟨hm', hl'⟩ := hnotfull hf
    rw [if_neg hf] at hchunk
    have hpn : p = st.next_fptr := by
      rw [hp]
      simp [next_slot, hf]
    rw [hchunk, hnext, hm', hl', hm, hpn]
    by_cases hm0 : m = 0
    · subst hm0
      simp only [if_true, Nat.zero_le, Nat.zero_lt_succ] at hc hn ⊢
      refine ⟨⟨trivial, ?_, by omega, hl⟩, by omega⟩
      simp [hc]
    · simp only [hm0, if_false] at hn
      by_cases hle : m < 64
      · have h1 : m ≤ 64 := by omega
        have h2 : m + 1 ≤ 64 := by omega
        simp only [h1, h2, hle, if_true] at hc ⊢
        exact ⟨⟨by omega, hc, by omega, hl⟩, by omega⟩
      · have h1 : ¬ m + 1 ≤ 64 := by omega
        have h2 : ¬ m ≤ 64 := by omega
        have e : m0 + (m - 1) / 64 - 1 = m0 + m / 64 - 1 := by omega
        simp only [h1, h2, hle, if_false] at hc ⊢
        rw [e] at hc
        exact ⟨⟨by omega, hc, by omega, hl⟩, by rw [← hc]; omega⟩

/-- A sequence of calls that returns, run from the arena after `m` calls: the arena is the
arena after all of them, and each descriptor returned is the one of its call number. -/
theorem alloc_fptr_seq_after (env : Env) (m0 : Nat) (args : List (Nat × Nat)) :
    ∀ (m : Nat) (st : State) (ps : List Nat) (st' : State),
      arena_after env m0 m st → alloc_fptr_seq env args st = .ok ps st' →
      arena_after env m0 (m + args.length) st' ∧
        ∀ k, k < args.length → ps.getD k 0 = nth_fptr env m0 (m + k) := by
  induction args with
  | nil =>
    intro m st ps st' h hrun
    simp only [alloc_fptr_seq, Result.ok.injEq] at hrun
    obtain ⟨-, rfl⟩ := hrun
    exact ⟨h, fun k hk => absurd hk (Nat.not_lt_zero k)⟩
  | cons a rest ih =>
    intro m st ps st' h hrun
    simp only [alloc_fptr_seq] at hrun
    obtain ⟨p, s1, hp, hrest⟩ := bind_eq_ok hrun
    obtain ⟨ps', s2, hps', hfin⟩ := bind_eq_ok hrest
    simp only [Result.ok.injEq] at hfin
    obtain ⟨rfl, rfl⟩ := hfin
    obtain ⟨h1, hpn⟩ := alloc_fptr_after h hp
    obtain ⟨h2, haddr⟩ := ih (m + 1) s1 ps' s2 h1 hps'
    refine ⟨?_, ?_⟩
    · have e : m + (a :: rest).length = m + 1 + rest.length := by
        simp only [List.length_cons]; omega
      rw [e]
      exact h2
    · intro k hk
      cases k with
      | zero => simpa using hpn
      | succ j =>
        have hj : j < rest.length := by
          simp only [List.length_cons] at hk; omega
        have e : m + (j + 1) = m + 1 + j := by omega
        rw [e, ← haddr j hj]
        rfl

/-- C21: start from the load-time arena and let `n - 1` calls of `alloc_fptr` have returned.
Then call number `n` calls `malloc` (once) if and only if `n > 64` and `n - 1` is a multiple of
`FPTR_CHUNK_SIZE = 64`, which is exactly when the cursor stands at the end of the current
chunk.  The `n - 1` calls before it have cost `(n - 2) / 64` calls of `malloc`, and call number
`k + 1` returned slot `k mod 64` of `first_chunk` for `k < 64` and of the chunk of the arena's
`k / 64`-th call of `malloc` after that. -/
theorem alloc_fptr_schedule (env : Env) (s : State) (pre : List (Nat × Nat)) (a : Nat × Nat)
    (ps : List Nat) (s1 : State)
    (hinit : init_arena env s)
    (hpre : alloc_fptr_seq env pre s = .ok ps s1) :
    (alloc_fptr env a.1 a.2 s1).state.mallocs =
        s1.mallocs + (if 64 < pre.length + 1 ∧ 64 ∣ pre.length + 1 - 1 then 1 else 0) ∧
      (s1.next_fptr = s1.last_fptr ↔ 64 < pre.length + 1 ∧ 64 ∣ pre.length + 1 - 1) ∧
      s1.mallocs = s.mallocs + (pre.length - 1) / 64 ∧
      ∀ k, k < pre.length → ps.getD k 0 = nth_fptr env s.mallocs k := by
  obtain ⟨hafter, haddr⟩ :=
    alloc_fptr_seq_after env s.mallocs pre 0 s ps s1 (arena_after_init env s hinit) hpre
  simp only [Nat.zero_add] at hafter haddr
  have hfull := arena_after_full hafter
  have hiff : s1.next_fptr = s1.last_fptr ↔ 64 < pre.length + 1 ∧ 64 ∣ pre.length + 1 - 1 := by
    rw [hfull, Nat.add_sub_cancel, Nat.dvd_iff_mod_eq_zero]
    constructor
    · rintro ⟨h1, h2⟩; exact ⟨by omega, h2⟩
    · rintro ⟨h1, h2⟩; exact ⟨by omega, h2⟩
  refine ⟨?_, hiff, hafter.1, haddr⟩
  rw [alloc_fptr_mallocs]
  by_cases hf : s1.next_fptr = s1.last_fptr
  · rw [if_pos hf, if_pos (hiff.mp hf)]
  · rw [if_neg hf, if_neg (fun h => hf (hiff.mpr h))]

set_option maxRecDepth 100000 in
/-- The instance of C21 at the sample environment: after 64 calls the 65th call calls `malloc`,
and after 5 calls the 6th does not. -/
theorem alloc_fptr_schedule_witness :
    (∃ ps s1, alloc_fptr_seq sample_env (List.replicate 64 (1, 2)) sample_state = .ok ps s1 ∧
      (alloc_fptr sample_env 3 4 s1).state.mallocs = s1.mallocs + 1 ∧
      (alloc_fptr sample_env (3, 4).1 (3, 4).2 s1).state.mallocs =
        s1.mallocs +
          (if 64 < (List.replicate 64 (1, 2)).length + 1 ∧
            64 ∣ (List.replicate 64 (1, 2)).length + 1 - 1 then 1 else 0) ∧
      (s1.next_fptr = s1.last_fptr ↔
        64 < (List.replicate 64 (1, 2)).length + 1 ∧
          64 ∣ (List.replicate 64 (1, 2)).length + 1 - 1) ∧
      s1.mallocs = sample_state.mallocs + ((List.replicate 64 (1, 2)).length - 1) / 64 ∧
      ∀ k, k < (List.replicate 64 (1, 2)).length →
        ps.getD k 0 = nth_fptr sample_env sample_state.mallocs k) ∧
    ∃ ps s1, alloc_fptr_seq sample_env (List.replicate 5 (1, 2)) sample_state = .ok ps s1 ∧
      (alloc_fptr sample_env 3 4 s1).state.mallocs = s1.mallocs ∧
      (alloc_fptr sample_env (3, 4).1 (3, 4).2 s1).state.mallocs =
        s1.mallocs +
          (if 64 < (List.replicate 5 (1, 2)).length + 1 ∧
            64 ∣ (List.replicate 5 (1, 2)).length + 1 - 1 then 1 else 0) ∧
      (s1.next_fptr = s1.last_fptr ↔
        64 < (List.replicate 5 (1, 2)).length + 1 ∧
          64 ∣ (List.replicate 5 (1, 2)).length + 1 - 1) ∧
      s1.mallocs = sample_state.mallocs + ((List.replicate 5 (1, 2)).length - 1) / 64 ∧
      ∀ k, k < (List.replicate 5 (1, 2)).length →
        ps.getD k 0 = nth_fptr sample_env sample_state.mallocs k :=
  ⟨⟨_, _, rfl, by decide,
      alloc_fptr_schedule sample_env sample_state (List.replicate 64 (1, 2)) (3, 4) _ _
        ⟨rfl, rfl, rfl⟩ rfl⟩,
    ⟨_, _, rfl, by decide,
      alloc_fptr_schedule sample_env sample_state (List.replicate 5 (1, 2)) (3, 4) _ _
        ⟨rfl, rfl, rfl⟩ rfl⟩⟩

/-! ## The pass does not read `obj.priv` -/

/-- The dispatcher does not read `obj.priv`. -/
theorem reloc_non_plt_obj_priv (env : Env) (obj_rtld : Nat) (obj : Obj_Entry)
    (priv2 : Option (List Nat)) (rela : Elf_Rela) (fptrs : Option (List Nat)) (s : State) :
    reloc_non_plt_obj env obj_rtld { obj with priv := priv2 } rela fptrs s =
      reloc_non_plt_obj env obj_rtld obj rela fptrs s := by
  unfold reloc_non_plt_obj call_find_symdef
  cases hres : env.find_symdef (ELF_R_SYM rela.r_info) obj.addr false <;> simp [hres]

/-- The loop over the entries does not read `obj.priv`. -/
theorem rela_loop_priv (env : Env) (obj_rtld : Nat) (obj : Obj_Entry)
    (priv2 : Option (List Nat)) (es : List Elf_Rela) :
    ∀ (fptrs : Option (List Nat)) (s : State),
      rela_loop env obj_rtld { obj with priv := priv2 } es fptrs s =
        rela_loop env obj_rtld obj es fptrs s := by
  induction es with
  | nil => intro fptrs s; rfl
  | cons e rest ih =>
    intro fptrs s
    simp only [rela_loop, reloc_non_plt_obj_priv, ih]

/-- One entry that returns, run in a sound arena: the arena stays sound, nothing becomes
available again, and every slot of the table that has changed holds a descriptor that was
still to be handed out before the entry. -/
theorem reloc_non_plt_obj_avail {env : Env} {obj_rtld : Nat} {obj : Obj_Entry}
    {rela : Elf_Rela} {tbl : List Nat} {s : State} {v : Int} {t' : Option (List Nat)}
    {s' : State} (hok : arena_ok env s)
    (h : reloc_non_plt_obj env obj_rtld obj rela (some tbl) s = .ok (v, t') s') :
    ∃ tbl', t' = some tbl' ∧ arena_ok env s' ∧ (∀ a, avail env s' a → avail env s a) ∧
      ∀ n, tbl'.getD n 0 ≠ tbl.getD n 0 → avail env s (tbl'.getD n 0) := by
  by_cases hty : ELF_R_TYPE rela.r_info = R_IA64_FPTR64LSB
  · obtain ⟨-, hlt, hcase⟩ := reloc_non_plt_obj_fptr_ok hty h
    rcases hcase with ⟨-, ht, hsame, -⟩ | ⟨hz, p, s2, hp, ht, hs⟩
    · obtain ⟨-, -, hn, hl, hm, -⟩ := hsame
      exact ⟨tbl, ht, arena_ok_of_eq hn hl hm hok,
        fun a ha => (avail_of_eq hn hl hm a).mp ha, fun n hne => absurd rfl hne⟩
    · have hok1 : arena_ok env
          { s with trace := s.trace ++ [Event.find_symdef (ELF_R_SYM rela.r_info) false] } :=
        @arena_ok_of_eq env s _ rfl rfl rfl hok
      obtain ⟨hok2, hav, -, hmono⟩ := alloc_fptr_fresh hok1 hp
      have havs : avail env s p := (@avail_of_eq env s _ rfl rfl rfl p).mp hav
      refine ⟨_, ht, ?_, ?_, ?_⟩
      · rw [hs]; exact @arena_ok_of_eq env s2 _ rfl rfl rfl hok2
      · intro a ha
        rw [hs] at ha
        exact (@avail_of_eq env s _ rfl rfl rfl a).mp
          (hmono a ((@avail_of_eq env s2 _ rfl rfl rfl a).mp ha))
      · intro n hne
        rw [getD_set tbl _ n p hlt] at hne ⊢
        by_cases hn : n = ELF_R_SYM rela.r_info
        · simp only [hn, if_true]
          exact havs
        · simp only [hn, if_false] at hne
          exact absurd rfl hne
  · obtain ⟨v0, s0, h0, hsame, -⟩ :=
      reloc_non_plt_obj_other env obj_rtld obj rela (some tbl) s hty
    rw [h0] at h
    simp only [Result.ok.injEq, Prod.mk.injEq] at h
    obtain ⟨⟨-, ht⟩, hs⟩ := h
    subst hs
    obtain ⟨-, -, hn, hl, hm, -⟩ := hsame
    exact ⟨tbl, ht.symm, arena_ok_of_eq hn hl hm hok,
      fun a ha => (avail_of_eq hn hl hm a).mp ha, fun n hne => absurd rfl hne⟩

/-- A loop that returns 0, run in a sound arena: every slot of the table that has changed holds
a descriptor that was still to be handed out before the loop. -/
theorem rela_loop_avail (env : Env) (obj_rtld : Nat) (obj : Obj_Entry) (es : List Elf_Rela) :
    ∀ (tbl : List Nat) (s : State) (t' : Option (List Nat)) (s' : State),
      arena_ok env s → rela_loop env obj_rtld obj es (some tbl) s = .ok (0, t') s' →
      ∃ tbl', t' = some tbl' ∧ (∀ a, avail env s' a → avail env s a) ∧
        ∀ n, tbl'.getD n 0 ≠ tbl.getD n 0 → avail env s (tbl'.getD n 0) := by
  induction es with
  | nil =>
    intro tbl s t' s' _ h
    simp only [rela_loop, Result.ok.injEq, Prod.mk.injEq, true_and] at h
    obtain ⟨ht, hs⟩ := h
    subst hs
    exact ⟨tbl, ht.symm, fun a ha => ha, fun n hne => absurd rfl hne⟩
  | cons e rest ih =>
    intro tbl s t' s' hok h
    obtain ⟨t1, s1, hstep, hrest⟩ := rela_loop_cons_ok h
    obtain ⟨tbl1, rfl, hok1, hmono1, hnew1⟩ := reloc_non_plt_obj_avail hok hstep
    obtain ⟨tbl', ht', hmono', hnew'⟩ := ih tbl1 s1 t' s' hok1 hrest
    refine ⟨tbl', ht', fun a ha => hmono1 a (hmono' a ha), ?_⟩
    intro n hne
    by_cases h1 : tbl'.getD n 0 = tbl1.getD n 0
    · rw [h1] at hne ⊢
      exact hnew1 n hne
    · exact hmono1 _ (hnew' n h1)

/-- The value a pass returns and the state it ends in do not depend on `obj.priv`. -/
theorem reloc_non_plt_priv (env : Env) (obj : Obj_Entry) (obj_rtld : Nat) (s : State)
    (priv2 : Option (List Nat)) :
    ((reloc_non_plt env { obj with priv := priv2 } obj_rtld s).bind fun r st => .ok r.1 st) =
      ((reloc_non_plt env obj obj_rtld s).bind fun r st => .ok r.1 st) := by
  rw [reloc_non_plt_eq, reloc_non_plt_eq]
  have hstart : pass_start env { obj with priv := priv2 } obj_rtld s =
      pass_start env obj obj_rtld s := rfl
  have hent : reloc_entries { obj with priv := priv2 } = reloc_entries obj := rfl
  rw [hstart, hent, rela_loop_priv]
  by_cases hp : (pass_start env obj obj_rtld s).1 = 0
  · simp only [hp, if_true, bind_ok]
  · simp only [hp, if_false]
    cases rela_loop env obj_rtld obj (reloc_entries obj)
        (some (List.replicate obj.nchains 0)) (pass_start env obj obj_rtld s).2 with
    | ok r s3 =>
      simp only [bind_ok]
      by_cases hr : r.1 ≠ 0
      · rw [if_pos hr, if_pos hr]
        rfl
      · rw [if_neg hr, if_neg hr]
    | fault s3 => rfl
    | errx s3 => rfl
    | assert_fail s3 => rfl

/-- C22, amended: `reloc_non_plt` does not read `obj.priv`.  The value it returns and the state
it ends in (memory, arena, log) are the same for any two initial values of `obj.priv`.  When it
returns 0 the pass has run on a table of `nchains` slots that started empty: in a sound arena
every descriptor of that table, and so every descriptor address the pass left in the target
word of a descriptor entry (that no later entry targets), was still to be handed out when the
pass started, hence is none that existed before; and `obj.priv` is overwritten, with that table
for an object other than the loader and with null for the loader's own image. -/
theorem reloc_non_plt_ignores_priv (env : Env) (obj : Obj_Entry) (obj_rtld : Nat) (s : State)
    (priv2 : Option (List Nat)) (harena : arena_ok env s) :
    ((reloc_non_plt env { obj with priv := priv2 } obj_rtld s).bind fun r st => .ok r.1 st) =
        ((reloc_non_plt env obj obj_rtld s).bind fun r st => .ok r.1 st) ∧
      ∀ obj' s', reloc_non_plt env obj obj_rtld s = .ok (0, obj') s' →
        ∃ tbl', tbl'.length = obj.nchains ∧
          obj' = { obj with priv := if obj.addr ≠ obj_rtld then some tbl' else none } ∧
          (∀ n, tbl'.getD n 0 ≠ 0 → avail env s (tbl'.getD n 0)) ∧
          ∀ (l1 l2 : List Elf_Rela) (e : Elf_Rela), reloc_entries obj = l1 ++ e :: l2 →
            ELF_R_TYPE e.r_info = R_IA64_FPTR64LSB →
            (∀ x ∈ l2, reloc_where obj x ≠ reloc_where obj e) →
            s'.mem (reloc_where obj e) = tbl'.getD (ELF_R_SYM e.r_info) 0 ∧
              avail env s (s'.mem (reloc_where obj e)) ∧
              ∀ q, ¬ avail env s q → s'.mem (reloc_where obj e) ≠ q := by
  refine ⟨reloc_non_plt_priv env obj obj_rtld s priv2, ?_⟩
  intro obj' s' hrun
  obtain ⟨t', hloop, hobj⟩ := reloc_non_plt_ok hrun
  obtain ⟨hn, hl, -, hm, -⟩ := pass_start_arena env obj obj_rtld s
  have hok1 : arena_ok env (pass_start env obj obj_rtld s).2 := arena_ok_mono hn hl hm harena
  obtain ⟨tbl', ht', -, hnew⟩ := rela_loop_avail env obj_rtld obj _ _ _ t' s' hok1 hloop
  obtain ⟨tbl2, ht2, hlen, -, -⟩ := rela_loop_table env obj_rtld obj _ _ _ t' s' hloop
  have htt : tbl2 = tbl' := Option.some.inj (ht2.symm.trans ht')
  subst htt
  subst ht'
  have havail : ∀ n, tbl2.getD n 0 ≠ 0 → avail env s (tbl2.getD n 0) := by
    intro n hnz
    apply avail_mono hn hl hm
    apply hnew n
    rw [getD_replicate_zero]
    exact hnz
  refine ⟨tbl2, by rw [hlen, List.length_replicate], hobj, havail, ?_⟩
  intro l1 l2 e hsplit hty hlater
  rw [hsplit] at hloop
  obtain ⟨tbl3, ht3, hmem, hnz⟩ := rela_loop_fptr_stored hloop hty hlater
  have h3 : tbl3 = tbl2 := (Option.some.inj ht3).symm
  subst h3
  refine ⟨hmem, ?_, ?_⟩
  · rw [hmem]; exact havail _ hnz
  · intro q hq he
    rw [hmem] at he
    exact hq (he ▸ havail _ hnz)

set_option maxRecDepth 100000 in
/-- The instance of the amended C22 at the sample object with descriptor entries for the
symbols 5, 5, 9, compared with the same object holding some table in `priv`. -/
theorem reloc_non_plt_ignores_priv_witness :
    ((reloc_non_plt sample_env { sample_aab_obj with priv := some [7, 9] } 7
          sample_state).bind fun r st => .ok r.1 st) =
        ((reloc_non_plt sample_env sample_aab_obj 7 sample_state).bind
          fun r st => .ok r.1 st) ∧
      ∀ obj' s', reloc_non_plt sample_env sample_aab_obj 7 sample_state = .ok (0, obj') s' →
        ∃ tbl', tbl'.length = sample_aab_obj.nchains ∧
          obj' = { sample_aab_obj with
            priv := if sample_aab_obj.addr ≠ 7 then some tbl' else none } ∧
          (∀ n, tbl'.getD n 0 ≠ 0 → avail sample_env sample_state (tbl'.getD n 0)) ∧
          ∀ (l1 l2 : List Elf_Rela) (e : Elf_Rela),
            reloc_entries sample_aab_obj = l1 ++ e :: l2 →
            ELF_R_TYPE e.r_info = R_IA64_FPTR64LSB →
            (∀ x ∈ l2, reloc_where sample_aab_obj x ≠ reloc_where sample_aab_obj e) →
            s'.mem (reloc_where sample_aab_obj e) = tbl'.getD (ELF_R_SYM e.r_info) 0 ∧
              avail sample_env sample_state (s'.mem (reloc_where sample_aab_obj e)) ∧
              ∀ q, ¬ avail sample_env sample_state q →
                s'.mem (reloc_where sample_aab_obj e) ≠ q :=
  reloc_non_plt_ignores_priv sample_env sample_aab_obj 7 sample_state (some [7, 9])
    sample_arena_ok

set_option maxRecDepth 100000 in
/-- C22 as stated fails in its last part: for the loader's own image holding a table in `priv`,
the pass returns 0 after running on the table that ends as `[4096, 4112]`, and `obj.priv` is
overwritten with null, not with that table. -/
theorem reloc_non_plt_rtld_priv_counterexample :
    ({ sample_rtld_obj 2 with priv := some [7, 9] } : Obj_Entry).addr = 1 ∧
    ∃ obj' s', reloc_non_plt sample_env { sample_rtld_obj 2 with priv := some [7, 9] } 1
        sample_state = .ok (0, obj') s' ∧
      rela_loop sample_env 1 { sample_rtld_obj 2 with priv := some [7, 9] }
          (reloc_entries { sample_rtld_obj 2 with priv := some [7, 9] })
          (some (List.replicate 2 0))
          (pass_start sample_env { sample_rtld_obj 2 with priv := some [7, 9] } 1
            sample_state).2 = .ok (0, some [4096, 4112]) s' ∧
      obj'.priv = none ∧ obj'.priv ≠ some [4096, 4112] :=
  ⟨rfl, { sample_rtld_obj 2 with priv := none },
    (reloc_non_plt sample_env { sample_rtld_obj 2 with priv := some [7, 9] } 1
      sample_state).state, rfl, rfl, rfl, by decide⟩

end Rtld
